import Mathlib

/-!
# Verification of `bot.go`

A shallow embedding of the chat bot in `src/bot.go` and of the library
routines its behaviour depends on (`strings.IndexByte`, `encoding/json`'s
`Unmarshal` into the `contents` struct, `unicode/utf8`, `strconv.ParseInt`).

Conventions
* a Go `byte` is a `Nat` below 256, and a Go `string` or `[]byte` is the `List Nat` of its bytes;
* a run-time panic is `Except.error` carrying the panic message;
* a nil-able pointer is an `Option`;
* bit operations of the Go library are written with `/` and `%` by powers of two.
-/

namespace BotGo

deriving instance DecidableEq for Except

/-! ## `unicode/utf8` -/

/-- The rune `utf8.RuneError`, U+FFFD. -/
def RuneError : Nat := 0xFFFD

/-- Go `utf8.EncodeRune`: the UTF-8 encoding of rune `r`; a surrogate or a value
above U+10FFFF is encoded as `RuneError`. -/
def EncodeRune (r : Nat) : List Nat :=
  if r < 0x80 then [r]
  else if r < 0x800 then [0xC0 + r / 0x40, 0x80 + r % 0x40]
  else if 0x10FFFF < r ∨ (0xD800 ≤ r ∧ r ≤ 0xDFFF) then [0xEF, 0xBF, 0xBD]
  else if r < 0x10000 then [0xE0 + r / 0x1000, 0x80 + r / 0x40 % 0x40, 0x80 + r % 0x40]
  else [0xF0 + r / 0x40000, 0x80 + r / 0x1000 % 0x40, 0x80 + r / 0x40 % 0x40, 0x80 + r % 0x40]

/-- Go `utf8.DecodeRune`: the first rune of `p` and its width in bytes;
`(RuneError, 1)` for an invalid encoding and `(RuneError, 0)` for empty input. -/
def DecodeRune (p : List Nat) : Nat × Nat :=
  match p with
  | [] => (RuneError, 0)
  | p0 :: t =>
    if p0 < 0x80 then (p0, 1)
    else if p0 < 0xC2 ∨ 0xF4 < p0 then (RuneError, 1)
    else
      let sz := if p0 < 0xE0 then 2 else if p0 < 0xF0 then 3 else 4
      let lo := if p0 = 0xE0 then 0xA0 else if p0 = 0xF0 then 0x90 else 0x80
      let hi := if p0 = 0xED then 0x9F else if p0 = 0xF4 then 0x8F else 0xBF
      if t.length + 1 < sz then (RuneError, 1)
      else match t with
        | [] => (RuneError, 1)
        | b1 :: t1 =>
          if b1 < lo ∨ hi < b1 then (RuneError, 1)
          else if sz ≤ 2 then (p0 % 0x20 * 0x40 + b1 % 0x40, 2)
          else match t1 with
            | [] => (RuneError, 1)
            | b2 :: t2 =>
              if b2 < 0x80 ∨ 0xBF < b2 then (RuneError, 1)
              else if sz ≤ 3 then (p0 % 0x10 * 0x1000 + b1 % 0x40 * 0x40 + b2 % 0x40, 3)
              else match t2 with
                | [] => (RuneError, 1)
                | b3 :: _ =>
                  if b3 < 0x80 ∨ 0xBF < b3 then (RuneError, 1)
                  else (p0 % 0x08 * 0x40000 + b1 % 0x40 * 0x1000 + b2 % 0x40 * 0x40 + b3 % 0x40, 4)

/-- The bytes of a Lean string literal, as Go stores a string constant (UTF-8). -/
def utf8 (s : String) : List Nat :=
  s.toList.flatMap (fun c => EncodeRune c.toNat)

/-- The UTF-8 bytes of a sequence of Unicode characters. -/
def utf8Chars (cs : List Char) : List Nat :=
  cs.flatMap (fun c => EncodeRune c.toNat)

/-! ## `strings.IndexByte` and slicing -/

/-- Go `strings.IndexByte`: index of the first `c` in `s`, or `-1`. -/
def IndexByte : List Nat → Nat → Int
  | [], _ => -1
  | b :: bs, c =>
    if b = c then 0
    else
      let i := IndexByte bs c
      if i < 0 then -1 else i + 1

/-- The slice expression `s[:hi]`; panics when `hi` is out of range. -/
def sliceTo (s : List Nat) (hi : Int) : Except String (List Nat) :=
  if hi < 0 ∨ (s.length : Int) < hi then .error "slice bounds out of range"
  else .ok (s.take hi.toNat)

/-- The slice expression `s[lo:]`; panics when `lo` is out of range. -/
def sliceFrom (s : List Nat) (lo : Nat) : Except String (List Nat) :=
  if s.length < lo then .error "slice bounds out of range"
  else .ok (s.drop lo)

/-! ## `encoding/json`: the scanner (`scanner.go`) -/

/-- Op codes returned by a scanner step. -/
inductive ScanOp
  | scanContinue | scanBeginLiteral | scanBeginObject | scanObjectKey
  | scanObjectValue | scanEndObject | scanBeginArray | scanArrayValue
  | scanEndArray | scanSkipSpace | scanEnd | scanError
deriving DecidableEq, Repr

/-- Entries of the scanner's parse-state stack. -/
inductive ParseState
  | parseObjectKey | parseObjectValue | parseArrayValue
deriving DecidableEq, Repr

/-- The state functions a scanner's `step` field can hold. -/
inductive StepFn
  | stateBeginValueOrEmpty | stateBeginValue | stateBeginStringOrEmpty
  | stateBeginString | stateEndValue | stateEndTop
  | stateInString | stateInStringEsc | stateInStringEscU | stateInStringEscU1
  | stateInStringEscU12 | stateInStringEscU123
  | stateNeg | state1 | state0 | stateDot | stateDot0 | stateE | stateESign | stateE0
  | stateT | stateTr | stateTru | stateF | stateFa | stateFal | stateFals
  | stateN | stateNu | stateNul | stateError
deriving DecidableEq, Repr

/-- Go `json.scanner`. The parse-state stack has its top at the head of the list
(Go appends at the end). `err` holds the context of the syntax error, if any. -/
structure scanner where
  step : StepFn
  endTop : Bool
  parseState : List ParseState
  err : Option String
deriving DecidableEq, Repr

/-- Nesting limit of the scanner. -/
def maxNestingDepth : Nat := 10000

/-- Go `isSpace`. -/
def isSpace (c : Nat) : Bool :=
  c = 0x20 ∨ c = 0x09 ∨ c = 0x0D ∨ c = 0x0A

/-- Go `isDigit09`-style test `'0' <= c && c <= '9'`. -/
def isDigit (c : Nat) : Bool := 0x30 ≤ c ∧ c ≤ 0x39

/-- Go hex-digit test of the `\u` states. -/
def isHex (c : Nat) : Bool :=
  (0x30 ≤ c ∧ c ≤ 0x39) ∨ (0x61 ≤ c ∧ c ≤ 0x66) ∨ (0x41 ≤ c ∧ c ≤ 0x46)

/-- Go `scanner.reset`. -/
def scanner.reset : scanner :=
  { step := .stateBeginValue, endTop := false, parseState := [], err := none }

/-- Go `scanner.error`: record the error, park the scanner in `stateError`. -/
def scanner.error (s : scanner) (context : String) : scanner × ScanOp :=
  ({ s with step := .stateError, err := some context }, .scanError)

/-- Go `scanner.pushParseState`. -/
def scanner.pushParseState (s : scanner) (newParseState : ParseState)
    (successState : ScanOp) : scanner × ScanOp :=
  let s1 := { s with parseState := newParseState :: s.parseState }
  if s1.parseState.length ≤ maxNestingDepth then (s1, successState)
  else s1.error "exceeded max depth"

/-- Go `scanner.popParseState`. -/
def scanner.popParseState (s : scanner) : scanner :=
  let ps := s.parseState.tail
  if ps.length = 0 then { s with parseState := ps, step := .stateEndTop, endTop := true }
  else { s with parseState := ps, step := .stateEndValue }

/-- Go `stateEndTop`. -/
def stateEndTop (s : scanner) (c : Nat) : scanner × ScanOp :=
  if ¬ isSpace c then ((s.error "after top-level value").1, .scanEnd)
  else (s, .scanEnd)

/-- Go `stateEndValue`. -/
def stateEndValue (s : scanner) (c : Nat) : scanner × ScanOp :=
  match s.parseState with
  | [] => stateEndTop { s with step := .stateEndTop, endTop := true } c
  | ps :: rest =>
    if isSpace c then ({ s with step := .stateEndValue }, .scanSkipSpace)
    else match ps with
      | .parseObjectKey =>
        if c = 0x3A then
          ({ s with parseState := .parseObjectValue :: rest, step := .stateBeginValue },
            .scanObjectKey)
        else s.error "after object key"
      | .parseObjectValue =>
        if c = 0x2C then
          ({ s with parseState := .parseObjectKey :: rest, step := .stateBeginString },
            .scanObjectValue)
        else if c = 0x7D then (s.popParseState, .scanEndObject)
        else s.error "after object key:value pair"
      | .parseArrayValue =>
        if c = 0x2C then ({ s with step := .stateBeginValue }, .scanArrayValue)
        else if c = 0x5D then (s.popParseState, .scanEndArray)
        else s.error "after array element"

/-- Go `stateBeginValue`. -/
def stateBeginValue (s : scanner) (c : Nat) : scanner × ScanOp :=
  if isSpace c then (s, .scanSkipSpace)
  else if c = 0x7B then
    { s with step := .stateBeginStringOrEmpty }.pushParseState .parseObjectKey .scanBeginObject
  else if c = 0x5B then
    { s with step := .stateBeginValueOrEmpty }.pushParseState .parseArrayValue .scanBeginArray
  else if c = 0x22 then ({ s with step := .stateInString }, .scanBeginLiteral)
  else if c = 0x2D then ({ s with step := .stateNeg }, .scanBeginLiteral)
  else if c = 0x30 then ({ s with step := .state0 }, .scanBeginLiteral)
  else if c = 0x74 then ({ s with step := .stateT }, .scanBeginLiteral)
  else if c = 0x66 then ({ s with step := .stateF }, .scanBeginLiteral)
  else if c = 0x6E then ({ s with step := .stateN }, .scanBeginLiteral)
  else if 0x31 ≤ c ∧ c ≤ 0x39 then ({ s with step := .state1 }, .scanBeginLiteral)
  else s.error "looking for beginning of value"

/-- Go `stateBeginValueOrEmpty`. -/
def stateBeginValueOrEmpty (s : scanner) (c : Nat) : scanner × ScanOp :=
  if isSpace c then (s, .scanSkipSpace)
  else if c = 0x5D then stateEndValue s c
  else stateBeginValue s c

/-- Go `stateBeginString`. -/
def stateBeginString (s : scanner) (c : Nat) : scanner × ScanOp :=
  if isSpace c then (s, .scanSkipSpace)
  else if c = 0x22 then ({ s with step := .stateInString }, .scanBeginLiteral)
  else s.error "looking for beginning of object key string"

/-- Go `stateBeginStringOrEmpty`. -/
def stateBeginStringOrEmpty (s : scanner) (c : Nat) : scanner × ScanOp :=
  if isSpace c then (s, .scanSkipSpace)
  else if c = 0x7D then
    stateEndValue { s with parseState := .parseObjectValue :: s.parseState.tail } c
  else stateBeginString s c

/-- Go `stateInString`. -/
def stateInString (s : scanner) (c : Nat) : scanner × ScanOp :=
  if c = 0x22 then ({ s with step := .stateEndValue }, .scanContinue)
  else if c = 0x5C then ({ s with step := .stateInStringEsc }, .scanContinue)
  else if c < 0x20 then s.error "in string literal"
  else (s, .scanContinue)

/-- Go `stateInStringEsc`. -/
def stateInStringEsc (s : scanner) (c : Nat) : scanner × ScanOp :=
  if c = 0x62 ∨ c = 0x66 ∨ c = 0x6E ∨ c = 0x72 ∨ c = 0x74 ∨ c = 0x5C ∨ c = 0x2F ∨ c = 0x22 then
    ({ s with step := .stateInString }, .scanContinue)
  else if c = 0x75 then ({ s with step := .stateInStringEscU }, .scanContinue)
  else s.error "in string escape code"

/-- Go `stateInStringEscU`, `stateInStringEscU1`, `stateInStringEscU12`,
`stateInStringEscU123`: one hexadecimal digit, then on to `next`. -/
def stateHex (next : StepFn) (s : scanner) (c : Nat) : scanner × ScanOp :=
  if isHex c then ({ s with step := next }, .scanContinue)
  else s.error "in \\u hexadecimal character escape"

/-- Go `state0`. -/
def state0 (s : scanner) (c : Nat) : scanner × ScanOp :=
  if c = 0x2E then ({ s with step := .stateDot }, .scanContinue)
  else if c = 0x65 ∨ c = 0x45 then ({ s with step := .stateE }, .scanContinue)
  else stateEndValue s c

/-- Go `state1`. -/
def state1 (s : scanner) (c : Nat) : scanner × ScanOp :=
  if isDigit c then ({ s with step := .state1 }, .scanContinue)
  else state0 s c

/-- Go `stateNeg`. -/
def stateNeg (s : scanner) (c : Nat) : scanner × ScanOp :=
  if c = 0x30 then ({ s with step := .state0 }, .scanContinue)
  else if 0x31 ≤ c ∧ c ≤ 0x39 then ({ s with step := .state1 }, .scanContinue)
  else s.error "in numeric literal"

/-- Go `stateDot`. -/
def stateDot (s : scanner) (c : Nat) : scanner × ScanOp :=
  if isDigit c then ({ s with step := .stateDot0 }, .scanContinue)
  else s.error "after decimal point in numeric literal"

/-- Go `stateDot0`. -/
def stateDot0 (s : scanner) (c : Nat) : scanner × ScanOp :=
  if isDigit c then (s, .scanContinue)
  else if c = 0x65 ∨ c = 0x45 then ({ s with step := .stateE }, .scanContinue)
  else stateEndValue s c

/-- Go `stateESign`. -/
def stateESign (s : scanner) (c : Nat) : scanner × ScanOp :=
  if isDigit c then ({ s with step := .stateE0 }, .scanContinue)
  else s.error "in exponent of numeric literal"

/-- Go `stateE`. -/
def stateE (s : scanner) (c : Nat) : scanner × ScanOp :=
  if c = 0x2B ∨ c = 0x2D then ({ s with step := .stateESign }, .scanContinue)
  else stateESign s c

/-- Go `stateE0`. -/
def stateE0 (s : scanner) (c : Nat) : scanner × ScanOp :=
  if isDigit c then (s, .scanContinue)
  else stateEndValue s c

/-- The letter states `stateT` .. `stateNul`: expect byte `want`, then on to `next`. -/
def stateLetter (want : Nat) (next : StepFn) (context : String)
    (s : scanner) (c : Nat) : scanner × ScanOp :=
  if c = want then ({ s with step := next }, .scanContinue)
  else s.error context

/-- The call `s.step(s, c)`: dispatch on the state function held in `s.step`. -/
def scanner.doStep (s : scanner) (c : Nat) : scanner × ScanOp :=
  match s.step with
  | .stateBeginValueOrEmpty => stateBeginValueOrEmpty s c
  | .stateBeginValue => stateBeginValue s c
  | .stateBeginStringOrEmpty => stateBeginStringOrEmpty s c
  | .stateBeginString => stateBeginString s c
  | .stateEndValue => stateEndValue s c
  | .stateEndTop => stateEndTop s c
  | .stateInString => stateInString s c
  | .stateInStringEsc => stateInStringEsc s c
  | .stateInStringEscU => stateHex .stateInStringEscU1 s c
  | .stateInStringEscU1 => stateHex .stateInStringEscU12 s c
  | .stateInStringEscU12 => stateHex .stateInStringEscU123 s c
  | .stateInStringEscU123 => stateHex .stateInString s c
  | .stateNeg => stateNeg s c
  | .state1 => state1 s c
  | .state0 => state0 s c
  | .stateDot => stateDot s c
  | .stateDot0 => stateDot0 s c
  | .stateE => stateE s c
  | .stateESign => stateESign s c
  | .stateE0 => stateE0 s c
  | .stateT => stateLetter 0x72 .stateTr "in literal true (expecting r)" s c
  | .stateTr => stateLetter 0x75 .stateTru "in literal true (expecting u)" s c
  | .stateTru => stateLetter 0x65 .stateEndValue "in literal true (expecting e)" s c
  | .stateF => stateLetter 0x61 .stateFa "in literal false (expecting a)" s c
  | .stateFa => stateLetter 0x6C .stateFal "in literal false (expecting l)" s c
  | .stateFal => stateLetter 0x73 .stateFals "in literal false (expecting s)" s c
  | .stateFals => stateLetter 0x65 .stateEndValue "in literal false (expecting e)" s c
  | .stateN => stateLetter 0x75 .stateNu "in literal null (expecting u)" s c
  | .stateNu => stateLetter 0x6C .stateNul "in literal null (expecting l)" s c
  | .stateNul => stateLetter 0x6C .stateEndValue "in literal null (expecting l)" s c
  | .stateError => (s, .scanError)

/-- Go `scanner.eof`. -/
def scanner.eof (s : scanner) : scanner × ScanOp :=
  if s.err.isSome then (s, .scanError)
  else if s.endTop then (s, .scanEnd)
  else
    let s1 := (s.doStep 0x20).1
    if s1.endTop then (s1, .scanEnd)
    else if s1.err.isNone then ({ s1 with err := some "unexpected end of JSON input" }, .scanError)
    else (s1, .scanError)

/-- The loop of Go `checkValid`: the syntax error found in `data`, if any. -/
def checkValidFrom (s : scanner) : List Nat → Option String
  | [] => if s.eof.2 = .scanError then s.eof.1.err else none
  | c :: cs =>
    let r := s.doStep c
    if r.2 = .scanError then r.1.err else checkValidFrom r.1 cs

/-- Go `checkValid`: `none` when `data` is one syntactically valid JSON value. -/
def checkValid (data : List Nat) : Option String :=
  checkValidFrom scanner.reset data

/-! ## The decoded record (`src/bot.go`, `type contents`) -/

/-- Go `contents`: the payload of a frame. A value made by `contents{}` has every
field at its zero value. -/
structure contents where
  Nick : List Nat := []
  Data : List Nat := []
  Timestamp : Int := 0
deriving DecidableEq, Repr

/-! ## `strconv.ParseInt` (base 10, 64 bits) -/

/-- Digit loop of Go `strconv.ParseUint` in base 10. The accumulator is unbounded
here; the range check is made once by `ParseInt`, which rejects exactly the
inputs on which Go reports `ErrRange`. -/
def parseDigits (acc : Nat) : List Nat → Option Nat
  | [] => some acc
  | c :: cs => if isDigit c then parseDigits (acc * 10 + (c - 0x30)) cs else none

/-- Go `strconv.ParseUint(s, 10, 64)` without the range check; `none` is a syntax error. -/
def ParseUint (s : List Nat) : Option Nat :=
  if s = [] then none else parseDigits 0 s

/-- Go `strconv.ParseInt(s, 10, 64)`; `none` when Go returns an error (syntax or range). -/
def ParseInt (s : List Nat) : Option Int :=
  match s with
  | [] => none
  | c0 :: t =>
    let neg : Bool := c0 = 0x2D
    let body := if c0 = 0x2B ∨ c0 = 0x2D then t else s
    match ParseUint body with
    | none => none
    | some un =>
      if ¬ neg ∧ 2 ^ 63 ≤ un then none
      else if neg ∧ 2 ^ 63 < un then none
      else some (if neg then -(un : Int) else (un : Int))

/-! ## `encoding/json`: unquoting string literals (`decode.go`) -/

/-- Value of one hexadecimal digit, as in Go `getu4`. -/
def hexVal (c : Nat) : Option Nat :=
  if 0x30 ≤ c ∧ c ≤ 0x39 then some (c - 0x30)
  else if 0x61 ≤ c ∧ c ≤ 0x66 then some (c - 0x61 + 10)
  else if 0x41 ≤ c ∧ c ≤ 0x46 then some (c - 0x41 + 10)
  else none

/-- Go `getu4`: the rune of the `\uXXXX` escape at the start of `s`; `none` is Go's `-1`. -/
def getu4 (s : List Nat) : Option Nat :=
  match s with
  | b :: u :: h1 :: h2 :: h3 :: h4 :: _ =>
    if b ≠ 0x5C ∨ u ≠ 0x75 then none
    else
      match hexVal h1, hexVal h2, hexVal h3, hexVal h4 with
      | some a, some b, some c, some d => some (((a * 16 + b) * 16 + c) * 16 + d)
      | _, _, _, _ => none
  | _ => none

/-- Go `utf16.DecodeRune` applied to `r1` and the result of a second `getu4`. -/
def utf16DecodeRune (r1 : Nat) (r2 : Option Nat) : Nat :=
  match r2 with
  | some r2 =>
    if 0xD800 ≤ r1 ∧ r1 < 0xDC00 ∧ 0xDC00 ≤ r2 ∧ r2 < 0xE000 then
      (r1 - 0xD800) * 0x400 + (r2 - 0xDC00) + 0x10000
    else 0xFFFD
  | none => 0xFFFD

/-- First loop of Go `unquoteBytes`: the index `r` of the first byte that needs
unquoting (a backslash, a quote, a control byte, invalid UTF-8), or the length. -/
def unquoteScan : Nat → List Nat → Nat
  | 0, _ => 0
  | _, [] => 0
  | fuel + 1, c :: t =>
    if c = 0x5C ∨ c = 0x22 ∨ c < 0x20 then 0
    else if c < 0x80 then 1 + unquoteScan fuel t
    else
      let rs := DecodeRune (c :: t)
      if rs.1 = RuneError ∧ rs.2 = 1 then 0
      else rs.2 + unquoteScan fuel ((c :: t).drop rs.2)

/-- One round of the second loop of Go `unquoteBytes` on the unread bytes `s`:
the bytes written and the bytes left unread, or `none` when Go returns `ok = false`. -/
def unquoteStep (s : List Nat) : Option (List Nat × List Nat) :=
  match s with
  | [] => none
  | c :: t =>
    if c = 0x5C then
      match t with
      | [] => none
      | e :: t1 =>
        if e = 0x22 ∨ e = 0x5C ∨ e = 0x2F ∨ e = 0x27 then some ([e], t1)
        else if e = 0x62 then some ([0x08], t1)
        else if e = 0x66 then some ([0x0C], t1)
        else if e = 0x6E then some ([0x0A], t1)
        else if e = 0x72 then some ([0x0D], t1)
        else if e = 0x74 then some ([0x09], t1)
        else if e = 0x75 then
          match getu4 (c :: t) with
          | none => none
          | some rr =>
            let t6 := t.drop 5
            if 0xD800 ≤ rr ∧ rr < 0xE000 then
              let dec := utf16DecodeRune rr (getu4 t6)
              if dec ≠ 0xFFFD then some (EncodeRune dec, t6.drop 6)
              else some (EncodeRune 0xFFFD, t6)
            else some (EncodeRune rr, t6)
        else none
    else if c = 0x22 ∨ c < 0x20 then none
    else if c < 0x80 then some ([c], t)
    else
      let rs := DecodeRune (c :: t)
      some (EncodeRune rs.1, (c :: t).drop rs.2)

/-- Second loop of Go `unquoteBytes`: the unquoted bytes of `s`, or `none` when
Go returns `ok = false`. Every round consumes at least one byte of `s`, so
`fuel = len(s)` rounds are enough. -/
def unquoteLoop : Nat → List Nat → Option (List Nat)
  | _, [] => some []
  | 0, _ :: _ => none
  | fuel + 1, c :: t =>
    match unquoteStep (c :: t) with
    | none => none
    | some (out, rest) => (unquoteLoop fuel rest).map (out ++ ·)

/-- Go `unquoteBytes`: the contents of the quoted JSON string literal `s`. -/
def unquoteBytes (s : List Nat) : Option (List Nat) :=
  if s.length < 2 ∨ s.head? ≠ some 0x22 ∨ s.getLast? ≠ some 0x22 then none
  else
    let s := (s.drop 1).dropLast
    let r := unquoteScan s.length s
    if r = s.length then some s
    else (unquoteLoop s.length (s.drop r)).map (s.take r ++ ·)

/-! ## `encoding/json`: matching object keys to struct fields -/

/-- The fields of `contents`, in declaration order. -/
inductive Field
  | Nick | Data | Timestamp
deriving DecidableEq, Repr

/-- The JSON name of each field, from the struct tags
`json:"nick"`, `json:"data"`, `json:"timestamp"`. -/
def Field.name : Field → List Nat
  | .Nick => utf8 "nick"
  | .Data => utf8 "data"
  | .Timestamp => utf8 "timestamp"

/-- Go `foldRune`: the smallest rune of the case-folding orbit of `r`. Only the
orbits that contain an ASCII letter are tabulated (the Kelvin sign folds to `K`,
the long s to `S`); a rune of any other orbit is left in place, which yields the
same comparisons with the folded field names, all of whose runes are ASCII capitals. -/
def foldRune (r : Nat) : Nat :=
  if 0x61 ≤ r ∧ r ≤ 0x7A then r - 0x20
  else if r = 0x212A then 0x4B
  else if r = 0x17F then 0x53
  else r

/-- Go `foldName` (`appendFoldedName`): case-folded form of an object key. -/
def foldName : Nat → List Nat → List Nat
  | _, [] => []
  | 0, _ :: _ => []
  | fuel + 1, c :: t =>
    if c < 0x80 then
      (if 0x61 ≤ c ∧ c ≤ 0x7A then c - 0x20 else c) :: foldName fuel t
    else
      let rs := DecodeRune (c :: t)
      EncodeRune (foldRune rs.1) ++ foldName fuel ((c :: t).drop rs.2)

/-- The field for an object key: `fields.byExactName[key]`, and failing that
`fields.byFoldedName[foldName(key)]`. -/
def lookupField (key : List Nat) : Option Field :=
  let fields := [Field.Nick, Field.Data, Field.Timestamp]
  match fields.find? (fun f => f.name = key) with
  | some f => some f
  | none =>
    fields.find? (fun f => foldName f.name.length f.name = foldName key.length key)

/-! ## `encoding/json`: the decoder (`decode.go`), specialised to `*contents` -/

/-- The errors `Unmarshal` can return. -/
inductive JsonError
  | SyntaxError (msg : String)
  | UnmarshalTypeError (value : String)
deriving DecidableEq, Repr

/-- The `reflect.Value` a JSON value is decoded into: the struct behind the
pointer given to `Unmarshal`, one of its fields, or the zero `reflect.Value`
(`IsValid() = false`) used for a key that matches no field. -/
inductive Dest
  | top
  | field (f : Field)
  | invalid
deriving DecidableEq, Repr

/-- Go `reflect.Value.IsValid`. -/
def Dest.IsValid : Dest → Bool
  | .invalid => false
  | _ => true

/-- The destination for the value of an object member with key `key`: the
field the key matches, or the zero `reflect.Value` when it matches none. -/
def keyDest (key : List Nat) : Dest :=
  match lookupField key with
  | some f => .field f
  | none => .invalid

/-- Go `decodeState`. The pair `data`, `off` is kept as `unread = data[off:]`
together with `last = data[off-1]`, the byte at `readIndex()`. -/
structure decodeState where
  unread : List Nat
  last : Nat
  opcode : ScanOp
  scan : scanner
  savedError : Option JsonError
deriving DecidableEq, Repr

/-- Panic message of the decoder. -/
def phasePanicMsg : String := "JSON decoder out of sync - data changing underfoot?"

/-- Go `decodeState.saveError`: keep the first error, go on decoding. -/
def decodeState.saveError (d : decodeState) (err : JsonError) : decodeState :=
  if d.savedError.isNone then { d with savedError := some err } else d

/-- Go `decodeState.scanNext`. -/
def decodeState.scanNext (d : decodeState) : decodeState :=
  match d.unread with
  | c :: cs =>
    let r := d.scan.doStep c
    { d with unread := cs, last := c, scan := r.1, opcode := r.2 }
  | [] =>
    let r := d.scan.eof
    { d with scan := r.1, opcode := r.2 }

/-- Loop of Go `decodeState.scanWhile`. -/
def scanWhileLoop (d : decodeState) (op : ScanOp) (s : scanner) : List Nat → decodeState
  | [] =>
    let r := s.eof
    { d with unread := [], scan := r.1, opcode := r.2 }
  | c :: cs =>
    let r := s.doStep c
    if r.2 ≠ op then { d with unread := cs, last := c, scan := r.1, opcode := r.2 }
    else scanWhileLoop d op r.1 cs

/-- Go `decodeState.scanWhile`: step the scanner until it returns another op code than `op`. -/
def decodeState.scanWhile (d : decodeState) (op : ScanOp) : decodeState :=
  scanWhileLoop d op d.scan d.unread

/-- Loop of Go `decodeState.skip`; reading past the end of the data panics. -/
def skipLoop (d : decodeState) (depth : Nat) (s : scanner) :
    List Nat → Except String decodeState
  | [] => .error "index out of range"
  | c :: cs =>
    let r := s.doStep c
    if r.1.parseState.length < depth then
      .ok { d with unread := cs, last := c, scan := r.1, opcode := r.2 }
    else skipLoop d depth r.1 cs

/-- Go `decodeState.skip`: scan to the end of the array or object just begun. -/
def decodeState.skip (d : decodeState) : Except String decodeState :=
  skipLoop d d.scan.parseState.length d.scan d.unread

/-- String loop of Go `rescanLiteral`: the bytes up to and including the closing
quote, and what follows them. A backslash as last byte moves the index past
the end of the data, and the slice of the literal then panics. -/
def rescanString : List Nat → Except String (List Nat × List Nat)
  | [] => .ok ([], [])
  | c :: cs =>
    if c = 0x5C then
      match cs with
      | [] => .error "slice bounds out of range"
      | e :: cs1 => (rescanString cs1).map (fun r => (c :: e :: r.1, r.2))
    else if c = 0x22 then .ok ([c], cs)
    else (rescanString cs).map (fun r => (c :: r.1, r.2))

/-- Number loop of Go `rescanLiteral`: the leading bytes among `0-9 . e E + -`. -/
def rescanNumber : List Nat → List Nat × List Nat
  | [] => ([], [])
  | c :: cs =>
    if isDigit c ∨ c = 0x2E ∨ c = 0x65 ∨ c = 0x45 ∨ c = 0x2B ∨ c = 0x2D then
      ((c :: (rescanNumber cs).1), (rescanNumber cs).2)
    else ([], c :: cs)

/-- The steps `i += len("rue")` and the like of Go `rescanLiteral`. -/
def rescanFixed (n : Nat) (l : List Nat) : Except String (List Nat × List Nat) :=
  if l.length < n then .error "slice bounds out of range" else .ok (l.take n, l.drop n)

/-- The `switch data[i-1]` of Go `rescanLiteral`: from the first byte `c0` of a
literal and the bytes `unread` after it, the rest of the literal and what follows it. -/
def rescanBody (c0 : Nat) (unread : List Nat) : Except String (List Nat × List Nat) :=
  if c0 = 0x22 then rescanString unread
  else if isDigit c0 ∨ c0 = 0x2D then .ok (rescanNumber unread)
  else if c0 = 0x74 then rescanFixed 3 unread
  else if c0 = 0x66 then rescanFixed 4 unread
  else if c0 = 0x6E then rescanFixed 3 unread
  else .ok ([], unread)

/-- Go `decodeState.rescanLiteral`, returning also the literal
`d.data[start:d.readIndex()]` its callers slice out. The op code after the
literal comes from a direct call of `stateEndValue` on the byte that follows. -/
def decodeState.rescanLiteral (d : decodeState) : Except String (List Nat × decodeState) :=
  match rescanBody d.last d.unread with
  | .error e => .error e
  | .ok (body, []) => .ok (d.last :: body, { d with unread := [], opcode := .scanEnd })
  | .ok (body, c :: cs) =>
    let r := stateEndValue d.scan c
    .ok (d.last :: body, { d with unread := cs, last := c, scan := r.1, opcode := r.2 })

/-- Go `decodeState.literalStore` for the kinds of `contents`: a struct, two
strings and an int64. `null` is ignored for all of them. -/
def decodeState.literalStore (d : decodeState) (item : List Nat) (v : Dest) (c : contents) :
    Except String (contents × decodeState) :=
  match item with
  | [] => .ok (c, d.saveError (.SyntaxError "invalid use of ,string struct tag"))
  | c0 :: _ =>
    if c0 = 0x6E then .ok (c, d)
    else if c0 = 0x74 ∨ c0 = 0x66 then .ok (c, d.saveError (.UnmarshalTypeError "bool"))
    else if c0 = 0x22 then
      match unquoteBytes item with
      | none => .error phasePanicMsg
      | some s =>
        match v with
        | .field .Nick => .ok ({ c with Nick := s }, d)
        | .field .Data => .ok ({ c with Data := s }, d)
        | _ => .ok (c, d.saveError (.UnmarshalTypeError "string"))
    else if c0 ≠ 0x2D ∧ (c0 < 0x30 ∨ 0x39 < c0) then .error phasePanicMsg
    else
      match v with
      | .field .Timestamp =>
        match ParseInt item with
        | some n => .ok ({ c with Timestamp := n }, d)
        | none => .ok (c, d.saveError (.UnmarshalTypeError "number"))
      | _ => .ok (c, d.saveError (.UnmarshalTypeError "number"))

/-- Go `decodeState.value` for a destination that is a field of `contents` or
invalid. `d.array(v)` and `d.object(v)` on a string or int64 save a type error
and skip the value, so no nested value is ever decoded. -/
def decodeState.valueField (d : decodeState) (v : Dest) (c : contents) :
    Except String (contents × decodeState) :=
  match d.opcode with
  | .scanBeginArray =>
    let d1 := if v.IsValid then d.saveError (.UnmarshalTypeError "array") else d
    match d1.skip with
    | .error e => .error e
    | .ok d2 => .ok (c, d2.scanNext)
  | .scanBeginObject =>
    let d1 := if v.IsValid then d.saveError (.UnmarshalTypeError "object") else d
    match d1.skip with
    | .error e => .error e
    | .ok d2 => .ok (c, d2.scanNext)
  | .scanBeginLiteral =>
    match d.rescanLiteral with
    | .error e => .error e
    | .ok (item, d1) => if v.IsValid then d1.literalStore item v c else .ok (c, d1)
  | _ => .error phasePanicMsg

/-- Go `decodeState.object` decoding into the struct `contents`: one round of
the loop per member. `fuel` bounds the number of rounds; every round consumes
input, so the length of the data is enough. -/
def decodeState.object : Nat → decodeState → contents → Except String (contents × decodeState)
  | 0, _, _ => .error "out of fuel"
  | fuel + 1, d, c =>
    let d1 := d.scanWhile .scanSkipSpace
    if d1.opcode = .scanEndObject then .ok (c, d1)
    else if d1.opcode ≠ .scanBeginLiteral then .error phasePanicMsg
    else
      match d1.rescanLiteral with
      | .error e => .error e
      | .ok (item, d2) =>
        match unquoteBytes item with
        | none => .error phasePanicMsg
        | some key =>
          let subv : Dest := keyDest key
          let d3 := if d2.opcode = .scanSkipSpace then d2.scanWhile .scanSkipSpace else d2
          if d3.opcode ≠ .scanObjectKey then .error phasePanicMsg
          else
            match (d3.scanWhile .scanSkipSpace).valueField subv c with
            | .error e => .error e
            | .ok (c1, d4) =>
              let d5 := if d4.opcode = .scanSkipSpace then d4.scanWhile .scanSkipSpace else d4
              if d5.opcode = .scanEndObject then .ok (c1, d5)
              else if d5.opcode ≠ .scanObjectValue then .error phasePanicMsg
              else decodeState.object fuel d5 c1

/-- Go `decodeState.value` for the top-level destination, the struct `contents`. -/
def decodeState.value (d : decodeState) (c : contents) : Except String (contents × decodeState) :=
  match d.opcode with
  | .scanBeginArray =>
    match (d.saveError (.UnmarshalTypeError "array")).skip with
    | .error e => .error e
    | .ok d1 => .ok (c, d1.scanNext)
  | .scanBeginObject =>
    match d.object (d.unread.length + 1) c with
    | .error e => .error e
    | .ok (c1, d1) => .ok (c1, d1.scanNext)
  | .scanBeginLiteral =>
    match d.rescanLiteral with
    | .error e => .error e
    | .ok (item, d1) => d1.literalStore item .top c
  | _ => .error phasePanicMsg

/-- Go `decodeState.unmarshal` on data that passed `checkValid`. -/
def decodeState.unmarshal (data : List Nat) (c : contents) :
    Except String (contents × Option JsonError) :=
  let d : decodeState :=
    { unread := data, last := 0, opcode := .scanContinue, scan := scanner.reset,
      savedError := none }
  match (d.scanWhile .scanSkipSpace).value c with
  | .error e => .error e
  | .ok (c1, d1) => .ok (c1, d1.savedError)

/-- Go `json.Unmarshal(data, &c)`: the value of `c` afterwards and the error
returned. Data that is not syntactically valid leaves `c` untouched. -/
def Unmarshal (data : List Nat) (c : contents) : Except String (contents × Option JsonError) :=
  match checkValid data with
  | some msg => .ok (c, some (.SyntaxError msg))
  | none => decodeState.unmarshal data c

/-! ## `src/bot.go`: the frame codec -/

/-- Go `message`; the field `Type` is written `Type_`, `Type` being reserved. -/
structure message where
  Type_ : List Nat := []
  Contents : Option contents := none
deriving DecidableEq, Repr

/-- Go `parseContents`: decode `received[length:]` into a fresh `contents`,
dropping the error of `json.Unmarshal`; the pointer returned is never nil. -/
def parseContents (received : List Nat) (length : Nat) : Except String contents :=
  match sliceFrom received length with
  | .error e => .error e
  | .ok body =>
    match Unmarshal body {} with
    | .error e => .error e
    | .ok (c, _) => .ok c

/-- Go `parseMessage`. -/
def parseMessage (msg : List Nat) : Except String message :=
  let received := msg
  match sliceTo received (IndexByte received 0x20) with
  | .error e => .error e
  | .ok msgType =>
    match parseContents received msgType.length with
    | .error e => .error e
    | .ok c => .ok { Type_ := msgType, Contents := some c }

/-! ## `src/bot.go`: the connection state machine, receive loop and reply

The websocket library is outside the repository. Its behaviour is a parameter
(`Transport`), the frames it delivers are a script (`World.inbox`), and every
call made to it, and every line printed, is recorded in `World.trace`.
Calls are taken one at a time: each method locks `mu` on entry and unlocks it
on return, so the mutex is free between calls and is not represented. -/

/-- A non-nil `*websocket.Conn`; handles are told apart by a number. -/
abbrev Conn := Nat

/-- Go `http.Header`, as the list of its keys with their value. -/
abbrev Header := List (String × List Nat)

/-- Go `websocket.TextMessage`. -/
def TextMessage : Nat := 1

/-- The `error` values of the program. -/
inductive GoError
  /-- The value `errors.New(msg)`. -/
  | New (msg : String)
  /-- The value `fmt.Errorf("handshake failed with status %v", resp)`; `resp` is
  the `*http.Response` of the failed dial, by its status code, or nil. -/
  | HandshakeFailed (resp : Option Nat)
  /-- An error value made by the websocket library. -/
  | Transport (code : Nat)
deriving DecidableEq, Repr

/-- Effects on the outside world, in the order they happen. -/
inductive Event
  | Dial (url : List Nat) (header : Header)
  | ReadMessage (conn : Conn)
  | WriteMessage (conn : Conn) (messageType : Nat) (data : List Nat)
  | Close (conn : Conn)
  | Println (text : List Nat)
  | PrintContents (c : contents)
  | PrintError (err : GoError)
deriving DecidableEq, Repr

/-- The websocket library: what `Dial` answers for a url and header (a
connection, or the response of a failed handshake), and the error, if any, of
`WriteMessage` and `Close`. -/
structure Transport where
  Dial : List Nat → Header → Except (Option Nat) Conn
  WriteMessage : Conn → Nat → List Nat → Option GoError
  Close : Conn → Option GoError

/-- What one call of `ReadMessage` returns: a frame or an error. -/
inductive ReadResult
  | Frame (msg : List Nat)
  | Err (err : GoError)
deriving DecidableEq, Repr

/-- The outside world: the results the coming `ReadMessage` calls return, and
the effects performed so far. -/
structure World where
  inbox : List ReadResult := []
  trace : List Event := []
deriving DecidableEq, Repr

/-- Go `bot`, without the mutex. -/
structure bot where
  authToken : List Nat := []
  address : List Nat := []
  conn : Option Conn := none
deriving DecidableEq, Repr

/-- How a call that may not return ends. -/
inductive Exit
  /-- `log.Fatal(err)`: the process exits with status 1. -/
  | Fatal (err : GoError)
  /-- A run-time panic ends the process. -/
  | Panic (msg : String)
  /-- The call waits for a frame that never comes. -/
  | Blocked
deriving DecidableEq, Repr

/-- Result of `connect`: it returns an error value, or the process ends inside it. -/
inductive Outcome
  | Returned (err : Option GoError)
  | Exited (e : Exit)
deriving DecidableEq, Repr

/-- Go `newBot`. -/
def newBot (authToken : List Nat) : bot :=
  { authToken := utf8 ";jwt=" ++ authToken }

/-- Go `bot.setAddress`: the error returned and the bot afterwards. -/
def bot.setAddress (b : bot) (url : List Nat) : Option GoError × bot :=
  if url = [] then (some (.New "url address not supplied"), b)
  else (none, { b with address := url })

/-- The frame `send` formats:
`fmt.Sprintf("PRIVMSG {\"nick\": \"%s\", \"data\": \"MiyanoBird\"}", username)`. -/
def sendFrame (username : List Nat) : List Nat :=
  utf8 "PRIVMSG \x7b\"nick\": \"" ++ username ++ utf8 "\", \"data\": \"MiyanoBird\"\x7d"

/-- Go `bot.send`: the error returned and the world afterwards. -/
def bot.send (T : Transport) (b : bot) (username : List Nat) (w : World) :
    Option GoError × World :=
  match b.conn with
  | none => (some (.New "no connection available"), w)
  | some conn =>
    let frame := sendFrame username
    (T.WriteMessage conn TextMessage frame,
      { w with trace := w.trace ++ [.WriteMessage conn TextMessage frame] })

/-- Body of the loop of Go `bot.listen` after a successful read of `msg`:
print the frame, parse it, and answer a `PRIVMSG`. A panic of `parseMessage`
ends the process. -/
def bot.handle (T : Transport) (b : bot) (msg : List Nat) (w : World) : Except String World :=
  let w1 := { w with trace := w.trace ++ [.Println msg] }
  match parseMessage msg with
  | .error e => .error e
  | .ok m =>
    match m.Contents with
    | none => .ok w1
    | some c =>
      if m.Type_ = utf8 "PRIVMSG" then
        let w2 := { w1 with trace := w1.trace ++ [.PrintContents c] }
        match b.send T c.Nick w2 with
        | (some err, w3) => .ok { w3 with trace := w3.trace ++ [.PrintError err] }
        | (none, w3) => .ok w3
      else .ok w1

/-- One iteration of the loop of Go `bot.listen`: read a frame and handle it.
The result is the world after the iteration, or the way the process ended. -/
def bot.listenIteration (T : Transport) (b : bot) (w : World) : Except Exit World × World :=
  match b.conn with
  | none => (.error (.Panic "invalid memory address or nil pointer dereference"), w)
  | some conn =>
    let tr := w.trace ++ [.ReadMessage conn]
    match w.inbox with
    | [] => (.error .Blocked, { w with trace := tr })
    | .Err err :: rest => (.error (.Fatal err), { inbox := rest, trace := tr })
    | .Frame msg :: rest =>
      match b.handle T msg { inbox := rest, trace := tr } with
      | .error e => (.error (.Panic e), { inbox := rest, trace := tr ++ [.Println msg] })
      | .ok w1 => (.ok w1, w1)

/-- The loop of Go `bot.listen` over the frames `inbox` still to come. -/
def listenLoop (T : Transport) (b : bot) : List ReadResult → List Event → Exit × World
  | [], tr =>
    match b.listenIteration T { inbox := [], trace := tr } with
    | (.error e, w) => (e, w)
    | (.ok _, w) => (.Blocked, w)
  | r :: rest, tr =>
    match b.listenIteration T { inbox := r :: rest, trace := tr } with
    | (.error e, w) => (e, w)
    | (.ok _, w) => listenLoop T b rest w.trace

/-- Go `bot.listen`: it never returns; the way the process ends and the world then. -/
def bot.listen (T : Transport) (b : bot) (w : World) : Exit × World :=
  listenLoop T b w.inbox w.trace

/-- Go `bot.connect`: the outcome, the bot and the world afterwards. -/
def bot.connect (T : Transport) (b : bot) (w : World) : Outcome × bot × World :=
  let header : Header := [("Cookie", utf8 "authtoken=" ++ b.authToken)]
  let w1 := { w with trace := w.trace ++ [.Dial b.address header] }
  match T.Dial b.address header with
  | .error resp => (.Returned (some (.HandshakeFailed resp)), b, w1)
  | .ok conn =>
    let b1 := { b with conn := some conn }
    let r := b1.listen T w1
    (.Exited r.1, b1, r.2)

/-- Go `bot.close`: the error returned, the bot and the world afterwards. -/
def bot.close (T : Transport) (b : bot) (w : World) : Option GoError × bot × World :=
  match b.conn with
  | none => (some (.New "connection already closed"), b, w)
  | some conn =>
    let w1 := { w with trace := w.trace ++ [.Close conn] }
    match T.Close conn with
    | some err => (some err, b, w1)
    | none => (none, { b with conn := none }, w1)

/-! ## Transports used as concrete inputs -/

/-- A websocket library whose every dial fails without a response, and whose
writes and closes succeed. -/
def refusing : Transport :=
  { Dial := fun _ _ => .error none, WriteMessage := fun _ _ _ => none, Close := fun _ => none }

/-- A websocket library that rejects the empty url and otherwise connects with
handle 7; writes and closes succeed. -/
def accepting : Transport :=
  { Dial := fun url _ => if url = [] then .error none else .ok 7,
    WriteMessage := fun _ _ _ => none, Close := fun _ => none }

/-! ## Notions used in the statements and proofs -/

/-- Invariant of the scanner states that `checkValid` goes through: an error is
recorded exactly in `stateError`, and once the top-level value has ended the
stack is empty and the scanner is in `stateEndTop` or `stateError`. -/
def scanner.Inv (s : scanner) : Prop :=
  (s.step = .stateError ↔ s.err ≠ none) ∧
  (s.endTop = true → s.parseState = [] ∧ (s.step = .stateEndTop ∨ s.step = .stateError))

/-- From state `s`, the loop of `checkValid` accepts the input `l`. -/
def Valid (s : scanner) (l : List Nat) : Prop :=
  s.Inv ∧ checkValidFrom s l = none

/-- The bytes between the quotes of a JSON string literal: plain bytes, the
two-byte escapes and the `\u` escapes with four hexadecimal digits. -/
inductive StrBody : List Nat → Prop
  | nil : StrBody []
  | plain (c : Nat) (t : List Nat) :
      c ≠ 0x22 → c ≠ 0x5C → 0x20 ≤ c → StrBody t → StrBody (c :: t)
  | esc (e : Nat) (t : List Nat) :
      (e = 0x62 ∨ e = 0x66 ∨ e = 0x6E ∨ e = 0x72 ∨ e = 0x74 ∨ e = 0x5C ∨ e = 0x2F ∨ e = 0x22) →
      StrBody t → StrBody (0x5C :: e :: t)
  | uni (h1 h2 h3 h4 : Nat) (t : List Nat) :
      isHex h1 = true → isHex h2 = true → isHex h3 = true → isHex h4 = true →
      StrBody t → StrBody (0x5C :: 0x75 :: h1 :: h2 :: h3 :: h4 :: t)

/-- Byte `c0` begins a literal, and `st` is the state of the scanner after it. -/
def LitStart (c0 : Nat) (st : StepFn) : Prop :=
  (c0 = 0x22 ∧ st = .stateInString) ∨ (c0 = 0x2D ∧ st = .stateNeg) ∨
  (c0 = 0x30 ∧ st = .state0) ∨ (0x31 ≤ c0 ∧ c0 ≤ 0x39 ∧ st = .state1) ∨
  (c0 = 0x74 ∧ st = .stateT) ∨ (c0 = 0x66 ∧ st = .stateF) ∨ (c0 = 0x6E ∧ st = .stateN)

/-- Bytes that the number loop of `rescanLiteral` runs over. -/
def numChar (c : Nat) : Prop :=
  isDigit c = true ∨ c = 0x2E ∨ c = 0x65 ∨ c = 0x45 ∨ c = 0x2B ∨ c = 0x2D

/-- States of the scanner inside a number literal. -/
def numState (st : StepFn) : Prop :=
  st = .stateNeg ∨ st = .state0 ∨ st = .state1 ∨ st = .stateDot ∨ st = .stateDot0 ∨
    st = .stateE ∨ st = .stateESign ∨ st = .stateE0

/-- States of the scanner in which a number literal may end. -/
def numDone (st : StepFn) : Prop :=
  st = .state0 ∨ st = .state1 ∨ st = .stateDot0 ∨ st = .stateE0

/-- The decoder has read a key (`p = parseObjectKey`) or a member value
(`p = parseObjectValue`) of an object and the byte after it: it is on white
space, or on the colon, the comma or the closing brace that had to follow. -/
def PostValue (d : decodeState) (p : ParseState) (ps : List ParseState) : Prop :=
  Valid d.scan d.unread ∧
  ((d.opcode = .scanSkipSpace ∧ d.scan.step = .stateEndValue ∧ d.scan.parseState = p :: ps) ∨
   (p = .parseObjectKey ∧ d.opcode = .scanObjectKey ∧ d.scan.step = .stateBeginValue ∧
      d.scan.parseState = .parseObjectValue :: ps) ∨
   (p = .parseObjectValue ∧ d.opcode = .scanObjectValue ∧ d.scan.step = .stateBeginString ∧
      d.scan.parseState = .parseObjectKey :: ps) ∨
   (p = .parseObjectValue ∧ d.opcode = .scanEndObject))

/-- The decoder stands on the first byte of a value: the scanner has just
begun an object or an array on top of the stack `ps`, or a literal. -/
def AtValue (d : decodeState) (ps : List ParseState) : Prop :=
  Valid d.scan d.unread ∧
  ((d.opcode = .scanBeginObject ∧ d.scan.step = .stateBeginStringOrEmpty ∧
      d.scan.parseState = .parseObjectKey :: ps) ∨
   (d.opcode = .scanBeginArray ∧ d.scan.parseState = .parseArrayValue :: ps) ∨
   (d.opcode = .scanBeginLiteral ∧ LitStart d.last d.scan.step ∧ d.scan.parseState = ps))

/-! ## Notions used to state the claims on frames -/

/-- A Unicode character that may stand unescaped inside a JSON string: not a
control character, not the quote and not the backslash. -/
def plainChar (c : Char) : Bool :=
  0x20 ≤ c.toNat && c.toNat != 0x22 && c.toNat != 0x5C

/-- Decimal digits of `n`, most significant first; `fuel` bounds the number of
digits and `n + 1` is always enough. -/
def decimal : Nat → Nat → List Nat
  | 0, _ => []
  | fuel + 1, n => if n < 10 then [0x30 + n] else decimal fuel (n / 10) ++ [0x30 + n % 10]

/-- The decimal rendering of an integer, as Go's `strconv.Itoa` and the verb
`%d` print it: a minus sign for a negative number, no leading zero. -/
def itoa (t : Int) : List Nat :=
  if t < 0 then 0x2D :: decimal (t.natAbs + 1) t.natAbs else decimal (t.natAbs + 1) t.natAbs

/-- What storing a decoded JSON string into destination `v` does to `contents`:
it sets `Nick` or `Data`; for any other destination nothing is stored. -/
def assignString (v : Dest) (s : List Nat) (c : contents) : contents :=
  match v with
  | .field .Nick => { c with Nick := s }
  | .field .Data => { c with Data := s }
  | _ => c

/-- What storing a decoded integer into destination `v` does to `contents`:
it sets `Timestamp`; for any other destination nothing is stored. -/
def assignInt (v : Dest) (n : Int) (c : contents) : contents :=
  match v with
  | .field .Timestamp => { c with Timestamp := n }
  | _ => c

/-! ## Notions used to state the claims on the members of a body

The members of the object in a body are read off with the decoder's own
reading steps (`scanWhile`, `rescanLiteral`, `skip`), leaving out everything
the decoder stores. -/

/-- The value of an object member as the decoder meets it: a literal (string,
number, `true`, `false`, `null`) with its bytes, or an array or object, which
the decoder steps over as a whole. -/
inductive Item
  | literal (bytes : List Nat)
  | composite
deriving DecidableEq, Repr

/-- A member of a JSON object: the key, unquoted, and the value. -/
structure Member where
  key : List Nat
  value : Item
deriving DecidableEq, Repr

/-- The reading half of `decodeState.valueField`: the value the decoder stands
on and the decoder after it; nothing is stored. -/
def decodeState.readItem (d : decodeState) : Except String (Item × decodeState) :=
  match d.opcode with
  | .scanBeginArray =>
    match d.skip with
    | .error e => .error e
    | .ok d2 => .ok (.composite, d2.scanNext)
  | .scanBeginObject =>
    match d.skip with
    | .error e => .error e
    | .ok d2 => .ok (.composite, d2.scanNext)
  | .scanBeginLiteral =>
    match d.rescanLiteral with
    | .error e => .error e
    | .ok (item, d1) => .ok (.literal item, d1)
  | _ => .error phasePanicMsg

/-- The reading half of `decodeState.object`: the members of the object the
decoder has just entered, in the order of the text. -/
def objectMembers : Nat → decodeState → Except String (List Member)
  | 0, _ => .error "out of fuel"
  | fuel + 1, d =>
    let d1 := d.scanWhile .scanSkipSpace
    if d1.opcode = .scanEndObject then .ok []
    else if d1.opcode ≠ .scanBeginLiteral then .error phasePanicMsg
    else
      match d1.rescanLiteral with
      | .error e => .error e
      | .ok (item, d2) =>
        match unquoteBytes item with
        | none => .error phasePanicMsg
        | some key =>
          let d3 := if d2.opcode = .scanSkipSpace then d2.scanWhile .scanSkipSpace else d2
          if d3.opcode ≠ .scanObjectKey then .error phasePanicMsg
          else
            match (d3.scanWhile .scanSkipSpace).readItem with
            | .error e => .error e
            | .ok (it, d4) =>
              let d5 := if d4.opcode = .scanSkipSpace then d4.scanWhile .scanSkipSpace else d4
              if d5.opcode = .scanEndObject then .ok [⟨key, it⟩]
              else if d5.opcode ≠ .scanObjectValue then .error phasePanicMsg
              else
                match objectMembers fuel d5 with
                | .error e => .error e
                | .ok ms => .ok (⟨key, it⟩ :: ms)

/-- The members of the object that `data` holds; none when `data` holds an
array or a literal. -/
def bodyMembers (data : List Nat) : Except String (List Member) :=
  let d : decodeState :=
    { unread := data, last := 0, opcode := .scanContinue, scan := scanner.reset,
      savedError := none }
  let d1 := d.scanWhile .scanSkipSpace
  if d1.opcode = .scanBeginObject then objectMembers (d1.unread.length + 1) d1 else .ok []

/-- What a literal stored into destination `v` does to `contents`: a string
goes to `Nick` or `Data`, a number that `strconv.ParseInt` accepts goes to
`Timestamp`, and `true`, `false`, `null` or a literal of another kind than the
destination change nothing. -/
def storeLiteral (item : List Nat) (v : Dest) (c : contents) : contents :=
  match item with
  | [] => c
  | c0 :: _ =>
    if c0 = 0x22 then
      match unquoteBytes item with
      | some s => assignString v s c
      | none => c
    else if c0 = 0x2D ∨ (0x30 ≤ c0 ∧ c0 ≤ 0x39) then
      match ParseInt item with
      | some n => assignInt v n c
      | none => c
    else c

/-- What one member does to `contents`: its value goes to the field its key
matches, as `keyDest` matches keys; an array or object changes nothing. -/
def Member.store (m : Member) (c : contents) : contents :=
  match m.value with
  | .composite => c
  | .literal item => storeLiteral item (keyDest m.key) c

/-- The members stored one after the other, in the order of the text. -/
def storeAll (ms : List Member) (c : contents) : contents :=
  ms.foldl (fun c m => m.store c) c

/-- The member's key matches the field `f`, as the decoder matches keys. -/
def Member.isFor (m : Member) (f : Field) : Bool :=
  keyDest m.key = .field f

/-- The value has the JSON type of the field `f` and converts to it: for `Nick`
and `Data` a string literal that `unquoteBytes` accepts (it accepts every
string literal of a valid text), for `Timestamp` a number literal that
`strconv.ParseInt` accepts. -/
def Item.fits (it : Item) (f : Field) : Bool :=
  match it, f with
  | .literal (c0 :: t), .Timestamp =>
    (c0 = 0x2D ∨ (0x30 ≤ c0 ∧ c0 ≤ 0x39)) ∧ (ParseInt (c0 :: t)).isSome
  | .literal (c0 :: t), _ => c0 = 0x22 ∧ (unquoteBytes (c0 :: t)).isSome
  | _, _ => false

/-- The value of the field `f` of a `contents`: a string or an integer. -/
def contents.get (c : contents) : Field → List Nat ⊕ Int
  | .Nick => .inl c.Nick
  | .Data => .inl c.Data
  | .Timestamp => .inr c.Timestamp

/-! ## Notions used to state the claims on the receive loop and on `close` -/

/-- The effect is a frame written to the transport. -/
def Event.isWrite : Event → Bool
  | .WriteMessage _ _ _ => true
  | _ => false

/-- The frames written to the transport in a trace, in order. -/
def writes (tr : List Event) : List Event :=
  tr.filter Event.isWrite

/-- A websocket library that connects with handle 7 and whose every write
succeeds and every close fails with the error `Transport 3`. -/
def closeFailing : Transport :=
  { Dial := fun _ _ => .ok 7, WriteMessage := fun _ _ _ => none,
    Close := fun _ => some (.Transport 3) }

/-! # Theorems -/

/-! ## The scanner: invariant and acceptance -/

theorem stateEndValue_Inv (s : scanner) (c : Nat) (hl : s.err = none) (ht : s.endTop = false) :
    (stateEndValue s c).1.Inv := by
  obtain ⟨step, endTop, ps, err⟩ := s
  simp only [scanner.Inv]
  simp only at hl ht
  subst hl ht
  unfold stateEndValue
  split
  · rename_i hps
    simp only at hps
    subst hps
    simp [stateEndTop, scanner.error]
    split <;> simp
  · rename_i p rest hps
    simp only at hps
    subst hps
    simp only
    split
    · simp
    · cases p <;> simp only <;> (repeat' split) <;>
        simp [scanner.error, scanner.popParseState] <;> (try split) <;> simp_all

theorem stateBeginValue_Inv (s : scanner) (c : Nat) (h : s.Inv) (hl : s.err = none)
    (ht : s.endTop = false) : (stateBeginValue s c).1.Inv := by
  obtain ⟨step, endTop, ps, err⟩ := s
  simp only [scanner.Inv] at h ⊢
  simp only at hl ht
  subst hl ht
  unfold stateBeginValue
  (repeat' split) <;> simp_all [scanner.error, scanner.pushParseState] <;> (try split) <;> simp_all

theorem Inv_err_none (s : scanner) (h : s.Inv) (hE : s.step ≠ .stateError) : s.err = none := by
  by_contra hne
  exact hE (h.1.2 hne)

theorem Inv_endTop_false (s : scanner) (h : s.Inv) (hE : s.step ≠ .stateError)
    (hT : s.step ≠ .stateEndTop) : s.endTop = false := by
  cases hb : s.endTop with
  | false => rfl
  | true =>
    have := (h.2 hb).2
    simp_all

theorem doStep_Inv (s : scanner) (c : Nat) (h : s.Inv) : (s.doStep c).1.Inv := by
  by_cases hE : s.step = .stateError
  · simp [scanner.doStep, hE, h]
  have hl := Inv_err_none s h hE
  by_cases hT : s.step = .stateEndTop
  · simp only [scanner.doStep, hT, stateEndTop]
    split
    · obtain ⟨step, endTop, ps, err⟩ := s
      simp_all [scanner.Inv, scanner.error]
    · exact h
  have ht := Inv_endTop_false s h hE hT
  obtain ⟨step, endTop, ps, err⟩ := s
  simp only at hl ht hE hT
  subst hl ht
  have hev := fun st p => stateEndValue_Inv ⟨st, false, p, none⟩ c rfl rfl
  have hbv := stateBeginValue_Inv ⟨step, false, ps, none⟩ c h rfl rfl
  cases step <;>
    simp only [scanner.doStep, stateBeginValueOrEmpty, stateBeginStringOrEmpty,
      stateBeginString, stateInString, stateInStringEsc, stateHex, state0, state1, stateNeg,
      stateDot, stateDot0, stateE, stateESign, stateE0, stateLetter] <;>
    (repeat' split) <;>
    first
      | exact hev _ _
      | exact hbv
      | exact h
      | simp_all [scanner.Inv, scanner.error]

theorem stateEndValue_scanError (s : scanner) (c : Nat)
    (h : (stateEndValue s c).2 = .scanError) : (stateEndValue s c).1.step = .stateError := by
  revert h
  unfold stateEndValue
  split
  · simp only [stateEndTop]
    split <;> simp
  · rename_i p rest hps
    split
    · simp
    · cases p <;> simp only <;> (repeat' split) <;> simp [scanner.error]

theorem stateBeginValue_scanError (s : scanner) (c : Nat)
    (h : (stateBeginValue s c).2 = .scanError) : (stateBeginValue s c).1.step = .stateError := by
  revert h
  unfold stateBeginValue
  (repeat' split) <;> simp [scanner.error, scanner.pushParseState] <;> split <;> simp

theorem doStep_scanError (s : scanner) (c : Nat) (h : (s.doStep c).2 = .scanError) :
    (s.doStep c).1.step = .stateError := by
  have hev := fun s1 => stateEndValue_scanError s1 c
  have hbv := fun s1 => stateBeginValue_scanError s1 c
  revert h
  obtain ⟨step, endTop, ps, err⟩ := s
  cases step <;>
    simp only [scanner.doStep, stateBeginValueOrEmpty, stateBeginStringOrEmpty,
      stateBeginString, stateInString, stateInStringEsc, stateHex, state0, state1, stateNeg,
      stateDot, stateDot0, stateE, stateESign, stateE0, stateLetter, stateEndTop] <;>
    (repeat' split) <;>
    first
      | exact hev _
      | exact hbv _
      | simp [scanner.error]

theorem Valid.cons {s : scanner} {c : Nat} {cs : List Nat} (h : Valid s (c :: cs)) :
    (s.doStep c).2 ≠ .scanError ∧ Valid (s.doStep c).1 cs := by
  obtain ⟨hi, hv⟩ := h
  have hi1 := doStep_Inv s c hi
  unfold checkValidFrom at hv
  simp only at hv
  by_cases hop : (s.doStep c).2 = .scanError
  · simp only [hop, if_true] at hv
    have := doStep_scanError s c hop
    exact absurd hv (hi1.1.1 this)
  · simp only [hop, if_false] at hv
    exact ⟨hop, hi1, hv⟩

theorem Valid.live {s : scanner} {l : List Nat} (h : Valid s l) :
    s.step ≠ .stateError ∧ s.err = none := by
  obtain ⟨hi, hv⟩ := h
  by_cases hE : s.step = .stateError
  · exfalso
    have herr := hi.1.1 hE
    cases l with
    | nil =>
      unfold checkValidFrom at hv
      have : s.err.isSome = true := by
        cases he : s.err with
        | none => exact absurd he herr
        | some _ => rfl
      simp [scanner.eof, this] at hv
      exact herr hv
    | cons c cs =>
      unfold checkValidFrom at hv
      simp [scanner.doStep, hE] at hv
      exact herr hv
  · exact ⟨hE, Inv_err_none s hi hE⟩

theorem stateEndValue_endTop_space (s : scanner) (c : Nat) (hc : isSpace c = true)
    (h : (stateEndValue s c).1.endTop = true) : s.endTop = true ∨ s.parseState = [] := by
  revert h
  unfold stateEndValue
  split
  · rename_i hps
    intro _
    exact Or.inr hps
  · simp only [hc, if_true]
    intro h
    exact Or.inl h

theorem doStep_endTop_space (s : scanner) (h : (s.doStep 0x20).1.endTop = true) :
    s.endTop = true ∨ s.parseState = [] := by
  have hev := fun s1 => stateEndValue_endTop_space s1 0x20 (by decide)
  revert h
  obtain ⟨step, endTop, ps, err⟩ := s
  cases step <;>
    simp [scanner.doStep, stateBeginValueOrEmpty, stateBeginStringOrEmpty, stateBeginValue,
      stateBeginString, stateInString, stateInStringEsc, stateHex, state0, state1, stateNeg,
      stateDot, stateDot0, stateE, stateESign, stateE0, stateLetter, stateEndTop,
      scanner.error, isSpace, isDigit, isHex] <;>
    first
      | exact hev _
      | (intro h; exact Or.inl h)

theorem Valid.nil_endTop {s : scanner} (h : Valid s []) :
    s.endTop = true ∨ (s.doStep 0x20).1.endTop = true := by
  obtain ⟨hi, hv⟩ := h
  unfold checkValidFrom at hv
  unfold scanner.eof at hv
  by_cases h1 : s.err.isSome = true
  · simp [h1] at hv
    simp [hv] at h1
  simp only [h1] at hv
  by_cases h2 : s.endTop = true
  · exact Or.inl h2
  simp only [h2] at hv
  by_cases h3 : (s.doStep 0x20).1.endTop = true
  · exact Or.inr h3
  exfalso
  simp only [h3] at hv
  by_cases h4 : (s.doStep 0x20).1.err.isNone = true
  · simp [h4] at hv
  · simp [h4] at hv
    simp [hv] at h4

theorem Valid.nil_stack {s : scanner} (h : Valid s []) : s.parseState = [] := by
  rcases h.nil_endTop with h1 | h1
  · exact (h.1.2 h1).1
  · rcases doStep_endTop_space s h1 with h2 | h2
    · exact (h.1.2 h2).1
    · exact h2

/-! ## String literals: what the scanner accepts, `rescanLiteral` delimits and
`unquoteBytes` decodes -/

theorem Valid.nil_step {s : scanner} (h : Valid s []) :
    s.step = .stateEndTop ∨ s.step = .stateEndValue ∨ s.step = .state0 ∨ s.step = .state1 ∨
      s.step = .stateDot0 ∨ s.step = .stateE0 := by
  have hlive := h.live
  rcases h.nil_endTop with h1 | h1
  · rcases (h.1.2 h1).2 with h2 | h2
    · exact Or.inl h2
    · exact absurd h2 hlive.1
  · by_cases ht : s.endTop = true
    · rcases (h.1.2 ht).2 with h2 | h2
      · exact Or.inl h2
      · exact absurd h2 hlive.1
    · revert h1
      obtain ⟨step, endTop, ps, err⟩ := s
      simp only [Bool.not_eq_true] at ht
      subst ht
      cases step <;>
        simp [scanner.doStep, stateBeginValueOrEmpty, stateBeginStringOrEmpty, stateBeginValue,
          stateBeginString, stateInString, stateInStringEsc, stateHex, stateNeg,
          stateDot, stateE, stateESign, stateLetter, stateEndTop,
          scanner.error, isSpace, isDigit, isHex]

theorem valid_hex (st next : StepFn) (e : Bool) (ps : List ParseState) (err : Option String)
    (l : List Nat)
    (hst : (st = .stateInStringEscU ∧ next = .stateInStringEscU1) ∨
      (st = .stateInStringEscU1 ∧ next = .stateInStringEscU12) ∨
      (st = .stateInStringEscU12 ∧ next = .stateInStringEscU123) ∨
      (st = .stateInStringEscU123 ∧ next = .stateInString))
    (hv : Valid ⟨st, e, ps, err⟩ l) :
    ∃ h t, l = h :: t ∧ isHex h = true ∧ Valid ⟨next, e, ps, err⟩ t := by
  cases l with
  | nil =>
    have := hv.nil_step
    rcases hst with ⟨h1, _⟩ | ⟨h1, _⟩ | ⟨h1, _⟩ | ⟨h1, _⟩ <;> subst h1 <;> simp at this
  | cons h t =>
    obtain ⟨hop, hv1⟩ := hv.cons
    refine ⟨h, t, rfl, ?_⟩
    rcases hst with ⟨h1, h2⟩ | ⟨h1, h2⟩ | ⟨h1, h2⟩ | ⟨h1, h2⟩ <;> subst h1 <;> subst h2 <;>
      simp only [scanner.doStep, stateHex] at hop hv1 <;>
      (by_cases hh : isHex h = true
       · simp only [hh, if_true] at hv1
         exact ⟨hh, hv1⟩
       · simp [hh, scanner.error] at hop)

theorem valid_string (n : Nat) : ∀ (l : List Nat) (e : Bool) (ps : List ParseState)
    (err : Option String), l.length ≤ n → Valid ⟨.stateInString, e, ps, err⟩ l →
    ∃ body rest, l = body ++ 0x22 :: rest ∧ StrBody body ∧
      Valid ⟨.stateEndValue, e, ps, err⟩ rest := by
  induction n with
  | zero =>
    intro l e ps err hl hv
    have : l = [] := List.length_eq_zero.mp (Nat.le_zero.mp hl)
    subst this
    have := hv.nil_step
    simp at this
  | succ n ih =>
    intro l e ps err hl hv
    cases l with
    | nil =>
      have := hv.nil_step
      simp at this
    | cons c cs =>
      obtain ⟨hop, hv1⟩ := hv.cons
      simp only [scanner.doStep, stateInString] at hop hv1
      simp only [List.length_cons] at hl
      by_cases h1 : c = 0x22
      · simp only [h1, if_true] at hv1
        exact ⟨[], cs, by simp [h1], .nil, hv1⟩
      by_cases h2 : c = 0x5C
      · simp only [h1, h2, if_true, if_false] at hv1
        cases cs with
        | nil =>
          have := hv1.nil_step
          simp at this
        | cons x cs2 =>
          obtain ⟨hop2, hv2⟩ := hv1.cons
          simp only [scanner.doStep, stateInStringEsc] at hop2 hv2
          simp only [List.length_cons] at hl
          by_cases he : x = 0x62 ∨ x = 0x66 ∨ x = 0x6E ∨ x = 0x72 ∨ x = 0x74 ∨ x = 0x5C ∨
              x = 0x2F ∨ x = 0x22
          · simp only [he, if_true] at hv2
            obtain ⟨body, rest, hb, hsb, hr⟩ := ih cs2 e ps err (by omega) hv2
            exact ⟨0x5C :: x :: body, rest, by simp [h2, hb], .esc x body he hsb, hr⟩
          by_cases hu : x = 0x75
          · simp only [he, hu, if_true, if_false] at hv2
            obtain ⟨a1, t1, ht1, hh1, hv3⟩ := valid_hex _ _ e ps err cs2 (Or.inl ⟨rfl, rfl⟩) hv2
            obtain ⟨a2, t2, ht2, hh2, hv4⟩ :=
              valid_hex _ _ e ps err t1 (Or.inr (Or.inl ⟨rfl, rfl⟩)) hv3
            obtain ⟨a3, t3, ht3, hh3, hv5⟩ :=
              valid_hex _ _ e ps err t2 (Or.inr (Or.inr (Or.inl ⟨rfl, rfl⟩))) hv4
            obtain ⟨a4, t4, ht4, hh4, hv6⟩ :=
              valid_hex _ _ e ps err t3 (Or.inr (Or.inr (Or.inr ⟨rfl, rfl⟩))) hv5
            subst ht1 ht2 ht3 ht4
            simp only [List.length_cons] at hl
            obtain ⟨body, rest, hb, hsb, hr⟩ := ih t4 e ps err (by omega) hv6
            exact ⟨0x5C :: 0x75 :: a1 :: a2 :: a3 :: a4 :: body, rest, by simp [h2, hu, hb],
              .uni a1 a2 a3 a4 body hh1 hh2 hh3 hh4 hsb, hr⟩
          · simp [he, hu, scanner.error] at hop2
      by_cases h3 : c < 0x20
      · simp [h1, h2, h3, scanner.error] at hop
      · simp only [h1, h2, h3, if_false] at hv1
        obtain ⟨body, rest, hb, hsb, hr⟩ := ih cs e ps err (by omega) hv1
        exact ⟨c :: body, rest, by simp [hb], .plain c body h1 h2 (by omega) hsb, hr⟩

theorem rescanString_quote (rest : List Nat) :
    rescanString (0x22 :: rest) = .ok ([0x22], rest) := by
  rw [rescanString.eq_def]
  simp

theorem rescanString_plain (c : Nat) (t : List Nat) (h1 : c ≠ 0x22) (h2 : c ≠ 0x5C) :
    rescanString (c :: t) = (rescanString t).map (fun r => (c :: r.1, r.2)) := by
  rw [rescanString.eq_def]
  simp [h1, h2]

theorem rescanString_esc (x : Nat) (t : List Nat) :
    rescanString (0x5C :: x :: t) = (rescanString t).map (fun r => (0x5C :: x :: r.1, r.2)) := by
  rw [rescanString.eq_def]
  simp

theorem isHex_ne {a : Nat} (ha : isHex a = true) : a ≠ 0x22 ∧ a ≠ 0x5C := by
  simp only [isHex, Bool.decide_or, Bool.decide_and, Bool.or_eq_true, Bool.and_eq_true,
    decide_eq_true_eq] at ha
  omega

theorem rescanString_body {body : List Nat} (h : StrBody body) (rest : List Nat) :
    rescanString (body ++ 0x22 :: rest) = .ok (body ++ [0x22], rest) := by
  induction h with
  | nil => exact rescanString_quote rest
  | plain c t h1 h2 _ _ ih =>
    simp only [List.cons_append]
    rw [rescanString_plain c _ h1 h2, ih]
    rfl
  | esc x t _ _ ih =>
    simp only [List.cons_append]
    rw [rescanString_esc, ih]
    rfl
  | uni a1 a2 a3 a4 t hh1 hh2 hh3 hh4 _ ih =>
    simp only [List.cons_append]
    rw [rescanString_esc, rescanString_plain a1 _ (isHex_ne hh1).1 (isHex_ne hh1).2,
      rescanString_plain a2 _ (isHex_ne hh2).1 (isHex_ne hh2).2,
      rescanString_plain a3 _ (isHex_ne hh3).1 (isHex_ne hh3).2,
      rescanString_plain a4 _ (isHex_ne hh4).1 (isHex_ne hh4).2, ih]
    rfl

theorem DecodeRune_split (c : Nat) (t : List Nat) :
    ∃ a b, t = a ++ b ∧ (DecodeRune (c :: t)).2 = a.length + 1 ∧ ∀ x ∈ a, 0x80 ≤ x := by
  unfold DecodeRune
  simp only
  have hlo : 0x80 ≤ (if c = 0xE0 then 0xA0 else if c = 0xF0 then 0x90 else 0x80) := by
    split_ifs <;> omega
  generalize (if c < 0xE0 then 2 else if c < 0xF0 then 3 else 4) = sz
  generalize (if c = 0xE0 then 0xA0 else if c = 0xF0 then 0x90 else 0x80) = lo at hlo ⊢
  generalize (if c = 0xED then 0x9F else if c = 0xF4 then 0x8F else 0xBF) = hi
  rcases t with _ | ⟨b1, _ | ⟨b2, _ | ⟨b3, t3⟩⟩⟩ <;> simp only <;> split_ifs <;>
    first
      | exact ⟨[], _, rfl, rfl, by simp⟩
      | exact ⟨[b1], _, rfl, rfl, by simp; omega⟩
      | exact ⟨[b1, b2], _, rfl, rfl, by simp; omega⟩
      | exact ⟨[b1, b2, b3], _, rfl, rfl, by simp; omega⟩

theorem StrBody.tail_of_plain {c : Nat} {t : List Nat} (h : StrBody (c :: t)) (hc : c ≠ 0x5C) :
    StrBody t := by
  cases h with
  | plain _ _ _ _ _ ht => exact ht
  | esc _ _ _ _ => exact absurd rfl hc
  | uni _ _ _ _ _ _ _ _ _ _ => exact absurd rfl hc

theorem StrBody.drop_high : ∀ (a b : List Nat), StrBody (a ++ b) → (∀ x ∈ a, 0x80 ≤ x) →
    StrBody b := by
  intro a
  induction a with
  | nil => intro b h _; exact h
  | cons x a ih =>
    intro b h hx
    have h1 : 0x80 ≤ x := hx x (by simp)
    exact ih b (h.tail_of_plain (by omega)) (fun y hy => hx y (by simp [hy]))

theorem StrBody.drop_rune {c : Nat} {t : List Nat} (h : StrBody (c :: t)) (hc : c ≠ 0x5C) :
    StrBody ((c :: t).drop (DecodeRune (c :: t)).2) ∧
      ((c :: t).drop (DecodeRune (c :: t)).2).length ≤ t.length := by
  obtain ⟨a, b, hab, hsz, hhigh⟩ := DecodeRune_split c t
  rw [hsz]
  subst hab
  simp only [List.drop_succ_cons, List.drop_left, List.length_append]
  exact ⟨StrBody.drop_high a b (h.tail_of_plain hc) hhigh, by omega⟩

theorem unquoteScan_body (fuel : Nat) : ∀ (b : List Nat), StrBody b →
    StrBody (b.drop (unquoteScan fuel b)) := by
  induction fuel with
  | zero => intro b h; simpa [unquoteScan] using h
  | succ fuel ih =>
    intro b h
    cases b with
    | nil => simpa [unquoteScan] using h
    | cons c t =>
      rw [unquoteScan]
      split
      · simpa using h
      rename_i hc
      have hc5 : c ≠ 0x5C := by omega
      split
      · rw [Nat.add_comm, List.drop_succ_cons]
        exact ih t (h.tail_of_plain hc5)
      simp only
      split
      · simpa using h
      · rw [← List.drop_drop]
        exact ih _ (h.drop_rune hc5).1

theorem hexVal_isSome {a : Nat} (h : isHex a = true) : ∃ v, hexVal a = some v := by
  simp only [isHex, Bool.decide_or, Bool.decide_and, Bool.or_eq_true, Bool.and_eq_true,
    decide_eq_true_eq] at h
  unfold hexVal
  split
  · exact ⟨_, rfl⟩
  split
  · exact ⟨_, rfl⟩
  split
  · exact ⟨_, rfl⟩
  · omega

theorem getu4_isSome_inv {l : List Nat} {r : Nat} (h : getu4 l = some r) :
    ∃ a1 a2 a3 a4 t, l = 0x5C :: 0x75 :: a1 :: a2 :: a3 :: a4 :: t := by
  unfold getu4 at h
  split at h
  · rename_i b u h1 h2 h3 h4 t
    split at h
    · exact absurd h (by simp)
    · rename_i hbu
      have : b = 0x5C ∧ u = 0x75 := by omega
      exact ⟨h1, h2, h3, h4, t, by rw [this.1, this.2]⟩
  · exact absurd h (by simp)

theorem StrBody.after_uni {a1 a2 a3 a4 : Nat} {t : List Nat}
    (h : StrBody (0x5C :: 0x75 :: a1 :: a2 :: a3 :: a4 :: t)) : StrBody t := by
  cases h with
  | plain _ _ _ h2 _ _ => exact absurd rfl h2
  | esc _ _ he _ => simp at he
  | uni _ _ _ _ _ _ _ _ _ ht => exact ht

theorem unquoteStep_body {c : Nat} {t : List Nat} (h : StrBody (c :: t)) :
    ∃ out rest, unquoteStep (c :: t) = some (out, rest) ∧ StrBody rest ∧
      rest.length ≤ t.length := by
  cases h with
  | plain _ _ h1 h2 h3 ht =>
    unfold unquoteStep
    simp only [h2, if_false]
    have : ¬ (c = 0x22 ∨ c < 0x20) := by omega
    simp only [this, if_false]
    split
    · exact ⟨_, _, rfl, ht, le_refl _⟩
    · have hd := (StrBody.plain c t h1 h2 h3 ht).drop_rune h2
      exact ⟨_, _, rfl, hd.1, hd.2⟩
  | esc x t he ht =>
    unfold unquoteStep
    simp only [if_true]
    rcases he with he | he | he | he | he | he | he | he <;> subst he <;>
      simp only [Nat.reduceEqDiff, or_self, or_false, or_true, false_or, true_or, if_true,
        if_false] <;>
      exact ⟨_, _, rfl, ht, by simp⟩
  | uni a1 a2 a3 a4 t hh1 hh2 hh3 hh4 ht =>
    unfold unquoteStep
    simp only [if_true, Nat.reduceEqDiff, or_self, if_false]
    obtain ⟨v1, hv1⟩ := hexVal_isSome hh1
    obtain ⟨v2, hv2⟩ := hexVal_isSome hh2
    obtain ⟨v3, hv3⟩ := hexVal_isSome hh3
    obtain ⟨v4, hv4⟩ := hexVal_isSome hh4
    have hg : getu4 (0x5C :: 0x75 :: a1 :: a2 :: a3 :: a4 :: t) =
        some (((v1 * 16 + v2) * 16 + v3) * 16 + v4) := by
      simp [getu4, hv1, hv2, hv3, hv4]
    simp only [hg, List.drop_succ_cons, List.drop_zero]
    split
    · split
      · rename_i hdec
        unfold utf16DecodeRune at hdec
        split at hdec
        · rename_i r2 hr2
          obtain ⟨b1, b2, b3, b4, t2, ht2⟩ := getu4_isSome_inv hr2
          subst ht2
          simp only [List.drop_succ_cons, List.drop_zero]
          exact ⟨_, _, rfl, ht.after_uni, by simp; omega⟩
        · exact absurd rfl hdec
      · exact ⟨_, _, rfl, ht, by simp; omega⟩
    · exact ⟨_, _, rfl, ht, by simp; omega⟩

theorem unquoteLoop_body (fuel : Nat) : ∀ (w : List Nat), StrBody w → w.length ≤ fuel →
    ∃ r, unquoteLoop fuel w = some r := by
  induction fuel with
  | zero =>
    intro w _ hl
    have : w = [] := List.length_eq_zero.mp (Nat.le_zero.mp hl)
    subst this
    exact ⟨[], rfl⟩
  | succ fuel ih =>
    intro w h hl
    cases w with
    | nil => exact ⟨[], rfl⟩
    | cons c t =>
      obtain ⟨out, rest, hstep, hrest, hlen⟩ := unquoteStep_body h
      simp only [List.length_cons] at hl
      obtain ⟨r, hr⟩ := ih rest hrest (by omega)
      exact ⟨out ++ r, by rw [unquoteLoop, hstep]; simp [hr]⟩

theorem unquoteBytes_body {body : List Nat} (h : StrBody body) :
    ∃ r, unquoteBytes (0x22 :: (body ++ [0x22])) = some r := by
  unfold unquoteBytes
  have hlast : (0x22 :: (body ++ [0x22])).getLast? = some 0x22 := by
    rw [← List.cons_append, List.getLast?_append]
    simp
  have h1 : ¬ ((0x22 :: (body ++ [0x22])).length < 2 ∨
      (0x22 :: (body ++ [0x22])).head? ≠ some 0x22 ∨
      (0x22 :: (body ++ [0x22])).getLast? ≠ some 0x22) := by
    rw [hlast]
    simp
  simp only [h1, if_false, List.drop_succ_cons, List.drop_zero, List.dropLast_concat]
  split
  · exact ⟨_, rfl⟩
  · obtain ⟨r, hr⟩ := unquoteLoop_body body.length _ (unquoteScan_body body.length body h)
      (by simp)
    rw [hr]
    exact ⟨_, rfl⟩

/-! ## Number and keyword literals; `rescanLiteral` on accepted input -/

theorem stateEndValue_step (st st2 : StepFn) (e : Bool) (ps : List ParseState)
    (err : Option String) (c : Nat) :
    stateEndValue ⟨st, e, ps, err⟩ c = stateEndValue ⟨st2, e, ps, err⟩ c := by
  unfold stateEndValue
  cases ps with
  | nil => rfl
  | cons p rest => cases p <;> rfl

theorem numChar_facts {c : Nat} (h : numChar c) :
    isSpace c = false ∧ c ≠ 0x3A ∧ c ≠ 0x2C ∧ c ≠ 0x7D ∧ c ≠ 0x5D := by
  simp only [numChar, isDigit, Bool.decide_and, Bool.and_eq_true, decide_eq_true_eq] at h
  simp only [isSpace, Bool.decide_or, Bool.or_eq_false_iff, decide_eq_false_iff_not]
  omega

theorem stateEndValue_numChar (s : scanner) {c : Nat} (h : numChar c) :
    (stateEndValue s c).1.step = .stateError := by
  obtain ⟨hs, h1, h2, h3, h4⟩ := numChar_facts h
  unfold stateEndValue
  split
  · simp [stateEndTop, hs, scanner.error]
  · rename_i p rest _
    cases p <;> simp [hs, h1, h2, h3, h4, scanner.error]

theorem num_step {st : StepFn} {e : Bool} {ps : List ParseState} {err : Option String}
    {c : Nat} {cs : List Nat} (hst : numState st) (hc : numChar c)
    (hv : Valid ⟨st, e, ps, err⟩ (c :: cs)) :
    ∃ st2, numState st2 ∧ Valid ⟨st2, e, ps, err⟩ cs := by
  obtain ⟨hop, hv1⟩ := hv.cons
  have hlive := hv1.live.1
  have hdead := fun s => stateEndValue_numChar s hc
  rcases hst with h | h | h | h | h | h | h | h <;> subst h <;>
    simp only [scanner.doStep, stateNeg, state0, state1, stateDot, stateDot0, stateE,
      stateESign, stateE0] at hop hv1 hlive <;>
    (repeat' split at hv1) <;>
    first
      | exact ⟨_, Or.inl rfl, hv1⟩
      | exact ⟨_, Or.inr (Or.inl rfl), hv1⟩
      | exact ⟨_, Or.inr (Or.inr (Or.inl rfl)), hv1⟩
      | exact ⟨_, Or.inr (Or.inr (Or.inr (Or.inl rfl))), hv1⟩
      | exact ⟨_, Or.inr (Or.inr (Or.inr (Or.inr (Or.inl rfl)))), hv1⟩
      | exact ⟨_, Or.inr (Or.inr (Or.inr (Or.inr (Or.inr (Or.inl rfl))))), hv1⟩
      | exact ⟨_, Or.inr (Or.inr (Or.inr (Or.inr (Or.inr (Or.inr (Or.inl rfl)))))), hv1⟩
      | exact ⟨_, Or.inr (Or.inr (Or.inr (Or.inr (Or.inr (Or.inr (Or.inr rfl)))))), hv1⟩
      | (exfalso; simp_all [scanner.error])

theorem num_end {st : StepFn} {e : Bool} {ps : List ParseState} {err : Option String}
    {l : List Nat} (hst : numState st) (hc : ∀ c cs, l = c :: cs → ¬ numChar c)
    (hv : Valid ⟨st, e, ps, err⟩ l) :
    numDone st ∧ ∀ c cs, l = c :: cs →
      (⟨st, e, ps, err⟩ : scanner).doStep c = stateEndValue ⟨st, e, ps, err⟩ c := by
  cases l with
  | nil =>
    have := hv.nil_step
    refine ⟨?_, fun c cs h => by simp at h⟩
    rcases hst with h | h | h | h | h | h | h | h <;> subst h <;> simp [numDone] at this ⊢
  | cons c cs =>
    have hc1 := hc c cs rfl
    simp only [numChar, isDigit, Bool.decide_and, Bool.and_eq_true, decide_eq_true_eq] at hc1
    obtain ⟨hop, _⟩ := hv.cons
    have hd : isDigit c = false := by
      simp only [isDigit, Bool.decide_and, Bool.and_eq_false_iff, decide_eq_false_iff_not]
      omega
    have h1 : c ≠ 0x2E := by omega
    have h2 : ¬ (c = 0x65 ∨ c = 0x45) := by omega
    have h3 : ¬ (c = 0x2B ∨ c = 0x2D) := by omega
    have h4 : c ≠ 0x30 := by omega
    have h5 : ¬ (0x31 ≤ c ∧ c ≤ 0x39) := by omega
    rcases hst with h | h | h | h | h | h | h | h <;> subst h <;>
      simp [scanner.doStep, stateNeg, state0, state1, stateDot, stateDot0, stateE,
        stateESign, stateE0, hd, h1, h2, h3, h4, h5, scanner.error, numDone] at hop ⊢

theorem valid_number : ∀ (l : List Nat) (st : StepFn) (e : Bool) (ps : List ParseState)
    (err : Option String), numState st → Valid ⟨st, e, ps, err⟩ l →
    ∃ st2, l = (rescanNumber l).1 ++ (rescanNumber l).2 ∧
      Valid ⟨st2, e, ps, err⟩ (rescanNumber l).2 ∧
      ∀ c cs, (rescanNumber l).2 = c :: cs →
        (⟨st2, e, ps, err⟩ : scanner).doStep c = stateEndValue ⟨st, e, ps, err⟩ c := by
  intro l
  induction l with
  | nil =>
    intro st e ps err hst hv
    exact ⟨st, by simp [rescanNumber], by simpa [rescanNumber] using hv,
      fun c cs h => by simp [rescanNumber] at h⟩
  | cons c cs ih =>
    intro st e ps err hst hv
    by_cases hc : numChar c
    · obtain ⟨st1, hst1, hv1⟩ := num_step hst hc hv
      obtain ⟨st2, hl, hv2, hend⟩ := ih st1 e ps err hst1 hv1
      have hr : rescanNumber (c :: cs) = (c :: (rescanNumber cs).1, (rescanNumber cs).2) := by
        rw [rescanNumber]
        simp only [numChar] at hc
        simp [hc]
      rw [hr]
      refine ⟨st2, by simp [← hl], hv2, fun x xs h => ?_⟩
      rw [hend x xs h]
      exact stateEndValue_step _ _ _ _ _ _
    · have hr : rescanNumber (c :: cs) = ([], c :: cs) := by
        rw [rescanNumber]
        simp only [numChar] at hc
        simp [hc]
      rw [hr]
      have hend := num_end hst (fun x xs h => by cases h; exact hc) hv
      exact ⟨st, rfl, hv, fun x xs h => hend.2 x xs h⟩

theorem valid_letter (st next : StepFn) (want : Nat) (ctx : String) (e : Bool)
    (ps : List ParseState) (err : Option String) (l : List Nat)
    (hstep : ∀ c, (⟨st, e, ps, err⟩ : scanner).doStep c =
      stateLetter want next ctx ⟨st, e, ps, err⟩ c)
    (hnd : st ≠ .stateEndTop ∧ st ≠ .stateEndValue ∧ st ≠ .state0 ∧ st ≠ .state1 ∧
      st ≠ .stateDot0 ∧ st ≠ .stateE0)
    (hv : Valid ⟨st, e, ps, err⟩ l) :
    ∃ t, l = want :: t ∧ Valid ⟨next, e, ps, err⟩ t := by
  cases l with
  | nil =>
    have := hv.nil_step
    simp only at this
    tauto
  | cons c t =>
    obtain ⟨hop, hv1⟩ := hv.cons
    rw [hstep] at hop hv1
    simp only [stateLetter] at hop hv1
    by_cases hc : c = want
    · simp only [hc, if_true] at hv1
      exact ⟨t, by rw [hc], hv1⟩
    · simp [hc, scanner.error] at hop

theorem literal_scan (c0 : Nat) (st : StepFn) (e : Bool) (ps : List ParseState)
    (err : Option String) (l : List Nat) (hs : LitStart c0 st)
    (hv : Valid ⟨st, e, ps, err⟩ l) :
    ∃ body rest st2, rescanBody c0 l = .ok (body, rest) ∧ l = body ++ rest ∧
      Valid ⟨st2, e, ps, err⟩ rest ∧
      (∀ c cs, rest = c :: cs →
        (⟨st2, e, ps, err⟩ : scanner).doStep c = stateEndValue ⟨st, e, ps, err⟩ c) ∧
      (c0 = 0x22 → ∃ r, unquoteBytes (c0 :: body) = some r) := by
  rcases hs with ⟨h0, hst⟩ | ⟨h0, hst⟩ | ⟨h0, hst⟩ | ⟨h0, h0', hst⟩ | ⟨h0, hst⟩ | ⟨h0, hst⟩ |
    ⟨h0, hst⟩
  · subst h0 hst
    obtain ⟨body, rest, hl, hb, hr⟩ := valid_string l.length l e ps err (le_refl _) hv
    refine ⟨body ++ [0x22], rest, .stateEndValue, ?_, by simp [hl], hr, ?_, ?_⟩
    · simp only [rescanBody, if_true]
      rw [hl]
      exact rescanString_body hb rest
    · intro c cs _
      simp only [scanner.doStep]
      exact stateEndValue_step _ _ _ _ _ _
    · intro _
      exact unquoteBytes_body hb
  · subst h0 hst
    obtain ⟨st2, hl, hv2, hend⟩ := valid_number l _ e ps err (Or.inl rfl) hv
    exact ⟨_, _, st2, by simp [rescanBody, isDigit], hl, hv2, hend, by simp⟩
  · subst h0 hst
    obtain ⟨st2, hl, hv2, hend⟩ := valid_number l _ e ps err (Or.inr (Or.inl rfl)) hv
    exact ⟨_, _, st2, by simp [rescanBody, isDigit], hl, hv2, hend, by simp⟩
  · subst hst
    obtain ⟨st2, hl, hv2, hend⟩ := valid_number l _ e ps err (Or.inr (Or.inr (Or.inl rfl))) hv
    have h22 : c0 ≠ 0x22 := by omega
    have hd : isDigit c0 = true := by
      simp only [isDigit, Bool.decide_and, Bool.and_eq_true, decide_eq_true_eq]
      omega
    exact ⟨_, _, st2, by simp [rescanBody, hd, h22], hl, hv2, hend, fun h => absurd h h22⟩
  · subst h0 hst
    obtain ⟨t1, h1, hv1⟩ := valid_letter .stateT .stateTr 0x72 "in literal true (expecting r)" e ps err l
      (fun c => rfl) (by simp) hv
    obtain ⟨t2, h2, hv2⟩ := valid_letter .stateTr .stateTru 0x75 "in literal true (expecting u)" e ps err t1
      (fun c => rfl) (by simp) hv1
    obtain ⟨t3, h3, hv3⟩ := valid_letter .stateTru .stateEndValue 0x65 "in literal true (expecting e)" e ps err t2
      (fun c => rfl) (by simp) hv2
    subst h1 h2 h3
    refine ⟨[0x72, 0x75, 0x65], t3, .stateEndValue, by simp [rescanBody, rescanFixed, isDigit],
      rfl, hv3, ?_, by simp⟩
    intro c cs _
    simp only [scanner.doStep]
    exact stateEndValue_step _ _ _ _ _ _
  · subst h0 hst
    obtain ⟨t1, h1, hv1⟩ := valid_letter .stateF .stateFa 0x61 "in literal false (expecting a)" e ps err l
      (fun c => rfl) (by simp) hv
    obtain ⟨t2, h2, hv2⟩ := valid_letter .stateFa .stateFal 0x6C "in literal false (expecting l)" e ps err t1
      (fun c => rfl) (by simp) hv1
    obtain ⟨t3, h3, hv3⟩ := valid_letter .stateFal .stateFals 0x73 "in literal false (expecting s)" e ps err t2
      (fun c => rfl) (by simp) hv2
    obtain ⟨t4, h4, hv4⟩ := valid_letter .stateFals .stateEndValue 0x65 "in literal false (expecting e)" e ps err t3
      (fun c => rfl) (by simp) hv3
    subst h1 h2 h3 h4
    refine ⟨[0x61, 0x6C, 0x73, 0x65], t4, .stateEndValue,
      by simp [rescanBody, rescanFixed, isDigit], rfl, hv4, ?_, by simp⟩
    intro c cs _
    simp only [scanner.doStep]
    exact stateEndValue_step _ _ _ _ _ _
  · subst h0 hst
    obtain ⟨t1, h1, hv1⟩ := valid_letter .stateN .stateNu 0x75 "in literal null (expecting u)" e ps err l
      (fun c => rfl) (by simp) hv
    obtain ⟨t2, h2, hv2⟩ := valid_letter .stateNu .stateNul 0x6C "in literal null (expecting l)" e ps err t1
      (fun c => rfl) (by simp) hv1
    obtain ⟨t3, h3, hv3⟩ := valid_letter .stateNul .stateEndValue 0x6C "in literal null (expecting l)" e ps err t2
      (fun c => rfl) (by simp) hv2
    subst h1 h2 h3
    refine ⟨[0x75, 0x6C, 0x6C], t3, .stateEndValue, by simp [rescanBody, rescanFixed, isDigit],
      rfl, hv3, ?_, by simp⟩
    intro c cs _
    simp only [scanner.doStep]
    exact stateEndValue_step _ _ _ _ _ _

/-! ## The parse-state stack, `skip` and `scanWhile` on accepted input -/

theorem stateEndValue_stack (s : scanner) (c : Nat) (p : ParseState) (rest : List ParseState)
    (h : s.parseState = p :: rest) :
    (∃ q, (stateEndValue s c).1.parseState = q :: rest) ∨
    ((stateEndValue s c).1.parseState = rest ∧
      (rest ≠ [] → (stateEndValue s c).1.step = .stateEndValue)) := by
  obtain ⟨st, e, ps, err⟩ := s
  simp only at h
  subst h
  unfold stateEndValue
  simp only
  split
  · exact Or.inl ⟨p, rfl⟩
  · cases p <;> simp only <;> (repeat' split) <;>
      first
        | exact Or.inl ⟨_, rfl⟩
        | (refine Or.inr ?_
           simp only [scanner.popParseState, List.tail_cons]
           split
           · rename_i h0
             exact ⟨rfl, fun hne => absurd (List.length_eq_zero.mp h0) hne⟩
           · exact ⟨rfl, fun _ => rfl⟩)

theorem stateBeginValue_cases (s : scanner) (c : Nat) :
    (isSpace c = true ∧ stateBeginValue s c = (s, .scanSkipSpace)) ∨
    (isSpace c = false ∧ stateBeginValue s c =
      ({ s with step := .stateBeginStringOrEmpty,
                parseState := .parseObjectKey :: s.parseState }, .scanBeginObject)) ∨
    (isSpace c = false ∧ stateBeginValue s c =
      ({ s with step := .stateBeginValueOrEmpty,
                parseState := .parseArrayValue :: s.parseState }, .scanBeginArray)) ∨
    (isSpace c = false ∧ ∃ st, LitStart c st ∧
      stateBeginValue s c = ({ s with step := st }, .scanBeginLiteral)) ∨
    (isSpace c = false ∧ ∃ s2, stateBeginValue s c = (s2, .scanError) ∧
      s2.step = .stateError ∧
      (s2.parseState = s.parseState ∨ ∃ q, s2.parseState = q :: s.parseState)) := by
  unfold stateBeginValue
  by_cases h0 : isSpace c = true
  · exact Or.inl ⟨h0, by rw [if_pos h0]⟩
  have h0' : isSpace c = false := by simpa using h0
  rw [if_neg h0]
  by_cases h1 : c = 0x7B
  · rw [if_pos h1]
    unfold scanner.pushParseState
    by_cases hl : (ParseState.parseObjectKey :: s.parseState).length ≤ maxNestingDepth
    · exact Or.inr (Or.inl ⟨h0', by simp only [hl, if_true]⟩)
    · exact Or.inr (Or.inr (Or.inr (Or.inr ⟨h0',
        ⟨.stateError, s.endTop, .parseObjectKey :: s.parseState, some "exceeded max depth"⟩,
        by simp only [hl, if_false, scanner.error], rfl, Or.inr ⟨_, rfl⟩⟩)))
  rw [if_neg h1]
  by_cases h2 : c = 0x5B
  · rw [if_pos h2]
    unfold scanner.pushParseState
    by_cases hl : (ParseState.parseArrayValue :: s.parseState).length ≤ maxNestingDepth
    · exact Or.inr (Or.inr (Or.inl ⟨h0', by simp only [hl, if_true]⟩))
    · exact Or.inr (Or.inr (Or.inr (Or.inr ⟨h0',
        ⟨.stateError, s.endTop, .parseArrayValue :: s.parseState, some "exceeded max depth"⟩,
        by simp only [hl, if_false, scanner.error], rfl, Or.inr ⟨_, rfl⟩⟩)))
  rw [if_neg h2]
  by_cases h3 : c = 0x22
  · rw [if_pos h3]
    exact Or.inr (Or.inr (Or.inr (Or.inl ⟨h0', _, Or.inl ⟨h3, rfl⟩, rfl⟩)))
  rw [if_neg h3]
  by_cases h4 : c = 0x2D
  · rw [if_pos h4]
    exact Or.inr (Or.inr (Or.inr (Or.inl ⟨h0', _, Or.inr (Or.inl ⟨h4, rfl⟩), rfl⟩)))
  rw [if_neg h4]
  by_cases h5 : c = 0x30
  · rw [if_pos h5]
    exact Or.inr (Or.inr (Or.inr (Or.inl ⟨h0', _, Or.inr (Or.inr (Or.inl ⟨h5, rfl⟩)), rfl⟩)))
  rw [if_neg h5]
  by_cases h6 : c = 0x74
  · rw [if_pos h6]
    exact Or.inr (Or.inr (Or.inr (Or.inl ⟨h0', _,
      Or.inr (Or.inr (Or.inr (Or.inr (Or.inl ⟨h6, rfl⟩)))), rfl⟩)))
  rw [if_neg h6]
  by_cases h7 : c = 0x66
  · rw [if_pos h7]
    exact Or.inr (Or.inr (Or.inr (Or.inl ⟨h0', _,
      Or.inr (Or.inr (Or.inr (Or.inr (Or.inr (Or.inl ⟨h7, rfl⟩))))), rfl⟩)))
  rw [if_neg h7]
  by_cases h8 : c = 0x6E
  · rw [if_pos h8]
    exact Or.inr (Or.inr (Or.inr (Or.inl ⟨h0', _,
      Or.inr (Or.inr (Or.inr (Or.inr (Or.inr (Or.inr ⟨h8, rfl⟩))))), rfl⟩)))
  rw [if_neg h8]
  by_cases h9 : 0x31 ≤ c ∧ c ≤ 0x39
  · rw [if_pos h9]
    exact Or.inr (Or.inr (Or.inr (Or.inl ⟨h0', _,
      Or.inr (Or.inr (Or.inr (Or.inl ⟨h9.1, h9.2, rfl⟩))), rfl⟩)))
  rw [if_neg h9]
  exact Or.inr (Or.inr (Or.inr (Or.inr ⟨h0', _, rfl, rfl, Or.inl rfl⟩)))

theorem stateBeginValue_stack (s : scanner) (c : Nat) :
    (stateBeginValue s c).1.parseState = s.parseState ∨
    (∃ q, (stateBeginValue s c).1.parseState = q :: s.parseState) := by
  rcases stateBeginValue_cases s c with ⟨_, h⟩ | ⟨_, h⟩ | ⟨_, h⟩ | ⟨_, st, _, h⟩ |
    ⟨_, s2, h, _, h2⟩
  · rw [h]; exact Or.inl rfl
  · rw [h]; exact Or.inr ⟨_, rfl⟩
  · rw [h]; exact Or.inr ⟨_, rfl⟩
  · rw [h]; exact Or.inl rfl
  · rw [h]; exact h2

theorem doStep_stack (s : scanner) (c : Nat) (p : ParseState) (rest : List ParseState)
    (h : s.parseState = p :: rest) :
    (∃ q, (s.doStep c).1.parseState = q :: rest) ∨
    (∃ q q2, (s.doStep c).1.parseState = q :: q2 :: rest) ∨
    ((s.doStep c).1.parseState = rest ∧ (rest ≠ [] → (s.doStep c).1.step = .stateEndValue)) := by
  have hev : ∀ st e err q,
      (∃ q1, (stateEndValue ⟨st, e, q :: rest, err⟩ c).1.parseState = q1 :: rest) ∨
      (∃ q1 q2, (stateEndValue ⟨st, e, q :: rest, err⟩ c).1.parseState = q1 :: q2 :: rest) ∨
      ((stateEndValue ⟨st, e, q :: rest, err⟩ c).1.parseState = rest ∧
        (rest ≠ [] → (stateEndValue ⟨st, e, q :: rest, err⟩ c).1.step = .stateEndValue)) := by
    intro st e err q
    rcases stateEndValue_stack ⟨st, e, q :: rest, err⟩ c q rest rfl with h1 | h1
    · exact Or.inl h1
    · exact Or.inr (Or.inr h1)
  obtain ⟨st, e, ps, err⟩ := s
  simp only at h
  subst h
  have hbv : (∃ q, (stateBeginValue ⟨st, e, p :: rest, err⟩ c).1.parseState = q :: rest) ∨
      (∃ q q2, (stateBeginValue ⟨st, e, p :: rest, err⟩ c).1.parseState = q :: q2 :: rest) ∨
      ((stateBeginValue ⟨st, e, p :: rest, err⟩ c).1.parseState = rest ∧
        (rest ≠ [] → (stateBeginValue ⟨st, e, p :: rest, err⟩ c).1.step = .stateEndValue)) := by
    rcases stateBeginValue_stack ⟨st, e, p :: rest, err⟩ c with h1 | ⟨q, h1⟩
    · exact Or.inl ⟨p, h1⟩
    · exact Or.inr (Or.inl ⟨q, p, h1⟩)
  cases st <;>
    simp only [scanner.doStep, stateBeginValueOrEmpty, stateBeginStringOrEmpty,
      stateBeginString, stateInString, stateInStringEsc, stateHex, state0, state1, stateNeg,
      stateDot, stateDot0, stateE, stateESign, stateE0, stateLetter, stateEndTop,
      List.tail_cons] <;>
    (repeat' split) <;>
    first
      | exact hev _ _ _ _
      | exact hbv
      | exact Or.inl ⟨_, rfl⟩

theorem skipLoop_valid (d : decodeState) (base : List ParseState) : ∀ (l : List Nat)
    (s : scanner) (top : List ParseState), Valid s l → s.parseState = top ++ base → top ≠ [] →
    ∃ d2, skipLoop d (base.length + 1) s l = .ok d2 ∧ d2.scan.parseState = base ∧
      Valid d2.scan d2.unread ∧ d2.unread.length < l.length ∧
      d2.savedError = d.savedError ∧ (base ≠ [] → d2.scan.step = .stateEndValue) := by
  intro l
  induction l with
  | nil =>
    intro s top hv hps htop
    have := hv.nil_stack
    rw [hps] at this
    simp at this
    exact absurd this.1 htop
  | cons c cs ih =>
    intro s top hv hps htop
    obtain ⟨hop, hv1⟩ := hv.cons
    cases top with
    | nil => exact absurd rfl htop
    | cons p top1 =>
      rw [skipLoop]
      rcases doStep_stack s c p (top1 ++ base) (by simpa using hps) with ⟨q, h1⟩ | ⟨q, q2, h1⟩ | ⟨h1, h2⟩
      · have hlen : ¬ (s.doStep c).1.parseState.length < base.length + 1 := by
          rw [h1]; simp; try omega
        simp only [hlen, if_false]
        obtain ⟨d2, hd2, r1, r2, r3, r4⟩ := ih (s.doStep c).1 (q :: top1) hv1 (by simpa using h1)
          (by simp)
        exact ⟨d2, hd2, r1, r2, by simp only [List.length_cons]; omega, r4⟩
      · have hlen : ¬ (s.doStep c).1.parseState.length < base.length + 1 := by
          rw [h1]; simp; try omega
        simp only [hlen, if_false]
        obtain ⟨d2, hd2, r1, r2, r3, r4⟩ := ih (s.doStep c).1 (q :: q2 :: top1) hv1
          (by simpa using h1) (by simp)
        exact ⟨d2, hd2, r1, r2, by simp only [List.length_cons]; omega, r4⟩
      · cases top1 with
        | nil =>
          simp only [List.nil_append] at h1 h2
          have hlen : (s.doStep c).1.parseState.length < base.length + 1 := by
            rw [h1]; simp
          simp only [hlen, if_true]
          exact ⟨_, rfl, h1, hv1, by simp, rfl, h2⟩
        | cons p2 top2 =>
          have hlen : ¬ (s.doStep c).1.parseState.length < base.length + 1 := by
            rw [h1]; simp
          simp only [hlen, if_false]
          obtain ⟨d2, hd2, r1, r2, r3, r4⟩ := ih (s.doStep c).1 (p2 :: top2) hv1 h1 (by simp)
          exact ⟨d2, hd2, r1, r2, by simp only [List.length_cons]; omega, r4⟩

theorem scanWhileLoop_valid (d : decodeState) : ∀ (l : List Nat) (s : scanner), Valid s l →
    (∀ c, isSpace c = true → s.doStep c = (s, .scanSkipSpace)) →
    (∀ c, isSpace c = false → (s.doStep c).2 ≠ .scanSkipSpace) →
    ¬ Valid s [] →
    ∃ c cs, isSpace c = false ∧ cs.length < l.length ∧
      scanWhileLoop d .scanSkipSpace s l =
        { d with unread := cs, last := c, scan := (s.doStep c).1, opcode := (s.doStep c).2 } ∧
      Valid (s.doStep c).1 cs ∧ (s.doStep c).2 ≠ .scanError := by
  intro l
  induction l with
  | nil =>
    intro s hv _ _ hne
    exact absurd hv hne
  | cons c cs ih =>
    intro s hv hsp hns hne
    obtain ⟨hop, hv1⟩ := hv.cons
    rw [scanWhileLoop]
    cases hc : isSpace c with
    | true =>
      rw [hsp c hc] at hv1 ⊢
      simp only [ne_eq, not_true_eq_false, if_false]
      obtain ⟨c2, cs2, h1, h2, h3, h4⟩ := ih s hv1 hsp hns hne
      exact ⟨c2, cs2, h1, by simp only [List.length_cons]; omega, h3, h4⟩
    | false =>
      have := hns c hc
      simp only [ne_eq, this, not_false_eq_true, if_true]
      exact ⟨c, cs, hc, by simp, rfl, hv1, hop⟩

/-! ## The decoder never panics on input that `checkValid` accepts -/

theorem stateEndValue_post (st : StepFn) (e : Bool) (p : ParseState) (ps : List ParseState)
    (err : Option String) (c : Nat) (hp : p = .parseObjectKey ∨ p = .parseObjectValue)
    (hop : (stateEndValue ⟨st, e, p :: ps, err⟩ c).2 ≠ .scanError) :
    (isSpace c = true ∧ stateEndValue ⟨st, e, p :: ps, err⟩ c =
        (⟨.stateEndValue, e, p :: ps, err⟩, .scanSkipSpace)) ∨
    (isSpace c = false ∧ p = .parseObjectKey ∧ stateEndValue ⟨st, e, p :: ps, err⟩ c =
        (⟨.stateBeginValue, e, .parseObjectValue :: ps, err⟩, .scanObjectKey)) ∨
    (isSpace c = false ∧ p = .parseObjectValue ∧ stateEndValue ⟨st, e, p :: ps, err⟩ c =
        (⟨.stateBeginString, e, .parseObjectKey :: ps, err⟩, .scanObjectValue)) ∨
    (isSpace c = false ∧ p = .parseObjectValue ∧
        (stateEndValue ⟨st, e, p :: ps, err⟩ c).2 = .scanEndObject) := by
  revert hop
  unfold stateEndValue
  simp only
  by_cases hc : isSpace c = true
  · intro _
    exact Or.inl ⟨hc, by rw [if_pos hc]⟩
  · have hc' : isSpace c = false := by simpa using hc
    rw [if_neg hc]
    rcases hp with hp | hp <;> subst hp <;> simp only
    · by_cases h1 : c = 0x3A
      · intro _
        exact Or.inr (Or.inl ⟨hc', trivial, by rw [if_pos h1]⟩)
      · simp [h1, scanner.error]
    · by_cases h1 : c = 0x2C
      · intro _
        exact Or.inr (Or.inr (Or.inl ⟨hc', trivial, by rw [if_pos h1]⟩))
      · by_cases h2 : c = 0x7D
        · intro _
          exact Or.inr (Or.inr (Or.inr ⟨hc', trivial, by rw [if_neg h1, if_pos h2]⟩))
        · simp [h1, h2, scanner.error]

theorem PostValue_of_step {saved : Option JsonError} {s : scanner} {c : Nat} {cs : List Nat}
    {p : ParseState} {ps : List ParseState} (hp : p = .parseObjectKey ∨ p = .parseObjectValue)
    (hps : s.parseState = p :: ps) (hop : (stateEndValue s c).2 ≠ .scanError)
    (hv : Valid (stateEndValue s c).1 cs) :
    PostValue ⟨cs, c, (stateEndValue s c).2, (stateEndValue s c).1, saved⟩ p ps := by
  obtain ⟨st, e, ps0, err⟩ := s
  simp only at hps
  subst hps
  refine ⟨hv, ?_⟩
  rcases stateEndValue_post st e p ps err c hp hop with ⟨_, h⟩ | ⟨_, h1, h⟩ | ⟨_, h1, h⟩ |
    ⟨_, h1, h⟩
  · exact Or.inl (by rw [h]; exact ⟨rfl, rfl, rfl⟩)
  · exact Or.inr (Or.inl (by rw [h]; exact ⟨h1, rfl, rfl, rfl⟩))
  · exact Or.inr (Or.inr (Or.inl (by rw [h]; exact ⟨h1, rfl, rfl, rfl⟩)))
  · exact Or.inr (Or.inr (Or.inr ⟨h1, h⟩))

theorem rescanLiteral_top (d : decodeState) (hs : LitStart d.last d.scan.step)
    (hv : Valid d.scan d.unread) :
    ∃ body d1, d.rescanLiteral = .ok (d.last :: body, d1) ∧
      d1.savedError = d.savedError ∧
      (d.last = 0x22 → ∃ r, unquoteBytes (d.last :: body) = some r) := by
  obtain ⟨unread, last, opcode, ⟨st, e, ps, err⟩, saved⟩ := d
  simp only at hs hv
  obtain ⟨body, rest, st2, hb, hl, hv2, hend, hq⟩ := literal_scan last st e ps err unread hs hv
  unfold decodeState.rescanLiteral
  simp only [hb]
  cases rest with
  | nil => exact ⟨body, _, rfl, rfl, hq⟩
  | cons c cs => exact ⟨body, _, rfl, rfl, hq⟩

theorem rescanLiteral_obj (d : decodeState) (p : ParseState) (ps : List ParseState)
    (hp : p = .parseObjectKey ∨ p = .parseObjectValue)
    (hs : LitStart d.last d.scan.step) (hps : d.scan.parseState = p :: ps)
    (hv : Valid d.scan d.unread) :
    ∃ body d1, d.rescanLiteral = .ok (d.last :: body, d1) ∧
      d1.savedError = d.savedError ∧
      (d.last = 0x22 → ∃ r, unquoteBytes (d.last :: body) = some r) ∧
      PostValue d1 p ps ∧ d1.unread.length < d.unread.length := by
  obtain ⟨unread, last, opcode, ⟨st, e, ps0, err⟩, saved⟩ := d
  simp only at hs hv hps
  subst hps
  obtain ⟨body, rest, st2, hb, hl, hv2, hend, hq⟩ :=
    literal_scan last st e (p :: ps) err unread hs hv
  unfold decodeState.rescanLiteral
  simp only [hb]
  cases rest with
  | nil =>
    have := hv2.nil_stack
    simp at this
  | cons c cs =>
    obtain ⟨hop, hv3⟩ := hv2.cons
    rw [hend c cs rfl] at hop hv3
    refine ⟨body, _, rfl, rfl, hq,
      PostValue_of_step hp rfl hop hv3,
      ?_⟩
    simp only [hl, List.length_append, List.length_cons]
    omega

theorem literalStore_ok (d : decodeState) (c0 : Nat) (body : List Nat) (v : Dest) (c : contents)
    (st : StepFn) (hs : LitStart c0 st)
    (hq : c0 = 0x22 → ∃ r, unquoteBytes (c0 :: body) = some r) :
    ∃ c1 d1, d.literalStore (c0 :: body) v c = .ok (c1, d1) ∧ d1.unread = d.unread ∧
      d1.scan = d.scan ∧ d1.opcode = d.opcode ∧ d1.last = d.last := by
  have hsave : ∀ err, (d.saveError err).unread = d.unread ∧ (d.saveError err).scan = d.scan ∧
      (d.saveError err).opcode = d.opcode ∧ (d.saveError err).last = d.last := by
    intro err
    unfold decodeState.saveError
    split <;> exact ⟨rfl, rfl, rfl, rfl⟩
  have hnum : ¬ (c0 ≠ 0x2D ∧ (c0 < 0x30 ∨ 0x39 < c0)) ∨ c0 = 0x6E ∨ (c0 = 0x74 ∨ c0 = 0x66) ∨
      c0 = 0x22 := by
    rcases hs with ⟨h, _⟩ | ⟨h, _⟩ | ⟨h, _⟩ | ⟨h, h', _⟩ | ⟨h, _⟩ | ⟨h, _⟩ | ⟨h, _⟩ <;> omega
  unfold decodeState.literalStore
  simp only
  by_cases h1 : c0 = 0x6E
  · rw [if_pos h1]
    exact ⟨c, d, rfl, rfl, rfl, rfl, rfl⟩
  rw [if_neg h1]
  by_cases h2 : c0 = 0x74 ∨ c0 = 0x66
  · rw [if_pos h2]
    exact ⟨c, _, rfl, hsave _⟩
  rw [if_neg h2]
  by_cases h3 : c0 = 0x22
  · obtain ⟨r, hr⟩ := hq h3
    rw [if_pos h3, hr]
    rcases v with _ | ⟨_ | _ | _⟩ | _ <;>
      first
        | exact ⟨_, _, rfl, rfl, rfl, rfl, rfl⟩
        | exact ⟨_, _, rfl, hsave _⟩
  rw [if_neg h3]
  have h4 : ¬ (c0 ≠ 0x2D ∧ (c0 < 0x30 ∨ 0x39 < c0)) := by tauto
  rw [if_neg h4]
  rcases v with _ | ⟨_ | _ | _⟩ | _ <;> simp only <;>
    first
      | exact ⟨_, _, rfl, hsave _⟩
      | (split
         · exact ⟨_, _, rfl, rfl, rfl, rfl, rfl⟩
         · exact ⟨_, _, rfl, hsave _⟩)

theorem PostValue_congr {d d1 : decodeState} {p : ParseState} {ps : List ParseState}
    (h : PostValue d p ps) (h1 : d1.unread = d.unread) (h2 : d1.scan = d.scan)
    (h3 : d1.opcode = d.opcode) : PostValue d1 p ps := by
  unfold PostValue at h ⊢
  rw [h1, h2, h3]
  exact h

theorem scanNext_post (d : decodeState) (p : ParseState) (ps : List ParseState)
    (hp : p = .parseObjectKey ∨ p = .parseObjectValue)
    (hv : Valid d.scan d.unread) (hst : d.scan.step = .stateEndValue)
    (hps : d.scan.parseState = p :: ps) :
    PostValue d.scanNext p ps ∧ d.scanNext.unread.length < d.unread.length ∧
      d.scanNext.savedError = d.savedError := by
  obtain ⟨unread, last, opcode, ⟨st, e, ps0, err⟩, saved⟩ := d
  simp only at hv hst hps
  subst hst hps
  cases unread with
  | nil =>
    have := hv.nil_stack
    simp at this
  | cons c cs =>
    obtain ⟨hop, hv1⟩ := hv.cons
    simp only [scanner.doStep] at hop hv1
    unfold decodeState.scanNext
    simp only [scanner.doStep]
    exact ⟨PostValue_of_step hp rfl hop hv1, by simp, trivial⟩

theorem scanWhile_post (d : decodeState) (p : ParseState) (ps : List ParseState)
    (hp : p = .parseObjectKey ∨ p = .parseObjectValue) (h : PostValue d p ps) :
    PostValue (if d.opcode = .scanSkipSpace then d.scanWhile .scanSkipSpace else d) p ps ∧
    (if d.opcode = .scanSkipSpace then d.scanWhile .scanSkipSpace else d).opcode ≠
      .scanSkipSpace ∧
    (if d.opcode = .scanSkipSpace then d.scanWhile .scanSkipSpace else d).unread.length ≤
      d.unread.length ∧
    (if d.opcode = .scanSkipSpace then d.scanWhile .scanSkipSpace else d).savedError =
      d.savedError := by
  by_cases hop : d.opcode = .scanSkipSpace
  · simp only [hop, if_true]
    obtain ⟨hv, hcase⟩ := h
    have hshape : d.scan.step = .stateEndValue ∧ d.scan.parseState = p :: ps := by
      rcases hcase with ⟨_, h1, h2⟩ | ⟨_, h1, _⟩ | ⟨_, h1, _⟩ | ⟨_, h1⟩ <;>
        first
          | exact ⟨h1, h2⟩
          | (rw [hop] at h1; exact absurd h1 (by decide))
    obtain ⟨unread, last, opcode, ⟨st, e, ps0, err⟩, saved⟩ := d
    simp only at hv hshape hop
    obtain ⟨hst, hps⟩ := hshape
    subst hst hps
    have hsp : ∀ c, isSpace c = true →
        (⟨.stateEndValue, e, p :: ps, err⟩ : scanner).doStep c =
          (⟨.stateEndValue, e, p :: ps, err⟩, .scanSkipSpace) := by
      intro c hc
      simp [scanner.doStep, stateEndValue, hc]
    have hns : ∀ c, isSpace c = false →
        ((⟨.stateEndValue, e, p :: ps, err⟩ : scanner).doStep c).2 ≠ .scanSkipSpace := by
      intro c hc
      simp only [scanner.doStep, stateEndValue, hc, Bool.false_eq_true, if_false]
      rcases hp with hp | hp <;> subst hp <;> simp only <;> (repeat' split) <;>
        simp [scanner.error]
    have hne : ¬ Valid (⟨.stateEndValue, e, p :: ps, err⟩ : scanner) [] := by
      intro hv0
      have := hv0.nil_stack
      simp at this
    obtain ⟨c, cs, hc, hlen, heq, hv1, hop1⟩ :=
      scanWhileLoop_valid ⟨unread, last, opcode, ⟨.stateEndValue, e, p :: ps, err⟩, saved⟩
        unread ⟨.stateEndValue, e, p :: ps, err⟩ hv hsp hns hne
    unfold decodeState.scanWhile
    simp only
    rw [heq]
    simp only [scanner.doStep] at hv1 hop1 ⊢
    refine ⟨PostValue_of_step hp rfl hop1 hv1, ?_, by omega, trivial⟩
    have := hns c hc
    simpa [scanner.doStep] using this
  · simp only [hop, if_false]
    exact ⟨h, hop, le_refl _, trivial⟩

theorem scanWhile_key (d : decodeState) (ps : List ParseState) (hv : Valid d.scan d.unread)
    (hst : d.scan.step = .stateBeginStringOrEmpty ∨ d.scan.step = .stateBeginString)
    (hps : d.scan.parseState = .parseObjectKey :: ps) :
    (d.scanWhile .scanSkipSpace).savedError = d.savedError ∧
    (d.scanWhile .scanSkipSpace).unread.length < d.unread.length ∧
    ((d.scanWhile .scanSkipSpace).opcode = .scanEndObject ∨
     ((d.scanWhile .scanSkipSpace).opcode = .scanBeginLiteral ∧
      LitStart (d.scanWhile .scanSkipSpace).last (d.scanWhile .scanSkipSpace).scan.step ∧
      (d.scanWhile .scanSkipSpace).last = 0x22 ∧
      (d.scanWhile .scanSkipSpace).scan.parseState = .parseObjectKey :: ps ∧
      Valid (d.scanWhile .scanSkipSpace).scan (d.scanWhile .scanSkipSpace).unread)) := by
  obtain ⟨unread, last, opcode, ⟨st, e, ps0, err⟩, saved⟩ := d
  simp only at hv hst hps
  subst hps
  have hsp : ∀ c, isSpace c = true →
      (⟨st, e, .parseObjectKey :: ps, err⟩ : scanner).doStep c =
        (⟨st, e, .parseObjectKey :: ps, err⟩, .scanSkipSpace) := by
    intro c hc
    rcases hst with h | h <;> subst h <;>
      simp [scanner.doStep, stateBeginStringOrEmpty, stateBeginString, hc]
  have hkey : ∀ c, isSpace c = false →
      ((⟨st, e, .parseObjectKey :: ps, err⟩ : scanner).doStep c).2 = .scanEndObject ∨
      ((⟨st, e, .parseObjectKey :: ps, err⟩ : scanner).doStep c).2 = .scanError ∨
      (c = 0x22 ∧ (⟨st, e, .parseObjectKey :: ps, err⟩ : scanner).doStep c =
        (⟨.stateInString, e, .parseObjectKey :: ps, err⟩, .scanBeginLiteral)) := by
    intro c hc
    by_cases h22 : c = 0x22
    · refine Or.inr (Or.inr ⟨h22, ?_⟩)
      subst h22
      rcases hst with h | h <;> subst h <;>
        simp [scanner.doStep, stateBeginStringOrEmpty, stateBeginString, isSpace]
    · rcases hst with h | h <;> subst h
      · by_cases h7d : c = 0x7D
        · refine Or.inl ?_
          subst h7d
          simp [scanner.doStep, stateBeginStringOrEmpty, stateEndValue, isSpace]
        · refine Or.inr (Or.inl ?_)
          simp [scanner.doStep, stateBeginStringOrEmpty, stateBeginString, hc, h7d, h22,
            scanner.error]
      · refine Or.inr (Or.inl ?_)
        simp [scanner.doStep, stateBeginString, hc, h22, scanner.error]
  have hns : ∀ c, isSpace c = false →
      ((⟨st, e, .parseObjectKey :: ps, err⟩ : scanner).doStep c).2 ≠ .scanSkipSpace := by
    intro c hc
    rcases hkey c hc with h | h | ⟨_, h⟩ <;> rw [h] <;> simp
  have hne : ¬ Valid (⟨st, e, .parseObjectKey :: ps, err⟩ : scanner) [] := by
    intro hv0
    have := hv0.nil_stack
    simp at this
  obtain ⟨c, cs, hc, hlen, heq, hv1, hop1⟩ :=
    scanWhileLoop_valid ⟨unread, last, opcode, ⟨st, e, .parseObjectKey :: ps, err⟩, saved⟩
      unread ⟨st, e, .parseObjectKey :: ps, err⟩ hv hsp hns hne
  unfold decodeState.scanWhile
  simp only
  rw [heq]
  refine ⟨rfl, hlen, ?_⟩
  rcases hkey c hc with h | h | ⟨h22, h⟩
  · exact Or.inl h
  · exact absurd h hop1
  · refine Or.inr ?_
    rw [h] at hv1 ⊢
    exact ⟨rfl, Or.inl ⟨h22, rfl⟩, h22, rfl, hv1⟩

theorem scanWhile_value (d : decodeState) (ps : List ParseState) (hv : Valid d.scan d.unread)
    (hst : d.scan.step = .stateBeginValue) (hps : d.scan.parseState = ps) :
    AtValue (d.scanWhile .scanSkipSpace) ps ∧
    (d.scanWhile .scanSkipSpace).savedError = d.savedError ∧
    (d.scanWhile .scanSkipSpace).unread.length < d.unread.length := by
  obtain ⟨unread, last, opcode, ⟨st, e, ps0, err⟩, saved⟩ := d
  simp only at hv hst hps
  subst hps hst
  have hcases := stateBeginValue_cases ⟨.stateBeginValue, e, ps0, err⟩
  have hsp : ∀ c, isSpace c = true →
      (⟨.stateBeginValue, e, ps0, err⟩ : scanner).doStep c =
        (⟨.stateBeginValue, e, ps0, err⟩, .scanSkipSpace) := by
    intro c hc
    simp only [scanner.doStep]
    rcases hcases c with ⟨_, h⟩ | ⟨h, _⟩ | ⟨h, _⟩ | ⟨h, _⟩ | ⟨h, _⟩
    · exact h
    all_goals rw [hc] at h; exact absurd h (by decide)
  have hns : ∀ c, isSpace c = false →
      ((⟨.stateBeginValue, e, ps0, err⟩ : scanner).doStep c).2 ≠ .scanSkipSpace := by
    intro c hc
    simp only [scanner.doStep]
    rcases hcases c with ⟨h, _⟩ | ⟨_, h⟩ | ⟨_, h⟩ | ⟨_, _, _, h⟩ | ⟨_, _, h, _⟩
    · rw [hc] at h; exact absurd h (by decide)
    all_goals (rw [h]; simp)
  have hne : ¬ Valid (⟨.stateBeginValue, e, ps0, err⟩ : scanner) [] := by
    intro hv0
    have := hv0.nil_step
    simp at this
  obtain ⟨c, cs, hc, hlen, heq, hv1, hop1⟩ :=
    scanWhileLoop_valid ⟨unread, last, opcode, ⟨.stateBeginValue, e, ps0, err⟩, saved⟩
      unread ⟨.stateBeginValue, e, ps0, err⟩ hv hsp hns hne
  unfold decodeState.scanWhile
  simp only
  rw [heq]
  refine ⟨?_, rfl, hlen⟩
  simp only [scanner.doStep] at hv1 hop1 ⊢
  unfold AtValue
  rcases hcases c with ⟨h, _⟩ | ⟨_, h⟩ | ⟨_, h⟩ | ⟨_, st, hl, h⟩ | ⟨_, _, h, _⟩
  · rw [hc] at h; exact absurd h (by decide)
  · rw [h] at hv1 ⊢
    exact ⟨hv1, Or.inl ⟨rfl, rfl, rfl⟩⟩
  · rw [h] at hv1 ⊢
    exact ⟨hv1, Or.inr (Or.inl ⟨rfl, rfl⟩)⟩
  · rw [h] at hv1 ⊢
    exact ⟨hv1, Or.inr (Or.inr ⟨rfl, hl, rfl⟩)⟩
  · rw [h] at hop1
    exact absurd rfl hop1

theorem saveError_fields (d : decodeState) (err : JsonError) :
    (d.saveError err).unread = d.unread ∧ (d.saveError err).scan = d.scan ∧
      (d.saveError err).opcode = d.opcode ∧ (d.saveError err).last = d.last := by
  unfold decodeState.saveError
  split <;> exact ⟨rfl, rfl, rfl, rfl⟩

theorem ite_saveError_fields (b : Bool) (d : decodeState) (err : JsonError) :
    (if b = true then d.saveError err else d).unread = d.unread ∧
      (if b = true then d.saveError err else d).scan = d.scan := by
  split
  · exact ⟨(saveError_fields d err).1, (saveError_fields d err).2.1⟩
  · exact ⟨rfl, rfl⟩

theorem skip_ok (d : decodeState) (q : ParseState) (base : List ParseState)
    (hv : Valid d.scan d.unread) (hps : d.scan.parseState = q :: base) :
    ∃ d2, d.skip = .ok d2 ∧ d2.scan.parseState = base ∧ Valid d2.scan d2.unread ∧
      d2.unread.length < d.unread.length ∧ (base ≠ [] → d2.scan.step = .stateEndValue) := by
  unfold decodeState.skip
  rw [hps]
  obtain ⟨d2, h1, h2, h3, h4, _, h6⟩ :=
    skipLoop_valid d base d.unread d.scan [q] hv (by simpa using hps) (by simp)
  exact ⟨d2, by simpa using h1, h2, h3, h4, h6⟩

theorem valueField_ok (d : decodeState) (v : Dest) (c : contents) (ps : List ParseState)
    (h : AtValue d (.parseObjectValue :: ps)) :
    ∃ c1 d4, d.valueField v c = .ok (c1, d4) ∧ PostValue d4 .parseObjectValue ps ∧
      d4.unread.length < d.unread.length := by
  obtain ⟨hv, hcase⟩ := h
  unfold decodeState.valueField
  rcases hcase with ⟨hop, _, hps⟩ | ⟨hop, hps⟩ | ⟨hop, hl, hps⟩
  · rw [hop]
    simp only
    have hf := ite_saveError_fields v.IsValid d (.UnmarshalTypeError "object")
    obtain ⟨d2, h1, h2, h3, h4, h5⟩ :=
      skip_ok (if v.IsValid = true then d.saveError (.UnmarshalTypeError "object") else d)
        .parseObjectKey (.parseObjectValue :: ps)
        (by rw [hf.1, hf.2]; exact hv)
        (by rw [hf.2]; exact hps)
    rw [h1]
    simp only
    obtain ⟨hp, hlen, _⟩ := scanNext_post d2 .parseObjectValue ps (Or.inr rfl) h3
      (h5 (by simp)) h2
    refine ⟨c, _, rfl, hp, ?_⟩
    rw [hf.1] at h4
    omega
  · rw [hop]
    simp only
    have hf := ite_saveError_fields v.IsValid d (.UnmarshalTypeError "array")
    obtain ⟨d2, h1, h2, h3, h4, h5⟩ :=
      skip_ok (if v.IsValid = true then d.saveError (.UnmarshalTypeError "array") else d)
        .parseArrayValue (.parseObjectValue :: ps)
        (by rw [hf.1, hf.2]; exact hv)
        (by rw [hf.2]; exact hps)
    rw [h1]
    simp only
    obtain ⟨hp, hlen, _⟩ := scanNext_post d2 .parseObjectValue ps (Or.inr rfl) h3
      (h5 (by simp)) h2
    refine ⟨c, _, rfl, hp, ?_⟩
    rw [hf.1] at h4
    omega
  · rw [hop]
    simp only
    obtain ⟨body, d1, h1, _, hq, hp, hlen⟩ :=
      rescanLiteral_obj d .parseObjectValue ps (Or.inr rfl) hl hps hv
    rw [h1]
    simp only
    split
    · obtain ⟨c1, d2, h2, h3, h4, h5, _⟩ :=
        literalStore_ok d1 d.last body v c d.scan.step hl hq
      rw [h2]
      exact ⟨c1, d2, rfl, PostValue_congr hp h3 h4 h5, by rw [h3]; exact hlen⟩
    · exact ⟨c, d1, rfl, hp, hlen⟩

theorem PostValue_key_resolved {d : decodeState} {ps : List ParseState}
    (h : PostValue d .parseObjectKey ps) (hop : d.opcode ≠ .scanSkipSpace) :
    d.opcode = .scanObjectKey ∧ d.scan.step = .stateBeginValue ∧
      d.scan.parseState = .parseObjectValue :: ps ∧ Valid d.scan d.unread := by
  obtain ⟨hv, hcase⟩ := h
  rcases hcase with ⟨h1, _⟩ | ⟨_, h1, h2, h3⟩ | ⟨h1, _⟩ | ⟨h1, _⟩
  · exact absurd h1 hop
  · exact ⟨h1, h2, h3, hv⟩
  · exact absurd h1 (by decide)
  · exact absurd h1 (by decide)

theorem PostValue_value_resolved {d : decodeState} {ps : List ParseState}
    (h : PostValue d .parseObjectValue ps) (hop : d.opcode ≠ .scanSkipSpace) :
    d.opcode = .scanEndObject ∨
    (d.opcode = .scanObjectValue ∧ d.scan.step = .stateBeginString ∧
      d.scan.parseState = .parseObjectKey :: ps ∧ Valid d.scan d.unread) := by
  obtain ⟨hv, hcase⟩ := h
  rcases hcase with ⟨h1, _⟩ | ⟨h1, _⟩ | ⟨_, h1, h2, h3⟩ | ⟨_, h1⟩
  · exact absurd h1 hop
  · exact absurd h1 (by decide)
  · exact Or.inr ⟨h1, h2, h3, hv⟩
  · exact Or.inl h1

theorem object_ok (ps : List ParseState) : ∀ (fuel : Nat) (d : decodeState) (c : contents),
    Valid d.scan d.unread →
    (d.scan.step = .stateBeginStringOrEmpty ∨ d.scan.step = .stateBeginString) →
    d.scan.parseState = .parseObjectKey :: ps → d.unread.length < fuel →
    ∃ c1 d1, d.object fuel c = .ok (c1, d1) := by
  intro fuel
  induction fuel with
  | zero => intro d c _ _ _ hl; exact absurd hl (Nat.not_lt_zero _)
  | succ fuel ih =>
    intro d c hv hst hps hl
    rw [decodeState.object]
    simp only
    obtain ⟨_, hlen1, hk⟩ := scanWhile_key d ps hv hst hps
    rcases hk with hk | ⟨hop1, hlit, h22, hps1, hv1⟩
    · rw [if_pos hk]
      exact ⟨_, _, rfl⟩
    · have hne : (d.scanWhile .scanSkipSpace).opcode ≠ .scanEndObject := by
        rw [hop1]; decide
      rw [if_neg hne, if_neg (by rw [hop1]; simp)]
      obtain ⟨body, d2, hr, _, hq, hp2, hlen2⟩ :=
        rescanLiteral_obj (d.scanWhile .scanSkipSpace) .parseObjectKey ps (Or.inl rfl) hlit
          hps1 hv1
      rw [hr]
      simp only
      obtain ⟨key, hkey⟩ := hq h22
      rw [hkey]
      simp only
      obtain ⟨hp3, hop3, hlen3, _⟩ := scanWhile_post d2 .parseObjectKey ps (Or.inl rfl) hp2
      obtain ⟨hop3', hst3, hps3, hv3⟩ := PostValue_key_resolved hp3 hop3
      rw [if_neg (by rw [hop3']; simp)]
      obtain ⟨hat, _, hlen4⟩ := scanWhile_value _ (.parseObjectValue :: ps) hv3 hst3 hps3
      obtain ⟨c1, d4, hvf, hp4, hlen5⟩ := valueField_ok _ (keyDest key) c ps hat
      rw [hvf]
      simp only
      obtain ⟨hp5, hop5, hlen6, _⟩ := scanWhile_post d4 .parseObjectValue ps (Or.inr rfl) hp4
      rcases PostValue_value_resolved hp5 hop5 with hend | ⟨hop6, hst6, hps6, hv6⟩
      · rw [if_pos hend]
        exact ⟨_, _, rfl⟩
      · rw [if_neg (by rw [hop6]; decide), if_neg (by rw [hop6]; simp)]
        exact ih _ c1 hv6 (Or.inr hst6) hps6 (by omega)

theorem value_ok (d : decodeState) (c : contents) (h : AtValue d []) :
    ∃ r, d.value c = .ok r := by
  obtain ⟨hv, hcase⟩ := h
  unfold decodeState.value
  rcases hcase with ⟨hop, hst, hps⟩ | ⟨hop, hps⟩ | ⟨hop, hl, hps⟩
  · rw [hop]
    simp only
    obtain ⟨c1, d1, h1⟩ := object_ok [] (d.unread.length + 1) d c hv (Or.inl hst) hps
      (Nat.lt_succ_self _)
    rw [h1]
    exact ⟨_, rfl⟩
  · rw [hop]
    simp only
    have hf := saveError_fields d (.UnmarshalTypeError "array")
    obtain ⟨d2, h1, _⟩ := skip_ok (d.saveError (.UnmarshalTypeError "array")) .parseArrayValue []
      (by rw [hf.1, hf.2.1]; exact hv) (by rw [hf.2.1]; exact hps)
    rw [h1]
    exact ⟨_, rfl⟩
  · rw [hop]
    simp only
    obtain ⟨body, d1, h1, _, hq⟩ := rescanLiteral_top d hl hv
    rw [h1]
    simp only
    obtain ⟨c1, d2, h2, _⟩ := literalStore_ok d1 d.last body .top c d.scan.step hl hq
    rw [h2]
    exact ⟨_, rfl⟩

theorem reset_Inv : scanner.reset.Inv := by
  simp [scanner.Inv, scanner.reset]

theorem unmarshal_ok (data : List Nat) (c : contents) (h : checkValid data = none) :
    ∃ r, decodeState.unmarshal data c = .ok r := by
  unfold decodeState.unmarshal
  simp only
  have hv : Valid scanner.reset data := ⟨reset_Inv, h⟩
  obtain ⟨hat, _, _⟩ := scanWhile_value
    ⟨data, 0, .scanContinue, scanner.reset, none⟩ [] hv rfl rfl
  obtain ⟨r, hr⟩ := value_ok _ c hat
  rw [hr]
  exact ⟨_, rfl⟩

/-- `json.Unmarshal` into `contents` never panics: it returns for every input. -/
theorem Unmarshal_ok (data : List Nat) (c : contents) :
    ∃ c1 err, Unmarshal data c = .ok (c1, err) := by
  unfold Unmarshal
  cases h : checkValid data with
  | some msg => exact ⟨_, _, rfl⟩
  | none =>
    obtain ⟨r, hr⟩ := unmarshal_ok data c h
    exact ⟨r.1, r.2, hr⟩

theorem Unmarshal_invalid (data : List Nat) (c : contents) (msg : String)
    (h : checkValid data = some msg) : Unmarshal data c = .ok (c, some (.SyntaxError msg)) := by
  unfold Unmarshal
  rw [h]

/-! ## The frame codec -/

theorem IndexByte_split (c : Nat) : ∀ (s : List Nat), c ∈ s →
    ∃ pre rest, s = pre ++ c :: rest ∧ c ∉ pre ∧ IndexByte s c = (pre.length : Int) := by
  intro s
  induction s with
  | nil => intro h; exact absurd h (List.not_mem_nil c)
  | cons b bs ih =>
    intro h
    by_cases hb : b = c
    · exact ⟨[], bs, by simp [hb], by simp, by simp [IndexByte, hb]⟩
    · have hmem : c ∈ bs := by
        rcases List.mem_cons.mp h with h1 | h1
        · exact absurd h1.symm hb
        · exact h1
      obtain ⟨pre, rest, hs, hpre, hidx⟩ := ih hmem
      refine ⟨b :: pre, rest, by simp [hs], ?_, ?_⟩
      · simp only [List.mem_cons, not_or]
        exact ⟨fun h => hb h.symm, hpre⟩
      · simp only [IndexByte, hb, if_false, hidx, List.length_cons]
        have : ¬ ((pre.length : Int) < 0) := by omega
        simp only [this, if_false]
        push_cast
        ring

theorem IndexByte_absent (c : Nat) : ∀ (s : List Nat), c ∉ s → IndexByte s c = -1 := by
  intro s
  induction s with
  | nil => intro _; rfl
  | cons b bs ih =>
    intro h
    simp only [List.mem_cons, not_or] at h
    have hb : ¬ b = c := fun hbc => h.1 hbc.symm
    simp [IndexByte, hb, ih h.2]

/-- What `parseMessage` does on a frame with a space: the tag is cut at the
first space and the rest, space included, goes to `json.Unmarshal`. -/
theorem parseMessage_split (pre rest : List Nat) (h : 0x20 ∉ pre) :
    ∃ c err, Unmarshal (0x20 :: rest) {} = .ok (c, err) ∧
      parseMessage (pre ++ 0x20 :: rest) = .ok { Type_ := pre, Contents := some c } := by
  obtain ⟨c, err, hu⟩ := Unmarshal_ok (0x20 :: rest) {}
  refine ⟨c, err, hu, ?_⟩
  obtain ⟨pre2, rest2, hs, hpre2, hidx⟩ := IndexByte_split 0x20 (pre ++ 0x20 :: rest) (by simp)
  have hpre : pre2 = pre := by
    have h1 := List.append_eq_append_iff.mp hs
    rcases h1 with ⟨a, ha, hb⟩ | ⟨a, ha, hb⟩
    · cases a with
      | nil => simp at ha; exact ha
      | cons x a =>
        simp only [List.cons_append, List.cons.injEq] at hb
        rw [ha, ← hb.1] at hpre2
        simp at hpre2
    · cases a with
      | nil => simp at ha; exact ha.symm
      | cons x a =>
        simp only [List.cons_append, List.cons.injEq] at hb
        rw [ha, ← hb.1] at h
        simp at h
  subst hpre
  unfold parseMessage
  simp only [hidx, sliceTo]
  have h1 : ¬ ((pre2.length : Int) < 0 ∨
      ((pre2 ++ 0x20 :: rest).length : Int) < (pre2.length : Int)) := by
    simp only [List.length_append, List.length_cons]
    push_cast
    omega
  simp only [h1, if_false, Int.toNat_ofNat, List.take_left]
  unfold parseContents sliceFrom
  have h2 : ¬ ((pre2 ++ 0x20 :: rest).length < pre2.length) := by
    simp
  simp only [h2, if_false, List.drop_left, hu]

/-! ## Decimal numbers: rendering, scanning and `strconv.ParseInt` -/

theorem decimal_ne_nil : ∀ (fuel n : Nat), n < fuel → decimal fuel n ≠ [] := by
  intro fuel
  induction fuel with
  | zero => intro n h; exact absurd h (Nat.not_lt_zero _)
  | succ fuel ih =>
    intro n _
    rw [decimal]
    split
    · simp
    · simp

theorem decimal_digits : ∀ (fuel n : Nat), ∀ x ∈ decimal fuel n, 0x30 ≤ x ∧ x ≤ 0x39 := by
  intro fuel
  induction fuel with
  | zero => intro n x hx; simp [decimal] at hx
  | succ fuel ih =>
    intro n x hx
    rw [decimal] at hx
    split at hx
    · simp only [List.mem_singleton] at hx
      omega
    · simp only [List.mem_append, List.mem_singleton] at hx
      rcases hx with hx | hx
      · exact ih _ x hx
      · omega

theorem decimal_head : ∀ (fuel n : Nat), n < fuel → 0 < n →
    ∃ d t, decimal fuel n = d :: t ∧ 0x31 ≤ d ∧ d ≤ 0x39 := by
  intro fuel
  induction fuel with
  | zero => intro n h; exact absurd h (Nat.not_lt_zero _)
  | succ fuel ih =>
    intro n hn hpos
    rw [decimal]
    split
    · exact ⟨0x30 + n, [], rfl, by omega, by omega⟩
    · obtain ⟨d, t, hd, h1, h2⟩ := ih (n / 10) (by omega) (by omega)
      rw [hd]
      exact ⟨d, t ++ [0x30 + n % 10], rfl, h1, h2⟩

theorem parseDigits_append (a b : List Nat) : ∀ (acc : Nat),
    parseDigits acc (a ++ b) = (parseDigits acc a).bind (fun v => parseDigits v b) := by
  induction a with
  | nil => intro acc; simp [parseDigits]
  | cons x a ih =>
    intro acc
    simp only [List.cons_append, parseDigits]
    split
    · exact ih _
    · rfl

theorem parseDigits_decimal : ∀ (fuel n : Nat), n < fuel →
    ∀ acc, parseDigits acc (decimal fuel n) = some (acc * 10 ^ (decimal fuel n).length + n) := by
  intro fuel
  induction fuel with
  | zero => intro n h; exact absurd h (Nat.not_lt_zero _)
  | succ fuel ih =>
    intro n hn acc
    rw [decimal]
    split
    · rename_i h10
      have hd : isDigit (0x30 + n) = true := by
        simp only [isDigit, Bool.decide_and, Bool.and_eq_true, decide_eq_true_eq]
        omega
      simp only [parseDigits, hd, if_true, List.length_singleton, pow_one]
      congr 1
      omega
    · rename_i h10
      have hd : isDigit (0x30 + n % 10) = true := by
        simp only [isDigit, Bool.decide_and, Bool.and_eq_true, decide_eq_true_eq]
        omega
      rw [parseDigits_append, ih (n / 10) (by omega) acc]
      simp only [Option.some_bind, parseDigits, hd, if_true, List.length_append,
        List.length_singleton, pow_succ]
      congr 1
      have := Nat.div_add_mod n 10
      have h3 : 0x30 + n % 10 - 0x30 = n % 10 := by omega
      rw [h3]
      ring_nf
      omega

theorem ParseUint_decimal (n : Nat) : ParseUint (decimal (n + 1) n) = some n := by
  unfold ParseUint
  rw [if_neg (decimal_ne_nil (n + 1) n (Nat.lt_succ_self n))]
  rw [parseDigits_decimal (n + 1) n (Nat.lt_succ_self n) 0]
  simp

/-- `strconv.ParseInt` reads back what `itoa` prints, over the whole int64 range. -/
theorem ParseInt_itoa (t : Int) (hlo : -(2 : Int) ^ 63 ≤ t) (hhi : t < (2 : Int) ^ 63) :
    ParseInt (itoa t) = some t := by
  unfold itoa
  by_cases hneg : t < 0
  · rw [if_pos hneg]
    unfold ParseInt
    simp only [decide_True, Nat.reduceEqDiff, or_true, if_true, ParseUint_decimal]
    have h1 : ¬ (2 ^ 63 < t.natAbs) := by omega
    simp only [Bool.not_true, Bool.false_eq_true, false_and, if_false, h1, and_false, if_true,
      not_true_eq_false]
    congr 1
    omega
  · rw [if_neg hneg]
    obtain ⟨d, tl, hd, h1, h2⟩ : ∃ d tl, decimal (t.natAbs + 1) t.natAbs = d :: tl ∧
        0x30 ≤ d ∧ d ≤ 0x39 := by
      have hne := decimal_ne_nil (t.natAbs + 1) t.natAbs (Nat.lt_succ_self _)
      cases hdec : decimal (t.natAbs + 1) t.natAbs with
      | nil => exact absurd hdec hne
      | cons d tl =>
        have := decimal_digits (t.natAbs + 1) t.natAbs d (by rw [hdec]; simp)
        exact ⟨d, tl, rfl, this.1, this.2⟩
    have hu := ParseUint_decimal t.natAbs
    rw [hd] at hu ⊢
    unfold ParseInt
    have h3 : ¬ (d = 0x2B ∨ d = 0x2D) := by omega
    have h4 : (decide (d = 0x2D)) = false := by
      simp only [decide_eq_false_iff_not]
      omega
    simp only [h3, if_false, hu, h4]
    have h5 : ¬ (2 ^ 63 ≤ t.natAbs) := by omega
    simp only [Bool.not_false, true_and, h5, if_false, Bool.false_eq_true, false_and,
      not_false_eq_true, and_false]
    congr 1
    omega

/-! ## UTF-8: plain characters pass through `unquoteBytes` unchanged -/

theorem DecodeRune_two (p0 b1 : Nat) (rest : List Nat) (h1 : 0xC2 ≤ p0) (h2 : p0 ≤ 0xDF)
    (h3 : 0x80 ≤ b1) (h4 : b1 ≤ 0xBF) :
    DecodeRune (p0 :: b1 :: rest) = (p0 % 0x20 * 0x40 + b1 % 0x40, 2) := by
  have c1 : ¬ p0 < 0x80 := by omega
  have c2 : ¬ (p0 < 0xC2 ∨ 0xF4 < p0) := by omega
  have c3 : p0 < 0xE0 := by omega
  have c4 : ¬ ((b1 :: rest).length + 1 < 2) := by simp
  have c5 : ¬ (b1 < (if p0 = 0xE0 then 0xA0 else if p0 = 0xF0 then 0x90 else 0x80) ∨
      (if p0 = 0xED then 0x9F else if p0 = 0xF4 then 0x8F else 0xBF) < b1) := by
    split_ifs <;> omega
  simp only [DecodeRune, c1, c2, c3, c4, c5, if_true, if_false, le_refl]

theorem DecodeRune_three (p0 b1 b2 : Nat) (rest : List Nat) (h1 : 0xE0 ≤ p0) (h2 : p0 ≤ 0xEF)
    (h3 : 0x80 ≤ b1) (h4 : b1 ≤ 0xBF) (h5 : p0 = 0xE0 → 0xA0 ≤ b1) (h6 : p0 = 0xED → b1 ≤ 0x9F)
    (h7 : 0x80 ≤ b2) (h8 : b2 ≤ 0xBF) :
    DecodeRune (p0 :: b1 :: b2 :: rest) =
      (p0 % 0x10 * 0x1000 + b1 % 0x40 * 0x40 + b2 % 0x40, 3) := by
  have c1 : ¬ p0 < 0x80 := by omega
  have c2 : ¬ (p0 < 0xC2 ∨ 0xF4 < p0) := by omega
  have c3 : ¬ p0 < 0xE0 := by omega
  have c3' : p0 < 0xF0 := by omega
  have c4 : ¬ ((b1 :: b2 :: rest).length + 1 < 3) := by simp
  have c5 : ¬ (b1 < (if p0 = 0xE0 then 0xA0 else if p0 = 0xF0 then 0x90 else 0x80) ∨
      (if p0 = 0xED then 0x9F else if p0 = 0xF4 then 0x8F else 0xBF) < b1) := by
    split_ifs <;> omega
  have c6 : ¬ (3 ≤ 2) := by omega
  have c7 : ¬ (b2 < 0x80 ∨ 0xBF < b2) := by omega
  simp only [DecodeRune, c1, c2, c3, c3', c4, c5, c6, c7, if_true, if_false, le_refl]

theorem DecodeRune_four (p0 b1 b2 b3 : Nat) (rest : List Nat) (h1 : 0xF0 ≤ p0) (h2 : p0 ≤ 0xF4)
    (h3 : 0x80 ≤ b1) (h4 : b1 ≤ 0xBF) (h5 : p0 = 0xF0 → 0x90 ≤ b1) (h6 : p0 = 0xF4 → b1 ≤ 0x8F)
    (h7 : 0x80 ≤ b2) (h8 : b2 ≤ 0xBF) (h9 : 0x80 ≤ b3) (h10 : b3 ≤ 0xBF) :
    DecodeRune (p0 :: b1 :: b2 :: b3 :: rest) =
      (p0 % 0x08 * 0x40000 + b1 % 0x40 * 0x1000 + b2 % 0x40 * 0x40 + b3 % 0x40, 4) := by
  have c1 : ¬ p0 < 0x80 := by omega
  have c2 : ¬ (p0 < 0xC2 ∨ 0xF4 < p0) := by omega
  have c3 : ¬ p0 < 0xE0 := by omega
  have c3' : ¬ p0 < 0xF0 := by omega
  have c4 : ¬ ((b1 :: b2 :: b3 :: rest).length + 1 < 4) := by simp
  have c5 : ¬ (b1 < (if p0 = 0xE0 then 0xA0 else if p0 = 0xF0 then 0x90 else 0x80) ∨
      (if p0 = 0xED then 0x9F else if p0 = 0xF4 then 0x8F else 0xBF) < b1) := by
    split_ifs <;> omega
  have c6 : ¬ (4 ≤ 2) := by omega
  have c6' : ¬ (4 ≤ 3) := by omega
  have c7 : ¬ (b2 < 0x80 ∨ 0xBF < b2) := by omega
  have c8 : ¬ (b3 < 0x80 ∨ 0xBF < b3) := by omega
  simp only [DecodeRune, c1, c2, c3, c3', c4, c5, c6, c6', c7, c8, if_true, if_false]

/-- On a valid Unicode scalar value above ASCII, `utf8.DecodeRune` is the
inverse of `utf8.EncodeRune`. -/
theorem DecodeRune_EncodeRune (r : Nat) (rest : List Nat) (h80 : 0x80 ≤ r)
    (hv : r < 0xD800 ∨ (0xDFFF < r ∧ r < 0x110000)) :
    DecodeRune (EncodeRune r ++ rest) = (r, (EncodeRune r).length) ∧
      2 ≤ (EncodeRune r).length ∧ ∀ b ∈ EncodeRune r, 0x80 ≤ b := by
  unfold EncodeRune
  have h1 : ¬ r < 0x80 := by omega
  rw [if_neg h1]
  by_cases h2 : r < 0x800
  · rw [if_pos h2]
    refine ⟨?_, by simp, by simp; omega⟩
    simp only [List.cons_append, List.nil_append, List.length_cons, List.length_nil]
    rw [DecodeRune_two _ _ _ (by omega) (by omega) (by omega) (by omega)]
    simp only [Prod.mk.injEq, and_true]
    omega
  rw [if_neg h2]
  have h3 : ¬ (0x10FFFF < r ∨ (0xD800 ≤ r ∧ r ≤ 0xDFFF)) := by omega
  rw [if_neg h3]
  by_cases h4 : r < 0x10000
  · rw [if_pos h4]
    refine ⟨?_, by simp, by simp; omega⟩
    simp only [List.cons_append, List.nil_append, List.length_cons, List.length_nil]
    rw [DecodeRune_three _ _ _ _ (by omega) (by omega) (by omega) (by omega) (by omega)
      (by omega) (by omega) (by omega)]
    simp only [Prod.mk.injEq, and_true]
    omega
  · rw [if_neg h4]
    refine ⟨?_, by simp, by simp; omega⟩
    simp only [List.cons_append, List.nil_append, List.length_cons, List.length_nil]
    rw [DecodeRune_four _ _ _ _ _ (by omega) (by omega) (by omega) (by omega) (by omega)
      (by omega) (by omega) (by omega) (by omega) (by omega)]
    simp only [Prod.mk.injEq, and_true]
    omega

theorem Char_toNat_valid (c : Char) :
    c.toNat < 0xD800 ∨ (0xDFFF < c.toNat ∧ c.toNat < 0x110000) := by
  have h := c.valid
  simp only [UInt32.isValidChar, Nat.isValidChar] at h
  exact h

theorem EncodeRune_plain (c : Char) (h : plainChar c = true) :
    ∀ b ∈ EncodeRune c.toNat, b ≠ 0x22 ∧ b ≠ 0x5C ∧ 0x20 ≤ b := by
  simp only [plainChar, Bool.and_eq_true, decide_eq_true_eq, bne_iff_ne, ne_eq] at h
  by_cases h80 : c.toNat < 0x80
  · intro b hb
    simp only [EncodeRune, h80, if_true, List.mem_singleton] at hb
    omega
  · intro b hb
    have := (DecodeRune_EncodeRune c.toNat [] (by omega) (Char_toNat_valid c)).2.2 b hb
    omega

theorem StrBody_of_plain : ∀ (l : List Nat), (∀ b ∈ l, b ≠ 0x22 ∧ b ≠ 0x5C ∧ 0x20 ≤ b) →
    StrBody l := by
  intro l
  induction l with
  | nil => intro _; exact .nil
  | cons b l ih =>
    intro h
    have hb := h b (by simp)
    exact .plain b l hb.1 hb.2.1 hb.2.2 (ih (fun x hx => h x (by simp [hx])))

theorem utf8Chars_plain (cs : List Char) (h : ∀ c ∈ cs, plainChar c = true) :
    ∀ b ∈ utf8Chars cs, b ≠ 0x22 ∧ b ≠ 0x5C ∧ 0x20 ≤ b := by
  intro b hb
  simp only [utf8Chars, List.mem_flatMap] at hb
  obtain ⟨c, hc, hbc⟩ := hb
  exact EncodeRune_plain c (h c hc) b hbc

theorem StrBody_utf8Chars (cs : List Char) (h : ∀ c ∈ cs, plainChar c = true) :
    StrBody (utf8Chars cs) :=
  StrBody_of_plain _ (utf8Chars_plain cs h)

theorem utf8Chars_cons (c : Char) (cs : List Char) :
    utf8Chars (c :: cs) = EncodeRune c.toNat ++ utf8Chars cs := by
  simp [utf8Chars]

theorem EncodeRune_length_pos (r : Nat) : 1 ≤ (EncodeRune r).length := by
  unfold EncodeRune
  split_ifs <;> simp

theorem utf8Chars_length (cs : List Char) : cs.length ≤ (utf8Chars cs).length := by
  induction cs with
  | nil => simp
  | cons c cs ih =>
    rw [utf8Chars_cons]
    have := EncodeRune_length_pos c.toNat
    simp only [List.length_cons, List.length_append]
    omega

theorem unquoteScan_utf8Chars : ∀ (cs : List Char) (fuel : Nat),
    (∀ c ∈ cs, plainChar c = true) → cs.length ≤ fuel →
    unquoteScan fuel (utf8Chars cs) = (utf8Chars cs).length := by
  intro cs
  induction cs with
  | nil =>
    intro fuel _ _
    cases fuel <;> simp [utf8Chars, unquoteScan]
  | cons c cs ih =>
    intro fuel h hl
    have hc := h c (by simp)
    have hplain := EncodeRune_plain c hc
    simp only [plainChar, Bool.and_eq_true, decide_eq_true_eq, bne_iff_ne, ne_eq] at hc
    simp only [List.length_cons] at hl
    obtain ⟨f, hf⟩ : ∃ f, fuel = f + 1 := ⟨fuel - 1, by omega⟩
    subst hf
    have ih1 := ih f (fun x hx => h x (by simp [hx])) (by omega)
    rw [utf8Chars_cons]
    by_cases h80 : c.toNat < 0x80
    · have he : EncodeRune c.toNat = [c.toNat] := by simp [EncodeRune, h80]
      rw [he]
      simp only [List.singleton_append, List.length_cons]
      rw [unquoteScan]
      have h1 : ¬ (c.toNat = 0x5C ∨ c.toNat = 0x22 ∨ c.toNat < 0x20) := by omega
      rw [if_neg h1, if_pos h80, ih1]
      omega
    · obtain ⟨hdec, hlen, hhigh⟩ :=
        DecodeRune_EncodeRune c.toNat (utf8Chars cs) (by omega) (Char_toNat_valid c)
      obtain ⟨b0, t0, hbt⟩ : ∃ b0 t0, EncodeRune c.toNat = b0 :: t0 := by
        cases hE : EncodeRune c.toNat with
        | nil => rw [hE] at hlen; simp at hlen
        | cons b0 t0 => exact ⟨b0, t0, rfl⟩
      have hb0 : 0x80 ≤ b0 := hhigh b0 (by rw [hbt]; simp)
      rw [hbt] at hdec hlen ⊢
      simp only [List.cons_append] at hdec ⊢
      rw [unquoteScan]
      have h1 : ¬ (b0 = 0x5C ∨ b0 = 0x22 ∨ b0 < 0x20) := by omega
      have h2 : ¬ b0 < 0x80 := by omega
      rw [if_neg h1, if_neg h2]
      simp only [hdec]
      have h3 : ¬ (c.toNat = RuneError ∧ (b0 :: t0).length = 1) := by
        intro h
        rw [h.2] at hlen
        omega
      rw [if_neg h3]
      have h4 : List.drop (b0 :: t0).length (b0 :: (t0 ++ utf8Chars cs)) = utf8Chars cs := by
        rw [← List.cons_append, List.drop_left]
      rw [h4, ih1]
      simp only [List.length_cons, List.length_append]
      omega

/-- A string of plain characters, UTF-8 encoded and put between quotes, is
unquoted to itself. -/
theorem unquoteBytes_utf8Chars (cs : List Char) (h : ∀ c ∈ cs, plainChar c = true) :
    unquoteBytes (0x22 :: (utf8Chars cs ++ [0x22])) = some (utf8Chars cs) := by
  unfold unquoteBytes
  have hlast : (0x22 :: (utf8Chars cs ++ [0x22])).getLast? = some 0x22 := by
    rw [← List.cons_append, List.getLast?_append]
    simp
  have h1 : ¬ ((0x22 :: (utf8Chars cs ++ [0x22])).length < 2 ∨
      (0x22 :: (utf8Chars cs ++ [0x22])).head? ≠ some 0x22 ∨
      (0x22 :: (utf8Chars cs ++ [0x22])).getLast? ≠ some 0x22) := by
    rw [hlast]
    simp
  simp only [h1, if_false, List.drop_succ_cons, List.drop_zero, List.dropLast_concat]
  rw [unquoteScan_utf8Chars cs _ h (utf8Chars_length cs)]
  simp

/-! ## Running the scanner and the decoder over frames of a known shape -/

theorem checkValidFrom_step (s s2 : scanner) (op : ScanOp) (c : Nat) (cs : List Nat)
    (h : s.doStep c = (s2, op)) (hop : op ≠ .scanError) :
    checkValidFrom s (c :: cs) = checkValidFrom s2 cs := by
  rw [checkValidFrom]
  simp only [h, hop, if_false]

theorem checkValidFrom_string (e : Bool) (ps : List ParseState) (err : Option String)
    {body : List Nat} (h : StrBody body) (rest : List Nat) :
    checkValidFrom ⟨.stateInString, e, ps, err⟩ (body ++ 0x22 :: rest) =
      checkValidFrom ⟨.stateEndValue, e, ps, err⟩ rest := by
  induction h with
  | nil =>
    exact checkValidFrom_step _ _ .scanContinue _ _ (by simp [scanner.doStep, stateInString])
      (by decide)
  | plain c t h1 h2 h3 _ ih =>
    rw [List.cons_append, checkValidFrom_step _ ⟨.stateInString, e, ps, err⟩ .scanContinue _ _
      (by
        have h4 : ¬ c < 0x20 := by omega
        simp [scanner.doStep, stateInString, h1, h2, h4]) (by decide)]
    exact ih
  | esc x t hx _ ih =>
    rw [List.cons_append, List.cons_append,
      checkValidFrom_step _ ⟨.stateInStringEsc, e, ps, err⟩ .scanContinue _ _
        (by simp [scanner.doStep, stateInString]) (by decide),
      checkValidFrom_step _ ⟨.stateInString, e, ps, err⟩ .scanContinue _ _
        (by simp [scanner.doStep, stateInStringEsc, hx]) (by decide)]
    exact ih
  | uni a1 a2 a3 a4 t hh1 hh2 hh3 hh4 _ ih =>
    simp only [List.cons_append]
    rw [checkValidFrom_step _ ⟨.stateInStringEsc, e, ps, err⟩ .scanContinue _ _
        (by simp [scanner.doStep, stateInString]) (by decide),
      checkValidFrom_step _ ⟨.stateInStringEscU, e, ps, err⟩ .scanContinue _ _
        (by simp [scanner.doStep, stateInStringEsc]) (by decide),
      checkValidFrom_step _ ⟨.stateInStringEscU1, e, ps, err⟩ .scanContinue _ _
        (by simp [scanner.doStep, stateHex, hh1]) (by decide),
      checkValidFrom_step _ ⟨.stateInStringEscU12, e, ps, err⟩ .scanContinue _ _
        (by simp [scanner.doStep, stateHex, hh2]) (by decide),
      checkValidFrom_step _ ⟨.stateInStringEscU123, e, ps, err⟩ .scanContinue _ _
        (by simp [scanner.doStep, stateHex, hh3]) (by decide),
      checkValidFrom_step _ ⟨.stateInString, e, ps, err⟩ .scanContinue _ _
        (by simp [scanner.doStep, stateHex, hh4]) (by decide)]
    exact ih

theorem checkValidFrom_digits (e : Bool) (ps : List ParseState) (err : Option String) :
    ∀ (ds : List Nat) (rest : List Nat), (∀ x ∈ ds, 0x30 ≤ x ∧ x ≤ 0x39) →
    checkValidFrom ⟨.state1, e, ps, err⟩ (ds ++ rest) =
      checkValidFrom ⟨.state1, e, ps, err⟩ rest := by
  intro ds
  induction ds with
  | nil => intro rest _; rfl
  | cons x ds ih =>
    intro rest h
    have hx := h x (by simp)
    have hd : isDigit x = true := by
      simp only [isDigit, Bool.decide_and, Bool.and_eq_true, decide_eq_true_eq]
      exact hx
    rw [List.cons_append, checkValidFrom_step _ ⟨.state1, e, ps, err⟩ .scanContinue _ _
      (by simp [scanner.doStep, state1, hd]) (by decide)]
    exact ih rest (fun y hy => h y (by simp [hy]))

/-- The shape of `itoa t`: a first byte `-` or digit, then digits only. -/
theorem itoa_shape (t : Int) :
    ∃ c0 tl, itoa t = c0 :: tl ∧ ((0x30 ≤ c0 ∧ c0 ≤ 0x39) ∨ c0 = 0x2D) ∧
      ∀ x ∈ tl, 0x30 ≤ x ∧ x ≤ 0x39 := by
  unfold itoa
  split
  · exact ⟨0x2D, _, rfl, Or.inr rfl, decimal_digits _ _⟩
  · have hne := decimal_ne_nil (t.natAbs + 1) t.natAbs (Nat.lt_succ_self _)
    have hd := decimal_digits (t.natAbs + 1) t.natAbs
    cases hdec : decimal (t.natAbs + 1) t.natAbs with
    | nil => exact absurd hdec hne
    | cons d tl =>
      rw [hdec] at hd
      exact ⟨d, tl, rfl, Or.inl (hd d (by simp)), fun x hx => hd x (by simp [hx])⟩

/-- The scanner accepts `itoa t` as a number literal: when the next byte is
`}` it ends the value. -/
theorem checkValidFrom_itoa (e : Bool) (ps : List ParseState) (err : Option String) (t : Int)
    (rest : List Nat) :
    checkValidFrom ⟨.stateBeginValue, e, ps, err⟩ (itoa t ++ 0x7D :: rest) =
      checkValidFrom (stateEndValue ⟨.state1, e, ps, err⟩ 0x7D).1 rest ∨
    (stateEndValue ⟨.state1, e, ps, err⟩ 0x7D).2 = .scanError := by
  by_cases hop : (stateEndValue ⟨.state1, e, ps, err⟩ 0x7D).2 = .scanError
  · exact Or.inr hop
  refine Or.inl ?_
  have hend1 : checkValidFrom ⟨.state1, e, ps, err⟩ (0x7D :: rest) =
      checkValidFrom (stateEndValue ⟨.state1, e, ps, err⟩ 0x7D).1 rest :=
    checkValidFrom_step _ _ (stateEndValue ⟨.state1, e, ps, err⟩ 0x7D).2 _ _
      (by simp [scanner.doStep, state1, state0, isDigit]) hop
  have hend0 : checkValidFrom ⟨.state0, e, ps, err⟩ (0x7D :: rest) =
      checkValidFrom (stateEndValue ⟨.state1, e, ps, err⟩ 0x7D).1 rest := by
    rw [stateEndValue_step .state1 .state0] at hop ⊢
    exact checkValidFrom_step _ _ (stateEndValue ⟨.state0, e, ps, err⟩ 0x7D).2 _ _
      (by simp [scanner.doStep, state0]) hop
  have hpos : ∀ n, 0 < n → checkValidFrom ⟨.stateBeginValue, e, ps, err⟩
      (decimal (n + 1) n ++ 0x7D :: rest) =
      checkValidFrom (stateEndValue ⟨.state1, e, ps, err⟩ 0x7D).1 rest := by
    intro n hn
    obtain ⟨d, tl, hd, h1, h2⟩ := decimal_head (n + 1) n (Nat.lt_succ_self n) hn
    have hds := decimal_digits (n + 1) n
    rw [hd] at hds ⊢
    have h3 : ¬ (d = 0x7B) ∧ ¬ (d = 0x5B) ∧ ¬ (d = 0x22) ∧ ¬ (d = 0x2D) ∧ ¬ (d = 0x30) ∧
        ¬ (d = 0x74) ∧ ¬ (d = 0x66) ∧ ¬ (d = 0x6E) := by omega
    have h4 : isSpace d = false := by
      simp only [isSpace, Bool.decide_or, Bool.or_eq_false_iff, decide_eq_false_iff_not]
      omega
    rw [List.cons_append, checkValidFrom_step _ ⟨.state1, e, ps, err⟩ .scanBeginLiteral _ _
      (by simp [scanner.doStep, stateBeginValue, h3, h4, h1, h2]) (by decide),
      checkValidFrom_digits e ps err tl _ (fun x hx => hds x (by simp [hx])), hend1]
  unfold itoa
  by_cases hneg : t < 0
  · rw [if_pos hneg]
    obtain ⟨d, tl, hd, h1, h2⟩ := decimal_head (t.natAbs + 1) t.natAbs (Nat.lt_succ_self _)
      (by omega)
    have hds := decimal_digits (t.natAbs + 1) t.natAbs
    rw [hd] at hds ⊢
    have h3 : ¬ (d = 0x30) := by omega
    rw [List.cons_append, checkValidFrom_step _ ⟨.stateNeg, e, ps, err⟩ .scanBeginLiteral _ _
      (by simp [scanner.doStep, stateBeginValue, isSpace]) (by decide),
      List.cons_append, checkValidFrom_step _ ⟨.state1, e, ps, err⟩ .scanContinue _ _
      (by simp [scanner.doStep, stateNeg, h3, h1, h2]) (by decide),
      checkValidFrom_digits e ps err tl _ (fun x hx => hds x (by simp [hx])), hend1]
  · rw [if_neg hneg]
    by_cases h0 : t.natAbs = 0
    · rw [h0]
      have : decimal (0 + 1) 0 = [0x30] := by decide
      rw [this, List.singleton_append,
        checkValidFrom_step _ ⟨.state0, e, ps, err⟩ .scanBeginLiteral _ _
          (by simp [scanner.doStep, stateBeginValue, isSpace]) (by decide), hend0]
    · exact hpos t.natAbs (by omega)

theorem scanWhileLoop_to_quote (d : decodeState) (st : StepFn) (e : Bool)
    (ps : List ParseState) (err : Option String)
    (hst : st = .stateBeginStringOrEmpty ∨ st = .stateBeginString ∨ st = .stateBeginValue)
    (X : List Nat) : ∀ (lead : List Nat), (∀ x ∈ lead, x = 0x20) →
    scanWhileLoop d .scanSkipSpace ⟨st, e, ps, err⟩ (lead ++ 0x22 :: X) =
      { d with unread := X, last := 0x22, scan := ⟨.stateInString, e, ps, err⟩,
               opcode := .scanBeginLiteral } := by
  intro lead
  induction lead with
  | nil =>
    intro _
    rw [List.nil_append, scanWhileLoop]
    rcases hst with h | h | h <;> subst h <;>
      simp [scanner.doStep, stateBeginStringOrEmpty, stateBeginString, stateBeginValue, isSpace]
  | cons x lead ih =>
    intro h
    have hx : x = 0x20 := h x (by simp)
    subst hx
    rw [List.cons_append, scanWhileLoop]
    have : (⟨st, e, ps, err⟩ : scanner).doStep 0x20 = (⟨st, e, ps, err⟩, .scanSkipSpace) := by
      rcases hst with h | h | h <;> subst h <;>
        simp [scanner.doStep, stateBeginStringOrEmpty, stateBeginString, stateBeginValue,
          isSpace]
    simp only [this, ne_eq, not_true_eq_false, if_false]
    exact ih (fun y hy => h y (by simp [hy]))

theorem rescanLiteral_string (d : decodeState) (V : List Nat) (hV : StrBody V) (c : Nat)
    (rest : List Nat) (hlast : d.last = 0x22) (hun : d.unread = V ++ 0x22 :: c :: rest) :
    d.rescanLiteral = .ok (0x22 :: (V ++ [0x22]),
      { d with unread := rest, last := c, scan := (stateEndValue d.scan c).1,
               opcode := (stateEndValue d.scan c).2 }) := by
  unfold decodeState.rescanLiteral rescanBody
  rw [hlast, if_pos rfl, hun, rescanString_body hV]

theorem literalStore_string (d : decodeState) (body s : List Nat) (v : Dest) (c : contents)
    (h : unquoteBytes (0x22 :: body) = some s) :
    ∃ d1, d.literalStore (0x22 :: body) v c = .ok (assignString v s c, d1) ∧
      d1.unread = d.unread ∧ d1.scan = d.scan ∧ d1.opcode = d.opcode ∧ d1.last = d.last := by
  unfold decodeState.literalStore
  simp only [Nat.reduceEqDiff, if_false, or_self, if_true, h]
  rcases v with _ | ⟨_ | _ | _⟩ | _ <;>
    first
      | exact ⟨_, rfl, rfl, rfl, rfl, rfl⟩
      | exact ⟨_, rfl, saveError_fields d _⟩

theorem valueField_string (d : decodeState) (v : Dest) (c0 : contents) (V Vq : List Nat)
    (hV : StrBody V) (hVq : unquoteBytes (0x22 :: (V ++ [0x22])) = some Vq) (c : Nat)
    (rest : List Nat) (hop : d.opcode = .scanBeginLiteral) (hlast : d.last = 0x22)
    (hun : d.unread = V ++ 0x22 :: c :: rest) :
    ∃ d1, d.valueField v c0 = .ok (assignString v Vq c0, d1) ∧ d1.unread = rest ∧
      d1.scan = (stateEndValue d.scan c).1 ∧ d1.opcode = (stateEndValue d.scan c).2 ∧
      d1.last = c := by
  unfold decodeState.valueField
  rw [hop]
  simp only [rescanLiteral_string d V hV c rest hlast hun]
  by_cases hv : v.IsValid = true
  · rw [if_pos hv]
    obtain ⟨d1, h1, h2, h3, h4, h5⟩ := literalStore_string
      { d with unread := rest, last := c, scan := (stateEndValue d.scan c).1,
               opcode := (stateEndValue d.scan c).2 } (V ++ [0x22]) Vq v c0 hVq
    exact ⟨d1, h1, h2, h3, h4, h5⟩
  · rw [if_neg hv]
    have : v = .invalid := by
      cases v <;> simp [Dest.IsValid] at hv ⊢
    subst this
    exact ⟨_, rfl, rfl, rfl, rfl, rfl⟩

/-- One round of the decoder's object loop on a member `"K": "V"` that is
followed by a comma: the string is stored and the loop goes on after the comma. -/
theorem object_string_member_comma (fuel : Nat) (c0 : contents) (lead K Kq V Vq rest : List Nat)
    (hlead : ∀ x ∈ lead, x = 0x20) (hK : StrBody K)
    (hKq : unquoteBytes (0x22 :: (K ++ [0x22])) = some Kq) (hV : StrBody V)
    (hVq : unquoteBytes (0x22 :: (V ++ [0x22])) = some Vq) (st : StepFn)
    (hst : st = .stateBeginStringOrEmpty ∨ st = .stateBeginString) (ps : List ParseState)
    (last : Nat) (op : ScanOp) (saved : Option JsonError) :
    ∃ saved2, decodeState.object (fuel + 1)
        ⟨lead ++ 0x22 :: (K ++ 0x22 :: 0x3A :: 0x20 :: 0x22 :: (V ++ 0x22 :: 0x2C :: rest)),
          last, op, ⟨st, false, .parseObjectKey :: ps, none⟩, saved⟩ c0 =
      decodeState.object fuel
        ⟨rest, 0x2C, .scanObjectValue, ⟨.stateBeginString, false, .parseObjectKey :: ps, none⟩,
          saved2⟩ (assignString (keyDest Kq) Vq c0) := by
  rw [decodeState.object]
  simp only [decodeState.scanWhile]
  rw [scanWhileLoop_to_quote _ st false _ none
    (by rcases hst with h | h <;> simp [h]) _ lead hlead]
  simp only [reduceCtorEq, if_false, ne_eq, not_true_eq_false]
  rw [rescanLiteral_string _ K hK 0x3A _ rfl rfl]
  simp only [hKq]
  have h1 : stateEndValue ⟨.stateInString, false, .parseObjectKey :: ps, none⟩ 0x3A =
      (⟨.stateBeginValue, false, .parseObjectValue :: ps, none⟩, .scanObjectKey) := by
    simp [stateEndValue, isSpace]
  simp only [h1, reduceCtorEq, if_false, ne_eq, not_true_eq_false]
  have hsw := fun dd => scanWhileLoop_to_quote dd .stateBeginValue false
    (.parseObjectValue :: ps) none (by simp) (V ++ 0x22 :: 0x2C :: rest) [0x20] (by simp)
  simp only [List.cons_append, List.nil_append] at hsw
  rw [hsw]
  obtain ⟨d1, hvf, hu, hs, ho, hl⟩ := valueField_string
    ⟨V ++ 0x22 :: 0x2C :: rest, 0x22, .scanBeginLiteral,
      ⟨.stateInString, false, .parseObjectValue :: ps, none⟩, saved⟩
    (keyDest Kq) c0 V Vq hV hVq 0x2C rest rfl rfl rfl
  have h2 : stateEndValue ⟨.stateInString, false, .parseObjectValue :: ps, none⟩ 0x2C =
      (⟨.stateBeginString, false, .parseObjectKey :: ps, none⟩, .scanObjectValue) := by
    simp [stateEndValue, isSpace]
  simp only [h2] at hs ho
  simp only [hvf]
  obtain ⟨unread, last1, opcode, scan, saved1⟩ := d1
  simp only at hu hs ho hl
  subst hu hs ho hl
  simp only [reduceCtorEq, if_false, ne_eq, not_true_eq_false]
  exact ⟨saved1, rfl⟩

/-- One round of the decoder's object loop on a member `"K": "V"` that is
followed by the closing brace: the string is stored and the loop ends. -/
theorem object_string_member_end (fuel : Nat) (c0 : contents) (lead K Kq V Vq rest : List Nat)
    (hlead : ∀ x ∈ lead, x = 0x20) (hK : StrBody K)
    (hKq : unquoteBytes (0x22 :: (K ++ [0x22])) = some Kq) (hV : StrBody V)
    (hVq : unquoteBytes (0x22 :: (V ++ [0x22])) = some Vq) (st : StepFn)
    (hst : st = .stateBeginStringOrEmpty ∨ st = .stateBeginString) (ps : List ParseState)
    (last : Nat) (op : ScanOp) (saved : Option JsonError) :
    ∃ d2, decodeState.object (fuel + 1)
        ⟨lead ++ 0x22 :: (K ++ 0x22 :: 0x3A :: 0x20 :: 0x22 :: (V ++ 0x22 :: 0x7D :: rest)),
          last, op, ⟨st, false, .parseObjectKey :: ps, none⟩, saved⟩ c0 =
      .ok (assignString (keyDest Kq) Vq c0, d2) := by
  rw [decodeState.object]
  simp only [decodeState.scanWhile]
  rw [scanWhileLoop_to_quote _ st false _ none
    (by rcases hst with h | h <;> simp [h]) _ lead hlead]
  simp only [reduceCtorEq, if_false, ne_eq, not_true_eq_false]
  rw [rescanLiteral_string _ K hK 0x3A _ rfl rfl]
  simp only [hKq]
  have h1 : stateEndValue ⟨.stateInString, false, .parseObjectKey :: ps, none⟩ 0x3A =
      (⟨.stateBeginValue, false, .parseObjectValue :: ps, none⟩, .scanObjectKey) := by
    simp [stateEndValue, isSpace]
  simp only [h1, reduceCtorEq, if_false, ne_eq, not_true_eq_false]
  have hsw := fun dd => scanWhileLoop_to_quote dd .stateBeginValue false
    (.parseObjectValue :: ps) none (by simp) (V ++ 0x22 :: 0x7D :: rest) [0x20] (by simp)
  simp only [List.cons_append, List.nil_append] at hsw
  rw [hsw]
  obtain ⟨d1, hvf, hu, hs, ho, hl⟩ := valueField_string
    ⟨V ++ 0x22 :: 0x7D :: rest, 0x22, .scanBeginLiteral,
      ⟨.stateInString, false, .parseObjectValue :: ps, none⟩, saved⟩
    (keyDest Kq) c0 V Vq hV hVq 0x7D rest rfl rfl rfl
  have h2 : (stateEndValue ⟨.stateInString, false, .parseObjectValue :: ps, none⟩ 0x7D).2 =
      .scanEndObject := by
    simp [stateEndValue, isSpace]
  simp only [h2] at ho
  simp only [hvf]
  simp only [ho, reduceCtorEq, if_false, if_true]
  exact ⟨_, rfl⟩

theorem rescanNumber_digits : ∀ (ds : List Nat) (c : Nat) (rest : List Nat),
    (∀ x ∈ ds, 0x30 ≤ x ∧ x ≤ 0x39) → ¬ numChar c →
    rescanNumber (ds ++ c :: rest) = (ds, c :: rest) := by
  intro ds
  induction ds with
  | nil =>
    intro c rest _ hc
    rw [List.nil_append, rescanNumber]
    simp only [numChar] at hc
    simp [hc]
  | cons x ds ih =>
    intro c rest h hc
    have hx := h x (by simp)
    have hd : isDigit x = true := by
      simp only [isDigit, Bool.decide_and, Bool.and_eq_true, decide_eq_true_eq]
      exact hx
    rw [List.cons_append, rescanNumber]
    simp [hd, ih c rest (fun y hy => h y (by simp [hy])) hc]

theorem doStep_BeginValue_number (e : Bool) (ps : List ParseState) (err : Option String)
    (c0 : Nat) (h : (0x30 ≤ c0 ∧ c0 ≤ 0x39) ∨ c0 = 0x2D) :
    ∃ st0, (⟨.stateBeginValue, e, ps, err⟩ : scanner).doStep c0 =
      (⟨st0, e, ps, err⟩, .scanBeginLiteral) := by
  rcases stateBeginValue_cases ⟨.stateBeginValue, e, ps, err⟩ c0 with ⟨hs, _⟩ | ⟨_, h1⟩ |
    ⟨_, h1⟩ | ⟨_, st, _, h1⟩ | ⟨_, s2, h1, _, _⟩
  · simp only [isSpace, Bool.decide_or, Bool.or_eq_true, decide_eq_true_eq] at hs
    omega
  · exfalso
    have h7 : c0 ≠ 0x7B := by omega
    have hs : isSpace c0 = false := by
      simp only [isSpace, Bool.decide_or, Bool.or_eq_false_iff, decide_eq_false_iff_not]
      omega
    simp [stateBeginValue, h7, hs] at h1
    (repeat' split at h1) <;> simp [scanner.pushParseState, scanner.error] at h1
    split at h1 <;> simp at h1
  · exfalso
    have h7 : c0 ≠ 0x7B := by omega
    have h5 : c0 ≠ 0x5B := by omega
    have hs : isSpace c0 = false := by
      simp only [isSpace, Bool.decide_or, Bool.or_eq_false_iff, decide_eq_false_iff_not]
      omega
    simp [stateBeginValue, h7, h5, hs] at h1
    (repeat' split at h1) <;> simp [scanner.error] at h1
  · exact ⟨st, by simpa [scanner.doStep] using h1⟩
  · exfalso
    have h7 : c0 ≠ 0x7B := by omega
    have h5 : c0 ≠ 0x5B := by omega
    have hs : isSpace c0 = false := by
      simp only [isSpace, Bool.decide_or, Bool.or_eq_false_iff, decide_eq_false_iff_not]
      omega
    have h6 : (stateBeginValue ⟨.stateBeginValue, e, ps, err⟩ c0).2 = .scanError := by rw [h1]
    simp only [stateBeginValue, h7, h5, hs, Bool.false_eq_true, if_false] at h6
    (repeat' split at h6) <;> first | simp at h6 | omega

theorem rescanLiteral_number (d : decodeState) (ds : List Nat)
    (hds : ∀ x ∈ ds, 0x30 ≤ x ∧ x ≤ 0x39) (c : Nat) (hc : ¬ numChar c) (rest : List Nat)
    (hlast : (0x30 ≤ d.last ∧ d.last ≤ 0x39) ∨ d.last = 0x2D)
    (hun : d.unread = ds ++ c :: rest) :
    d.rescanLiteral = .ok (d.last :: ds,
      { d with unread := rest, last := c, scan := (stateEndValue d.scan c).1,
               opcode := (stateEndValue d.scan c).2 }) := by
  unfold decodeState.rescanLiteral rescanBody
  have h1 : d.last ≠ 0x22 := by omega
  have h2 : isDigit d.last = true ∨ d.last = 0x2D := by
    rcases hlast with h | h
    · left
      simp only [isDigit, Bool.decide_and, Bool.and_eq_true, decide_eq_true_eq]
      exact h
    · exact Or.inr h
  rw [if_neg h1, if_pos h2, hun, rescanNumber_digits ds c rest hds hc]

theorem literalStore_number (d : decodeState) (n0 : Nat) (ds : List Nat) (t : Int) (v : Dest)
    (c : contents) (hn0 : (0x30 ≤ n0 ∧ n0 ≤ 0x39) ∨ n0 = 0x2D)
    (h : ParseInt (n0 :: ds) = some t) :
    ∃ d1, d.literalStore (n0 :: ds) v c = .ok (assignInt v t c, d1) ∧
      d1.unread = d.unread ∧ d1.scan = d.scan ∧ d1.opcode = d.opcode ∧ d1.last = d.last := by
  unfold decodeState.literalStore
  have h1 : n0 ≠ 0x6E := by omega
  have h2 : ¬ (n0 = 0x74 ∨ n0 = 0x66) := by omega
  have h3 : n0 ≠ 0x22 := by omega
  have h4 : ¬ (n0 ≠ 0x2D ∧ (n0 < 0x30 ∨ 0x39 < n0)) := by omega
  simp only [h1, h2, h3, h4, if_false, h]
  rcases v with _ | ⟨_ | _ | _⟩ | _ <;>
    first
      | exact ⟨_, rfl, rfl, rfl, rfl, rfl⟩
      | exact ⟨_, rfl, saveError_fields d _⟩

theorem valueField_number (d : decodeState) (v : Dest) (c0 : contents) (ds : List Nat)
    (t : Int) (hds : ∀ x ∈ ds, 0x30 ≤ x ∧ x ≤ 0x39) (c : Nat) (hc : ¬ numChar c)
    (rest : List Nat) (hop : d.opcode = .scanBeginLiteral)
    (hlast : (0x30 ≤ d.last ∧ d.last ≤ 0x39) ∨ d.last = 0x2D)
    (hparse : ParseInt (d.last :: ds) = some t) (hun : d.unread = ds ++ c :: rest) :
    ∃ d1, d.valueField v c0 = .ok (assignInt v t c0, d1) ∧ d1.unread = rest ∧
      d1.scan = (stateEndValue d.scan c).1 ∧ d1.opcode = (stateEndValue d.scan c).2 ∧
      d1.last = c := by
  unfold decodeState.valueField
  rw [hop]
  simp only [rescanLiteral_number d ds hds c hc rest hlast hun]
  by_cases hv : v.IsValid = true
  · rw [if_pos hv]
    obtain ⟨d1, h1, h2, h3, h4, h5⟩ := literalStore_number
      { d with unread := rest, last := c, scan := (stateEndValue d.scan c).1,
               opcode := (stateEndValue d.scan c).2 } d.last ds t v c0 hlast hparse
    exact ⟨d1, h1, h2, h3, h4, h5⟩
  · rw [if_neg hv]
    have : v = .invalid := by
      cases v <;> simp [Dest.IsValid] at hv ⊢
    subst this
    exact ⟨_, rfl, rfl, rfl, rfl, rfl⟩

theorem scanWhileLoop_to_number (d : decodeState) (e : Bool) (ps : List ParseState)
    (err : Option String) (n0 : Nat) (hn0 : (0x30 ≤ n0 ∧ n0 ≤ 0x39) ∨ n0 = 0x2D)
    (X : List Nat) :
    ∃ st0, scanWhileLoop d .scanSkipSpace ⟨.stateBeginValue, e, ps, err⟩ (0x20 :: n0 :: X) =
      { d with unread := X, last := n0, scan := ⟨st0, e, ps, err⟩,
               opcode := .scanBeginLiteral } := by
  obtain ⟨st0, h0⟩ := doStep_BeginValue_number e ps err n0 hn0
  refine ⟨st0, ?_⟩
  rw [scanWhileLoop]
  have : (⟨.stateBeginValue, e, ps, err⟩ : scanner).doStep 0x20 =
      (⟨.stateBeginValue, e, ps, err⟩, .scanSkipSpace) := by
    simp [scanner.doStep, stateBeginValue, isSpace]
  simp only [this, ne_eq, not_true_eq_false, if_false]
  rw [scanWhileLoop]
  simp only [h0, ne_eq, reduceCtorEq, not_false_eq_true, if_true]

/-- One round of the decoder's object loop on a member `"K": n` whose value is
a run of digits, with an optional minus sign, followed by the closing brace. -/
theorem object_int_member_end (fuel : Nat) (c0 : contents) (lead K Kq : List Nat) (n0 : Nat)
    (ds rest : List Nat) (t : Int)
    (hlead : ∀ x ∈ lead, x = 0x20) (hK : StrBody K)
    (hKq : unquoteBytes (0x22 :: (K ++ [0x22])) = some Kq)
    (hn0 : (0x30 ≤ n0 ∧ n0 ≤ 0x39) ∨ n0 = 0x2D) (hds : ∀ x ∈ ds, 0x30 ≤ x ∧ x ≤ 0x39)
    (hparse : ParseInt (n0 :: ds) = some t) (st : StepFn)
    (hst : st = .stateBeginStringOrEmpty ∨ st = .stateBeginString) (ps : List ParseState)
    (last : Nat) (op : ScanOp) (saved : Option JsonError) :
    ∃ d2, decodeState.object (fuel + 1)
        ⟨lead ++ 0x22 :: (K ++ 0x22 :: 0x3A :: 0x20 :: n0 :: (ds ++ 0x7D :: rest)),
          last, op, ⟨st, false, .parseObjectKey :: ps, none⟩, saved⟩ c0 =
      .ok (assignInt (keyDest Kq) t c0, d2) := by
  rw [decodeState.object]
  simp only [decodeState.scanWhile]
  rw [scanWhileLoop_to_quote _ st false _ none
    (by rcases hst with h | h <;> simp [h]) _ lead hlead]
  simp only [reduceCtorEq, if_false, ne_eq, not_true_eq_false]
  rw [rescanLiteral_string _ K hK 0x3A _ rfl rfl]
  simp only [hKq]
  have h1 : stateEndValue ⟨.stateInString, false, .parseObjectKey :: ps, none⟩ 0x3A =
      (⟨.stateBeginValue, false, .parseObjectValue :: ps, none⟩, .scanObjectKey) := by
    simp [stateEndValue, isSpace]
  simp only [h1, reduceCtorEq, if_false, ne_eq, not_true_eq_false]
  have hsw := fun dd => scanWhileLoop_to_number dd false (.parseObjectValue :: ps) none n0 hn0
    (ds ++ 0x7D :: rest)
  obtain ⟨st0, hsw0⟩ := hsw ⟨0x20 :: n0 :: (ds ++ 0x7D :: rest), 0x3A, .scanObjectKey,
      ⟨.stateBeginValue, false, .parseObjectValue :: ps, none⟩, saved⟩
  rw [hsw0]
  obtain ⟨d1, hvf, hu, hs, ho, hl⟩ := valueField_number
    ⟨ds ++ 0x7D :: rest, n0, .scanBeginLiteral,
      ⟨st0, false, .parseObjectValue :: ps, none⟩, saved⟩
    (keyDest Kq) c0 ds t hds 0x7D (by simp [numChar, isDigit]) rest rfl hn0 hparse rfl
  have h2 : (stateEndValue ⟨st0, false, .parseObjectValue :: ps, none⟩ 0x7D).2 =
      .scanEndObject := by
    simp [stateEndValue, isSpace]
  simp only [h2] at ho
  simp only [hvf]
  simp only [ho, reduceCtorEq, if_false, if_true]
  exact ⟨_, rfl⟩

theorem checkValidFrom_spaces (st : StepFn) (e : Bool) (ps : List ParseState)
    (err : Option String)
    (hst : st = .stateBeginStringOrEmpty ∨ st = .stateBeginString ∨ st = .stateBeginValue)
    (X : List Nat) : ∀ (lead : List Nat), (∀ x ∈ lead, x = 0x20) →
    checkValidFrom ⟨st, e, ps, err⟩ (lead ++ X) = checkValidFrom ⟨st, e, ps, err⟩ X := by
  intro lead
  induction lead with
  | nil => intro _; rfl
  | cons x lead ih =>
    intro h
    have hx : x = 0x20 := h x (by simp)
    subst hx
    rw [List.cons_append, checkValidFrom_step _ ⟨st, e, ps, err⟩ .scanSkipSpace _ _ _ (by decide)]
    · exact ih (fun y hy => h y (by simp [hy]))
    · rcases hst with h | h | h <;> subst h <;>
        simp [scanner.doStep, stateBeginStringOrEmpty, stateBeginString, stateBeginValue,
          isSpace]

/-- The scanner over a key, the colon, one space and the opening quote of a value. -/
theorem checkValidFrom_key (st : StepFn)
    (hst : st = .stateBeginStringOrEmpty ∨ st = .stateBeginString) (ps : List ParseState)
    (lead K rest : List Nat) (hlead : ∀ x ∈ lead, x = 0x20) (hK : StrBody K) :
    checkValidFrom ⟨st, false, .parseObjectKey :: ps, none⟩
        (lead ++ 0x22 :: (K ++ 0x22 :: 0x3A :: 0x20 :: rest)) =
      checkValidFrom ⟨.stateBeginValue, false, .parseObjectValue :: ps, none⟩ rest := by
  rw [checkValidFrom_spaces st false _ none (by rcases hst with h | h <;> simp [h]) _ lead hlead]
  rw [checkValidFrom_step _ ⟨.stateInString, false, .parseObjectKey :: ps, none⟩
    .scanBeginLiteral _ _ _ (by decide)]
  · rw [checkValidFrom_string false _ none hK]
    rw [checkValidFrom_step _ ⟨.stateBeginValue, false, .parseObjectValue :: ps, none⟩
      .scanObjectKey _ _ (by simp [scanner.doStep, stateEndValue, isSpace]) (by decide)]
    exact checkValidFrom_step _ _ .scanSkipSpace _ _
      (by simp [scanner.doStep, stateBeginValue, isSpace]) (by decide)
  · rcases hst with h | h <;> subst h <;>
      simp [scanner.doStep, stateBeginStringOrEmpty, stateBeginString, stateBeginValue, isSpace]

/-- The scanner over a member `"K": "V"` and the comma after it. -/
theorem checkValidFrom_string_member_comma (st : StepFn)
    (hst : st = .stateBeginStringOrEmpty ∨ st = .stateBeginString) (ps : List ParseState)
    (lead K V rest : List Nat) (hlead : ∀ x ∈ lead, x = 0x20) (hK : StrBody K)
    (hV : StrBody V) :
    checkValidFrom ⟨st, false, .parseObjectKey :: ps, none⟩
        (lead ++ 0x22 :: (K ++ 0x22 :: 0x3A :: 0x20 :: 0x22 :: (V ++ 0x22 :: 0x2C :: rest))) =
      checkValidFrom ⟨.stateBeginString, false, .parseObjectKey :: ps, none⟩ rest := by
  rw [checkValidFrom_key st hst ps lead K _ hlead hK]
  rw [checkValidFrom_step _ ⟨.stateInString, false, .parseObjectValue :: ps, none⟩
    .scanBeginLiteral _ _ (by simp [scanner.doStep, stateBeginValue, isSpace]) (by decide)]
  rw [checkValidFrom_string false _ none hV]
  exact checkValidFrom_step _ _ .scanObjectValue _ _
    (by simp [scanner.doStep, stateEndValue, isSpace]) (by decide)

/-- The scanner accepts a last member `"K": "V"` closing the outermost object. -/
theorem checkValidFrom_string_member_end (st : StepFn)
    (hst : st = .stateBeginStringOrEmpty ∨ st = .stateBeginString)
    (lead K V : List Nat) (hlead : ∀ x ∈ lead, x = 0x20) (hK : StrBody K) (hV : StrBody V) :
    checkValidFrom ⟨st, false, [.parseObjectKey], none⟩
        (lead ++ 0x22 :: (K ++ 0x22 :: 0x3A :: 0x20 :: 0x22 :: (V ++ 0x22 :: 0x7D :: []))) =
      none := by
  rw [checkValidFrom_key st hst [] lead K _ hlead hK]
  rw [checkValidFrom_step _ ⟨.stateInString, false, [.parseObjectValue], none⟩
    .scanBeginLiteral _ _ (by simp [scanner.doStep, stateBeginValue, isSpace]) (by decide)]
  rw [checkValidFrom_string false _ none hV]
  rw [checkValidFrom_step _ ⟨.stateEndTop, true, [], none⟩ .scanEndObject _ _
    (by simp [scanner.doStep, stateEndValue, isSpace, scanner.popParseState]) (by decide)]
  simp [checkValidFrom, scanner.eof]

/-- The scanner accepts a last member `"K": t`, with `t` a decimal integer,
closing the outermost object. -/
theorem checkValidFrom_int_member_end (st : StepFn)
    (hst : st = .stateBeginStringOrEmpty ∨ st = .stateBeginString)
    (lead K : List Nat) (t : Int) (hlead : ∀ x ∈ lead, x = 0x20) (hK : StrBody K) :
    checkValidFrom ⟨st, false, [.parseObjectKey], none⟩
        (lead ++ 0x22 :: (K ++ 0x22 :: 0x3A :: 0x20 :: (itoa t ++ 0x7D :: []))) = none := by
  rw [checkValidFrom_key st hst [] lead K _ hlead hK]
  rcases checkValidFrom_itoa false [.parseObjectValue] none t [] with h | h
  · rw [h]
    simp [checkValidFrom, scanner.eof, stateEndValue, isSpace, scanner.popParseState]
  · simp [stateEndValue, isSpace, scanner.popParseState] at h

/-- What `json.Unmarshal` returns on one space followed by an object, in terms
of the scanner's verdict and the decoder's object loop. -/
theorem Unmarshal_object (members : List Nat) (c c1 : contents) (d1 : decodeState)
    (hcv : checkValidFrom ⟨.stateBeginStringOrEmpty, false, [.parseObjectKey], none⟩ members =
      none)
    (hobj : decodeState.object (members.length + 1)
      ⟨members, 0x7B, .scanBeginObject,
        ⟨.stateBeginStringOrEmpty, false, [.parseObjectKey], none⟩, none⟩ c = .ok (c1, d1)) :
    ∃ err, Unmarshal (0x20 :: 0x7B :: members) c = .ok (c1, err) := by
  have hv : checkValid (0x20 :: 0x7B :: members) = none := by
    unfold checkValid scanner.reset
    rw [checkValidFrom_step _ ⟨.stateBeginValue, false, [], none⟩ .scanSkipSpace _ _
      (by simp [scanner.doStep, stateBeginValue, isSpace]) (by decide)]
    rw [checkValidFrom_step _ ⟨.stateBeginStringOrEmpty, false, [.parseObjectKey], none⟩
      .scanBeginObject _ _
      (by simp [scanner.doStep, stateBeginValue, isSpace, scanner.pushParseState,
        maxNestingDepth]) (by decide)]
    exact hcv
  unfold Unmarshal
  rw [hv]
  simp only [decodeState.unmarshal, decodeState.scanWhile]
  have hsw : ∀ d : decodeState, scanWhileLoop d .scanSkipSpace scanner.reset
      (0x20 :: 0x7B :: members) =
      { d with unread := members, last := 0x7B,
               scan := ⟨.stateBeginStringOrEmpty, false, [.parseObjectKey], none⟩,
               opcode := .scanBeginObject } := by
    intro d
    rw [scanWhileLoop]
    have h1 : scanner.reset.doStep 0x20 = (scanner.reset, .scanSkipSpace) := by
      simp [scanner.doStep, scanner.reset, stateBeginValue, isSpace]
    simp only [h1, ne_eq, not_true_eq_false, if_false]
    rw [scanWhileLoop]
    have h2 : scanner.reset.doStep 0x7B =
        (⟨.stateBeginStringOrEmpty, false, [.parseObjectKey], none⟩, .scanBeginObject) := by
      simp [scanner.doStep, scanner.reset, stateBeginValue, isSpace, scanner.pushParseState,
        maxNestingDepth]
    simp only [h2, ne_eq, reduceCtorEq, not_false_eq_true, if_true]
  rw [hsw]
  simp only [decodeState.value, hobj]
  exact ⟨_, rfl⟩

theorem StrBody_utf8 (s : String) (h : ∀ c ∈ s.toList, plainChar c = true) :
    StrBody (utf8 s) :=
  StrBody_utf8Chars s.toList h

theorem unquoteBytes_utf8 (s : String) (h : ∀ c ∈ s.toList, plainChar c = true) :
    unquoteBytes (0x22 :: (utf8 s ++ [0x22])) = some (utf8 s) :=
  unquoteBytes_utf8Chars s.toList h

theorem fuel_three (l : List Nat) (h : 2 ≤ l.length) : ∃ k, l.length + 1 = k + 1 + 1 + 1 :=
  ⟨l.length - 2, by omega⟩

/-- The decoder on the body ` {"nick": "N", "data": "D", "timestamp": t}`. -/
theorem Unmarshal_nick_data_timestamp (N Nq D Dq : List Nat) (t : Int) (c : contents)
    (hN : StrBody N) (hNq : unquoteBytes (0x22 :: (N ++ [0x22])) = some Nq)
    (hD : StrBody D) (hDq : unquoteBytes (0x22 :: (D ++ [0x22])) = some Dq)
    (hlo : -(2 : Int) ^ 63 ≤ t) (hhi : t < (2 : Int) ^ 63) :
    ∃ err, Unmarshal (0x20 :: 0x7B :: 0x22 :: (utf8 "nick" ++ 0x22 :: 0x3A :: 0x20 :: 0x22 ::
        (N ++ 0x22 :: 0x2C :: 0x20 :: 0x22 :: (utf8 "data" ++ 0x22 :: 0x3A :: 0x20 :: 0x22 ::
        (D ++ 0x22 :: 0x2C :: 0x20 :: 0x22 :: (utf8 "timestamp" ++ 0x22 :: 0x3A :: 0x20 ::
        (itoa t ++ [0x7D]))))))) c =
      .ok ({ Nick := Nq, Data := Dq, Timestamp := t }, err) := by
  have hk1 : StrBody (utf8 "nick") := StrBody_utf8 _ (by decide)
  have hk2 : StrBody (utf8 "data") := StrBody_utf8 _ (by decide)
  have hk3 : StrBody (utf8 "timestamp") := StrBody_utf8 _ (by decide)
  have hq1 := unquoteBytes_utf8 "nick" (by decide)
  have hq2 := unquoteBytes_utf8 "data" (by decide)
  have hq3 := unquoteBytes_utf8 "timestamp" (by decide)
  have hparse := ParseInt_itoa t hlo hhi
  obtain ⟨n0, ds, hit, hn0, hds⟩ := itoa_shape t
  -- the syntax check
  have hcv1 := checkValidFrom_string_member_comma .stateBeginStringOrEmpty (Or.inl rfl) []
    [] (utf8 "nick") N
    (0x20 :: 0x22 :: (utf8 "data" ++ 0x22 :: 0x3A :: 0x20 :: 0x22 ::
        (D ++ 0x22 :: 0x2C :: 0x20 :: 0x22 :: (utf8 "timestamp" ++ 0x22 :: 0x3A :: 0x20 ::
        (itoa t ++ [0x7D]))))) (by simp) hk1 hN
  have hcv2 := checkValidFrom_string_member_comma .stateBeginString (Or.inr rfl) []
    [0x20] (utf8 "data") D
    (0x20 :: 0x22 :: (utf8 "timestamp" ++ 0x22 :: 0x3A :: 0x20 :: (itoa t ++ [0x7D])))
    (by simp) hk2 hD
  have hcv3 := checkValidFrom_int_member_end .stateBeginString (Or.inr rfl)
    [0x20] (utf8 "timestamp") t (by simp) hk3
  simp only [List.cons_append, List.nil_append] at hcv1 hcv2 hcv3
  -- the three rounds of the object loop
  have hm1 := fun fuel => object_string_member_comma fuel c [] (utf8 "nick") (utf8 "nick") N Nq
    (0x20 :: 0x22 :: (utf8 "data" ++ 0x22 :: 0x3A :: 0x20 :: 0x22 ::
        (D ++ 0x22 :: 0x2C :: 0x20 :: 0x22 :: (utf8 "timestamp" ++ 0x22 :: 0x3A :: 0x20 ::
        (itoa t ++ [0x7D]))))) (by simp) hk1 hq1 hN hNq .stateBeginStringOrEmpty (Or.inl rfl) []
    0x7B .scanBeginObject none
  have hm2 := fun fuel c0 saved => object_string_member_comma fuel c0 [0x20] (utf8 "data")
    (utf8 "data") D Dq
    (0x20 :: 0x22 :: (utf8 "timestamp" ++ 0x22 :: 0x3A :: 0x20 :: (itoa t ++ [0x7D])))
    (by simp) hk2 hq2 hD hDq .stateBeginString (Or.inr rfl) [] 0x2C .scanObjectValue saved
  have hm3 := fun fuel c0 saved => object_int_member_end fuel c0 [0x20] (utf8 "timestamp")
    (utf8 "timestamp") n0 ds [] t (by simp) hk3 hq3 hn0 hds (hit ▸ hparse) .stateBeginString
    (Or.inr rfl) [] 0x2C .scanObjectValue saved
  have hit2 : n0 :: (ds ++ [0x7D]) = itoa t ++ [0x7D] := by rw [hit]; rfl
  simp only [List.cons_append, List.nil_append] at hm1 hm2 hm3
  rw [hit2] at hm3
  have hkd1 : keyDest (utf8 "nick") = .field .Nick := by decide
  have hkd2 : keyDest (utf8 "data") = .field .Data := by decide
  have hkd3 : keyDest (utf8 "timestamp") = .field .Timestamp := by decide
  rw [hkd1] at hm1
  rw [hkd2] at hm2
  rw [hkd3] at hm3
  obtain ⟨k, hk⟩ : ∃ k, (0x22 :: (utf8 "nick" ++ 0x22 :: 0x3A :: 0x20 :: 0x22 ::
        (N ++ 0x22 :: 0x2C :: 0x20 :: 0x22 :: (utf8 "data" ++ 0x22 :: 0x3A :: 0x20 :: 0x22 ::
        (D ++ 0x22 :: 0x2C :: 0x20 :: 0x22 :: (utf8 "timestamp" ++ 0x22 :: 0x3A :: 0x20 ::
        (itoa t ++ [0x7D]))))))).length + 1 = k + 1 + 1 + 1 :=
    fuel_three _ (by simp only [List.length_cons, List.length_append]; omega)
  obtain ⟨s1, h1⟩ := hm1 (k + 1 + 1)
  obtain ⟨s2, h2⟩ := hm2 (k + 1) (assignString (.field .Nick) Nq c) s1
  obtain ⟨d3, h3⟩ := hm3 k (assignString (.field .Data) Dq (assignString (.field .Nick) Nq c)) s2
  refine Unmarshal_object _ c _ d3 (by rw [hcv1, hcv2, hcv3]) ?_
  rw [hk, h1, h2, h3]
  rfl

theorem fuel_two (l : List Nat) (h : 1 ≤ l.length) : ∃ k, l.length + 1 = k + 1 + 1 :=
  ⟨l.length - 1, by omega⟩

/-- The decoder on the body ` {"nick": "N", "data": "D"}`. -/
theorem Unmarshal_nick_data (N Nq D Dq : List Nat) (c : contents)
    (hN : StrBody N) (hNq : unquoteBytes (0x22 :: (N ++ [0x22])) = some Nq)
    (hD : StrBody D) (hDq : unquoteBytes (0x22 :: (D ++ [0x22])) = some Dq) :
    ∃ err, Unmarshal (0x20 :: 0x7B :: 0x22 :: (utf8 "nick" ++ 0x22 :: 0x3A :: 0x20 :: 0x22 ::
        (N ++ 0x22 :: 0x2C :: 0x20 :: 0x22 :: (utf8 "data" ++ 0x22 :: 0x3A :: 0x20 :: 0x22 ::
        (D ++ [0x22, 0x7D]))))) c =
      .ok ({ c with Nick := Nq, Data := Dq }, err) := by
  have hk1 : StrBody (utf8 "nick") := StrBody_utf8 _ (by decide)
  have hk2 : StrBody (utf8 "data") := StrBody_utf8 _ (by decide)
  have hq1 := unquoteBytes_utf8 "nick" (by decide)
  have hq2 := unquoteBytes_utf8 "data" (by decide)
  have hcv1 := checkValidFrom_string_member_comma .stateBeginStringOrEmpty (Or.inl rfl) []
    [] (utf8 "nick") N
    (0x20 :: 0x22 :: (utf8 "data" ++ 0x22 :: 0x3A :: 0x20 :: 0x22 :: (D ++ [0x22, 0x7D])))
    (by simp) hk1 hN
  have hcv2 := checkValidFrom_string_member_end .stateBeginString (Or.inr rfl)
    [0x20] (utf8 "data") D (by simp) hk2 hD
  simp only [List.cons_append, List.nil_append] at hcv1 hcv2
  have hm1 := fun fuel => object_string_member_comma fuel c [] (utf8 "nick") (utf8 "nick") N Nq
    (0x20 :: 0x22 :: (utf8 "data" ++ 0x22 :: 0x3A :: 0x20 :: 0x22 :: (D ++ [0x22, 0x7D])))
    (by simp) hk1 hq1 hN hNq .stateBeginStringOrEmpty (Or.inl rfl) []
    0x7B .scanBeginObject none
  have hm2 := fun fuel c0 saved => object_string_member_end fuel c0 [0x20] (utf8 "data")
    (utf8 "data") D Dq [] (by simp) hk2 hq2 hD hDq .stateBeginString (Or.inr rfl) [] 0x2C
    .scanObjectValue saved
  simp only [List.cons_append, List.nil_append] at hm1 hm2
  have hkd1 : keyDest (utf8 "nick") = .field .Nick := by decide
  have hkd2 : keyDest (utf8 "data") = .field .Data := by decide
  rw [hkd1] at hm1
  rw [hkd2] at hm2
  obtain ⟨k, hk⟩ : ∃ k, (0x22 :: (utf8 "nick" ++ 0x22 :: 0x3A :: 0x20 :: 0x22 ::
        (N ++ 0x22 :: 0x2C :: 0x20 :: 0x22 :: (utf8 "data" ++ 0x22 :: 0x3A :: 0x20 :: 0x22 ::
        (D ++ [0x22, 0x7D]))))).length + 1 = k + 1 + 1 :=
    fuel_two _ (by simp only [List.length_cons, List.length_append]; omega)
  obtain ⟨s1, h1⟩ := hm1 (k + 1)
  obtain ⟨d2, h2⟩ := hm2 k (assignString (.field .Nick) Nq c) s1
  refine Unmarshal_object _ c _ d2 (by rw [hcv1, hcv2]) ?_
  rw [hk, h1, h2]
  rfl

/-- The result of `parseMessage` on a tag without a space followed by a body
on which `json.Unmarshal` is known. -/
theorem parseMessage_of_Unmarshal (pre rest : List Nat) (h : 0x20 ∉ pre) (c : contents)
    (hu : ∃ err, Unmarshal (0x20 :: rest) {} = .ok (c, err)) :
    parseMessage (pre ++ 0x20 :: rest) = .ok { Type_ := pre, Contents := some c } := by
  obtain ⟨c1, err1, hu1, hm⟩ := parseMessage_split pre rest h
  obtain ⟨err, hu⟩ := hu
  rw [hu] at hu1
  cases hu1
  exact hm

/-! ## The members the decoder reads and what it stores

The error the decoder has saved so far plays no part in what it reads next. -/

/-- The loop of `scanWhile` started with another saved error: the same result,
with that saved error. -/
theorem scanWhileLoop_saved (d : decodeState) (sv : Option JsonError) (op : ScanOp) :
    ∀ (cs : List Nat) (s : scanner),
    scanWhileLoop { d with savedError := sv } op s cs =
      { scanWhileLoop d op s cs with savedError := sv } := by
  intro cs
  induction cs with
  | nil => intro s; rfl
  | cons c cs ih =>
    intro s
    rw [scanWhileLoop, scanWhileLoop]
    split
    · rfl
    · exact ih _

theorem scanWhile_saved (d : decodeState) (sv : Option JsonError) (op : ScanOp) :
    ({ d with savedError := sv } : decodeState).scanWhile op =
      { d.scanWhile op with savedError := sv } :=
  scanWhileLoop_saved d sv op d.unread d.scan

theorem scanNext_saved (d : decodeState) (sv : Option JsonError) :
    ({ d with savedError := sv } : decodeState).scanNext =
      { d.scanNext with savedError := sv } := by
  unfold decodeState.scanNext
  cases d.unread <;> rfl

theorem skipLoop_saved (d : decodeState) (sv : Option JsonError) (depth : Nat) :
    ∀ (cs : List Nat) (s : scanner),
    skipLoop { d with savedError := sv } depth s cs =
      (skipLoop d depth s cs).map (fun d2 => { d2 with savedError := sv }) := by
  intro cs
  induction cs with
  | nil => intro s; rfl
  | cons c cs ih =>
    intro s
    rw [skipLoop, skipLoop]
    split
    · rfl
    · exact ih _

theorem skip_saved (d : decodeState) (sv : Option JsonError) :
    ({ d with savedError := sv } : decodeState).skip =
      d.skip.map (fun d2 => { d2 with savedError := sv }) :=
  skipLoop_saved d sv _ d.unread d.scan

theorem rescanLiteral_saved (d : decodeState) (sv : Option JsonError) :
    ({ d with savedError := sv } : decodeState).rescanLiteral =
      d.rescanLiteral.map (fun r => (r.1, { r.2 with savedError := sv })) := by
  unfold decodeState.rescanLiteral
  simp only
  cases rescanBody d.last d.unread with
  | error e => rfl
  | ok r =>
    obtain ⟨body, rest⟩ := r
    cases rest <;> rfl

theorem readItem_saved (d : decodeState) (sv : Option JsonError) :
    ({ d with savedError := sv } : decodeState).readItem =
      d.readItem.map (fun r => (r.1, { r.2 with savedError := sv })) := by
  obtain ⟨u, l, o, sc, s0⟩ := d
  have h1 := rescanLiteral_saved ⟨u, l, o, sc, s0⟩ sv
  have h2 := skip_saved ⟨u, l, o, sc, s0⟩ sv
  simp only at h1 h2
  unfold decodeState.readItem
  cases o <;> simp only <;> try rfl
  · rw [h1]
    cases decodeState.rescanLiteral ⟨u, l, .scanBeginLiteral, sc, s0⟩ with
    | error e => rfl
    | ok r => rfl
  · rw [h2]
    cases decodeState.skip ⟨u, l, .scanBeginObject, sc, s0⟩ with
    | error e => rfl
    | ok r => simp only [Except.map, scanNext_saved]
  · rw [h2]
    cases decodeState.skip ⟨u, l, .scanBeginArray, sc, s0⟩ with
    | error e => rfl
    | ok r => simp only [Except.map, scanNext_saved]

theorem saveError_saved (d : decodeState) (err : JsonError) :
    ∃ sv, d.saveError err = { d with savedError := sv } := by
  unfold decodeState.saveError
  split
  · exact ⟨_, rfl⟩
  · exact ⟨d.savedError, rfl⟩

theorem literalStore_storeLiteral (d : decodeState) (item : List Nat) (v : Dest) (c c1 : contents)
    (d1 : decodeState) (h : d.literalStore item v c = .ok (c1, d1)) :
    c1 = storeLiteral item v c ∧ ∃ sv, d1 = { d with savedError := sv } := by
  unfold decodeState.literalStore at h
  unfold storeLiteral
  cases item with
  | nil =>
    simp only [Except.ok.injEq, Prod.mk.injEq] at h
    obtain ⟨sv, hsv⟩ := saveError_saved d (.SyntaxError "invalid use of ,string struct tag")
    exact ⟨h.1.symm, sv, h.2 ▸ hsv⟩
  | cons c0 t =>
    simp only at h ⊢
    by_cases h1 : c0 = 0x6E
    · subst h1
      simp only [if_true, Except.ok.injEq, Prod.mk.injEq] at h
      simp only [Nat.reduceEqDiff, if_false, Nat.reduceLeDiff, false_and, or_self]
      exact ⟨h.1.symm, d.savedError, h.2.symm⟩
    rw [if_neg h1] at h
    by_cases h2 : c0 = 0x74 ∨ c0 = 0x66
    · rw [if_pos h2] at h
      simp only [Except.ok.injEq, Prod.mk.injEq] at h
      obtain ⟨sv, hsv⟩ := saveError_saved d (.UnmarshalTypeError "bool")
      have h3 : c0 ≠ 0x22 := by omega
      have h4 : ¬ (c0 = 0x2D ∨ (0x30 ≤ c0 ∧ c0 ≤ 0x39)) := by omega
      rw [if_neg h3, if_neg h4]
      exact ⟨h.1.symm, sv, h.2 ▸ hsv⟩
    rw [if_neg h2] at h
    by_cases h3 : c0 = 0x22
    · rw [if_pos h3] at h
      rw [if_pos h3]
      cases hu : unquoteBytes (c0 :: t) with
      | none => simp [hu] at h
      | some s =>
        simp only [hu] at h ⊢
        obtain ⟨sv, hsv⟩ := saveError_saved d (.UnmarshalTypeError "string")
        rcases v with _ | ⟨_ | _ | _⟩ | _ <;>
          simp only [Except.ok.injEq, Prod.mk.injEq] at h <;>
          first
            | exact ⟨h.1.symm, d.savedError, h.2.symm⟩
            | exact ⟨h.1.symm, sv, h.2 ▸ hsv⟩
    rw [if_neg h3] at h
    rw [if_neg h3]
    by_cases h4 : c0 ≠ 0x2D ∧ (c0 < 0x30 ∨ 0x39 < c0)
    · rw [if_pos h4] at h
      cases h
    rw [if_neg h4] at h
    have h5 : c0 = 0x2D ∨ (0x30 ≤ c0 ∧ c0 ≤ 0x39) := by omega
    rw [if_pos h5]
    obtain ⟨sv, hsv⟩ := saveError_saved d (.UnmarshalTypeError "number")
    rcases v with _ | ⟨_ | _ | _⟩ | _
    · simp only [Except.ok.injEq, Prod.mk.injEq] at h
      refine ⟨?_, sv, h.2 ▸ hsv⟩
      cases ParseInt (c0 :: t) <;> exact h.1.symm
    · simp only [Except.ok.injEq, Prod.mk.injEq] at h
      refine ⟨?_, sv, h.2 ▸ hsv⟩
      cases ParseInt (c0 :: t) <;> exact h.1.symm
    · simp only [Except.ok.injEq, Prod.mk.injEq] at h
      refine ⟨?_, sv, h.2 ▸ hsv⟩
      cases ParseInt (c0 :: t) <;> exact h.1.symm
    · cases hp : ParseInt (c0 :: t) with
      | none =>
        simp only [hp, Except.ok.injEq, Prod.mk.injEq] at h
        exact ⟨h.1.symm, sv, h.2 ▸ hsv⟩
      | some n =>
        simp only [hp, Except.ok.injEq, Prod.mk.injEq] at h
        exact ⟨h.1.symm, d.savedError, h.2.symm⟩
    · simp only [Except.ok.injEq, Prod.mk.injEq] at h
      refine ⟨?_, sv, h.2 ▸ hsv⟩
      cases ParseInt (c0 :: t) <;> exact h.1.symm

/-- What `valueField` stores, given what `readItem` reads at the same place. -/
theorem valueField_readItem (d : decodeState) (key : List Nat) (c c1 : contents)
    (d4 : decodeState) (h : d.valueField (keyDest key) c = .ok (c1, d4)) :
    ∃ it d4r sv, d.readItem = .ok (it, d4r) ∧ d4 = { d4r with savedError := sv } ∧
      c1 = (Member.mk key it).store c := by
  obtain ⟨u, l, o, sc, s0⟩ := d
  unfold decodeState.valueField at h
  unfold decodeState.readItem Member.store
  cases o <;> simp only at h ⊢ <;> try cases h
  · cases hr : decodeState.rescanLiteral ⟨u, l, .scanBeginLiteral, sc, s0⟩ with
    | error e => simp [hr] at h
    | ok r =>
      obtain ⟨item, d1⟩ := r
      simp only [hr] at h ⊢
      by_cases hv : (keyDest key).IsValid = true
      · rw [if_pos hv] at h
        obtain ⟨hc, sv, hd⟩ := literalStore_storeLiteral d1 item _ c c1 d4 h
        exact ⟨_, _, sv, rfl, hd, hc⟩
      · rw [if_neg hv] at h
        simp only [Except.ok.injEq, Prod.mk.injEq] at h
        have hk : keyDest key = .invalid := by
          cases hkd : keyDest key <;> simp [hkd, Dest.IsValid] at hv ⊢
        refine ⟨_, _, d1.savedError, rfl, h.2.symm, ?_⟩
        rw [← h.1, hk]
        unfold storeLiteral
        cases item with
        | nil => rfl
        | cons c0 t =>
          simp only
          split_ifs <;> (try split) <;> rfl
  · obtain ⟨sv, hsv⟩ : ∃ sv, (if (keyDest key).IsValid = true then
        decodeState.saveError ⟨u, l, .scanBeginObject, sc, s0⟩ (.UnmarshalTypeError "object")
        else ⟨u, l, .scanBeginObject, sc, s0⟩) = ⟨u, l, .scanBeginObject, sc, sv⟩ := by
      split
      · exact saveError_saved _ _
      · exact ⟨s0, rfl⟩
    rw [hsv] at h
    have h2 := skip_saved ⟨u, l, .scanBeginObject, sc, s0⟩ sv
    simp only at h2
    rw [h2] at h
    cases hs : decodeState.skip ⟨u, l, .scanBeginObject, sc, s0⟩ with
    | error e => simp [hs, Except.map] at h
    | ok d2 =>
      simp only [hs, Except.map, Except.ok.injEq, Prod.mk.injEq, scanNext_saved] at h
      exact ⟨_, _, sv, rfl, h.2.symm, h.1.symm⟩
  · obtain ⟨sv, hsv⟩ : ∃ sv, (if (keyDest key).IsValid = true then
        decodeState.saveError ⟨u, l, .scanBeginArray, sc, s0⟩ (.UnmarshalTypeError "array")
        else ⟨u, l, .scanBeginArray, sc, s0⟩) = ⟨u, l, .scanBeginArray, sc, sv⟩ := by
      split
      · exact saveError_saved _ _
      · exact ⟨s0, rfl⟩
    rw [hsv] at h
    have h2 := skip_saved ⟨u, l, .scanBeginArray, sc, s0⟩ sv
    simp only at h2
    rw [h2] at h
    cases hs : decodeState.skip ⟨u, l, .scanBeginArray, sc, s0⟩ with
    | error e => simp [hs, Except.map] at h
    | ok d2 =>
      simp only [hs, Except.map, Except.ok.injEq, Prod.mk.injEq, scanNext_saved] at h
      exact ⟨_, _, sv, rfl, h.2.symm, h.1.symm⟩

theorem storeAll_cons (m : Member) (ms : List Member) (c : contents) :
    storeAll (m :: ms) c = storeAll ms (m.store c) := rfl

/-- The object loop of the decoder stores the members it reads, one after the
other; the error it has saved so far plays no part. -/
theorem object_members : ∀ (fuel : Nat) (d : decodeState) (sv : Option JsonError)
    (c c1 : contents) (dE : decodeState),
    decodeState.object fuel { d with savedError := sv } c = .ok (c1, dE) →
    ∃ ms, objectMembers fuel d = .ok ms ∧ c1 = storeAll ms c := by
  intro fuel
  induction fuel with
  | zero => intro d sv c c1 dE h; cases h
  | succ fuel ih =>
    intro d sv c c1 dE h
    rw [decodeState.object] at h
    rw [objectMembers]
    simp only [scanWhile_saved] at h
    simp only
    generalize d.scanWhile .scanSkipSpace = d1 at h ⊢
    by_cases h1 : d1.opcode = .scanEndObject
    · rw [if_pos h1] at h
      rw [if_pos h1]
      simp only [Except.ok.injEq, Prod.mk.injEq] at h
      exact ⟨[], rfl, h.1.symm⟩
    rw [if_neg h1] at h
    rw [if_neg h1]
    by_cases h2 : d1.opcode ≠ .scanBeginLiteral
    · rw [if_pos h2] at h
      cases h
    rw [if_neg h2] at h
    rw [if_neg h2]
    rw [rescanLiteral_saved] at h
    cases hr : d1.rescanLiteral with
    | error e => simp [hr, Except.map] at h
    | ok r =>
      obtain ⟨item, d2⟩ := r
      simp only [hr, Except.map] at h ⊢
      cases hu : unquoteBytes item with
      | none => simp [hu] at h
      | some key =>
        simp only [hu] at h ⊢
        have hd3 : (if d2.opcode = .scanSkipSpace then
            ({ d2 with savedError := sv } : decodeState).scanWhile .scanSkipSpace
            else { d2 with savedError := sv }) =
            { (if d2.opcode = .scanSkipSpace then d2.scanWhile .scanSkipSpace else d2) with
              savedError := sv } := by
          split
          · exact scanWhile_saved _ _ _
          · rfl
        rw [hd3] at h
        generalize (if d2.opcode = .scanSkipSpace then d2.scanWhile .scanSkipSpace else d2) = d3
          at h ⊢
        by_cases h3 : d3.opcode ≠ .scanObjectKey
        · rw [if_pos h3] at h
          cases h
        rw [if_neg h3] at h
        rw [if_neg h3]
        rw [scanWhile_saved] at h
        generalize d3.scanWhile .scanSkipSpace = d3w at h ⊢
        cases hvf : decodeState.valueField { d3w with savedError := sv } (keyDest key) c with
        | error e => simp [hvf] at h
        | ok r =>
          obtain ⟨c2, d4⟩ := r
          simp only [hvf] at h
          obtain ⟨it, d4r, sv2, hri, hd4, hc2⟩ := valueField_readItem _ key c c2 d4 hvf
          rw [readItem_saved] at hri
          cases hri2 : d3w.readItem with
          | error e => simp [hri2, Except.map] at hri
          | ok r2 =>
            obtain ⟨it2, d4q⟩ := r2
            simp only [hri2, Except.map, Except.ok.injEq, Prod.mk.injEq] at hri
            obtain ⟨hit, hd4r⟩ := hri
            subst hit
            subst hd4r
            subst hd4
            simp only
            have hd5 : (if d4q.opcode = .scanSkipSpace then
                ({ d4q with savedError := sv2 } : decodeState).scanWhile .scanSkipSpace
                else { d4q with savedError := sv2 }) =
                { (if d4q.opcode = .scanSkipSpace then d4q.scanWhile .scanSkipSpace else d4q)
                  with savedError := sv2 } := by
              split
              · exact scanWhile_saved _ _ _
              · rfl
            simp only at h
            rw [hd5] at h
            generalize (if d4q.opcode = .scanSkipSpace then d4q.scanWhile .scanSkipSpace
              else d4q) = d5 at h ⊢
            by_cases h5 : d5.opcode = .scanEndObject
            · rw [if_pos h5] at h
              rw [if_pos h5]
              simp only [Except.ok.injEq, Prod.mk.injEq] at h
              exact ⟨_, rfl, by rw [← h.1, hc2]; rfl⟩
            rw [if_neg h5] at h
            rw [if_neg h5]
            by_cases h6 : d5.opcode ≠ .scanObjectValue
            · rw [if_pos h6] at h
              cases h
            rw [if_neg h6] at h
            rw [if_neg h6]
            obtain ⟨ms, hms, hc1⟩ := ih d5 sv2 c2 c1 dE h
            rw [hms]
            exact ⟨_, rfl, by rw [hc1, hc2]; rfl⟩

theorem storeLiteral_top (item : List Nat) (c : contents) : storeLiteral item .top c = c := by
  unfold storeLiteral
  cases item with
  | nil => rfl
  | cons c0 t =>
    simp only
    split_ifs <;> (try split) <;> rfl

/-- On data that passes the syntax check, `json.Unmarshal` stores the members
of the object in the data one after the other, and nothing else. -/
theorem Unmarshal_members (data : List Nat) (c : contents) (hvalid : checkValid data = none) :
    ∃ ms err, bodyMembers data = .ok ms ∧ Unmarshal data c = .ok (storeAll ms c, err) := by
  obtain ⟨c1, err, hu⟩ := Unmarshal_ok data c
  have hu2 := hu
  unfold Unmarshal at hu2
  rw [hvalid] at hu2
  simp only [decodeState.unmarshal] at hu2
  unfold bodyMembers
  simp only
  generalize decodeState.scanWhile ⟨data, 0, .scanContinue, scanner.reset, none⟩
    .scanSkipSpace = d1 at hu2 ⊢
  cases hv : d1.value c with
  | error e => simp [hv] at hu2
  | ok r =>
    obtain ⟨c2, d2⟩ := r
    simp only [hv, Except.ok.injEq, Prod.mk.injEq] at hu2
    obtain ⟨hc, _⟩ := hu2
    subst hc
    rw [hu]
    unfold decodeState.value at hv
    by_cases hop : d1.opcode = .scanBeginObject
    · rw [if_pos hop]
      simp only [hop] at hv
      cases ho : d1.object (d1.unread.length + 1) c with
      | error e => simp [ho] at hv
      | ok r =>
        obtain ⟨c3, d3⟩ := r
        simp only [ho, Except.ok.injEq, Prod.mk.injEq] at hv
        obtain ⟨ms, hms, hc3⟩ := object_members _ d1 d1.savedError c c3 d3 ho
        exact ⟨ms, err, hms, by rw [← hv.1, hc3]⟩
    · rw [if_neg hop]
      refine ⟨[], err, rfl, ?_⟩
      have : c2 = c := by
        cases hop2 : d1.opcode <;> simp only [hop2] at hv hop <;> try cases hv
        · cases hr : d1.rescanLiteral with
          | error e => simp [hr] at hv
          | ok r =>
            obtain ⟨item, d3⟩ := r
            simp only [hr] at hv
            rw [(literalStore_storeLiteral d3 item .top c c2 d2 hv).1, storeLiteral_top]
        · exact absurd trivial hop
        · cases hs : (d1.saveError (.UnmarshalTypeError "array")).skip with
          | error e => simp [hs] at hv
          | ok d3 =>
            simp only [hs, Except.ok.injEq, Prod.mk.injEq] at hv
            exact hv.1.symm
      rw [this]
      rfl

/-! ## Storing members, field by field -/

/-- A member that is not for the field `f`, or whose value does not fit it,
leaves `f` as it is. -/
theorem store_get_of_not (m : Member) (f : Field) (c : contents)
    (h : ¬ (m.isFor f = true ∧ m.value.fits f = true)) : (m.store c).get f = c.get f := by
  obtain ⟨key, it⟩ := m
  unfold Member.store
  cases it with
  | composite => rfl
  | literal item =>
    simp only [Member.isFor, Item.fits, decide_eq_true_eq] at h ⊢
    unfold storeLiteral
    cases item with
    | nil => rfl
    | cons c0 t =>
      simp only
      by_cases h1 : c0 = 0x22
      · rw [if_pos h1]
        cases hu : unquoteBytes (c0 :: t) with
        | none => rfl
        | some s =>
          simp only
          cases hk : keyDest key with
          | top => rfl
          | invalid => rfl
          | field g =>
            cases g <;> cases f <;> first
              | rfl
              | (exfalso; apply h; subst h1; simp [hk, hu])
      · rw [if_neg h1]
        by_cases h2 : c0 = 0x2D ∨ (0x30 ≤ c0 ∧ c0 ≤ 0x39)
        · rw [if_pos h2]
          cases hp : ParseInt (c0 :: t) with
          | none => rfl
          | some n =>
            simp only
            cases hk : keyDest key with
            | top => rfl
            | invalid => rfl
            | field g =>
              cases g <;> cases f <;> first
                | rfl
                | (exfalso; apply h; simp [hk, h2, hp])
        · rw [if_neg h2]

/-- A member for the field `f` whose value fits it sets `f` to that value,
whatever `f` held before. -/
theorem store_get_of_fits (m : Member) (f : Field) (c c2 : contents)
    (h1 : m.isFor f = true) (h2 : m.value.fits f = true) :
    (m.store c).get f = (m.store c2).get f := by
  obtain ⟨key, it⟩ := m
  simp only [Member.isFor, decide_eq_true_eq] at h1
  unfold Member.store
  simp only [h1]
  cases it with
  | composite => simp [Item.fits] at h2
  | literal item =>
    cases item with
    | nil => simp [Item.fits] at h2
    | cons c0 t =>
      unfold storeLiteral
      cases f <;> simp only [Item.fits, Bool.decide_and, Bool.and_eq_true, decide_eq_true_eq,
        Option.isSome_iff_exists] at h2 <;> obtain ⟨h3, s, h4⟩ := h2
      · simp only [h3, if_true, h4]
        subst h3
        simp only [h4]
        rfl
      · simp only [h3, if_true, h4]
        subst h3
        simp only [h4]
        rfl
      · have h5 : c0 ≠ 0x22 := by omega
        simp only [h5, if_false, h3, if_true, h4]
        rfl

theorem store_get_congr (m : Member) (f : Field) (c c2 : contents) (h : c.get f = c2.get f) :
    (m.store c).get f = (m.store c2).get f := by
  by_cases hm : m.isFor f = true ∧ m.value.fits f = true
  · exact store_get_of_fits m f c c2 hm.1 hm.2
  · rw [store_get_of_not m f c hm, store_get_of_not m f c2 hm, h]

theorem storeAll_get_of_not (f : Field) : ∀ (ms : List Member) (c : contents),
    (∀ m ∈ ms, m.isFor f = true → m.value.fits f = false) → (storeAll ms c).get f = c.get f := by
  intro ms
  induction ms with
  | nil => intro c _; rfl
  | cons m ms ih =>
    intro c h
    rw [storeAll_cons, ih _ (fun m2 hm2 => h m2 (by simp [hm2]))]
    apply store_get_of_not
    intro hm
    have := h m (by simp) hm.1
    rw [hm.2] at this
    cases this

theorem storeAll_get_filter (f : Field) : ∀ (ms : List Member) (c c2 : contents),
    c.get f = c2.get f →
    (storeAll ms c).get f = (storeAll (ms.filter (fun m => m.isFor f)) c2).get f := by
  intro ms
  induction ms with
  | nil => intro c c2 h; exact h
  | cons m ms ih =>
    intro c c2 h
    rw [storeAll_cons]
    by_cases hm : m.isFor f = true
    · rw [List.filter_cons_of_pos (by simpa using hm), storeAll_cons]
      exact ih _ _ (store_get_congr m f c c2 h)
    · rw [List.filter_cons_of_neg (by simpa using hm)]
      apply ih
      rw [store_get_of_not m f c (fun hh => hm hh.1)]
      exact h

theorem storeAll_append (ms1 ms2 : List Member) (c : contents) :
    storeAll (ms1 ++ ms2) c = storeAll ms2 (storeAll ms1 c) := by
  simp [storeAll, List.foldl_append]

theorem storeAll_get_last (f : Field) (ms1 ms2 : List Member) (m : Member) (c : contents)
    (h1 : m.isFor f = true) (h2 : m.value.fits f = true)
    (h3 : ∀ m2 ∈ ms2, m2.isFor f = true → m2.value.fits f = false) :
    (storeAll (ms1 ++ m :: ms2) c).get f = (m.store c).get f := by
  rw [storeAll_append, storeAll_cons, storeAll_get_of_not f ms2 _ h3]
  exact store_get_of_fits m f _ _ h1 h2

/-! ## Claims on the frame codec -/

/-- Claim C1: for every frame that contains a space, `parseMessage` returns a
message whose `Type` is the part of the frame before its first space: `Type`
contains no space, and `Type`, a space and the rest reassemble the frame. -/
theorem C1_type_before_first_space (frame : List Nat) (h : 0x20 ∈ frame) :
    ∃ m, parseMessage frame = .ok m ∧ 0x20 ∉ m.Type_ ∧
      ∃ rest, frame = m.Type_ ++ 0x20 :: rest := by
  obtain ⟨pre, rest, hs, hpre, _⟩ := IndexByte_split 0x20 frame h
  obtain ⟨c, _, _, hm⟩ := parseMessage_split pre rest hpre
  rw [hs]
  exact ⟨_, hm, hpre, rest, rfl⟩

/-- Claim C1 at the frame `JOIN {"nick": "bob"} x`: the type is `JOIN`. -/
theorem C1_type_before_first_space_witness :
    (0x20 ∈ utf8 "JOIN \x7b\"nick\": \"bob\"\x7d x") ∧
    (∃ m, parseMessage (utf8 "JOIN \x7b\"nick\": \"bob\"\x7d x") = .ok m ∧ 0x20 ∉ m.Type_ ∧
      ∃ rest, utf8 "JOIN \x7b\"nick\": \"bob\"\x7d x" = m.Type_ ++ 0x20 :: rest) ∧
    parseMessage (utf8 "JOIN \x7b\"nick\": \"bob\"\x7d x") =
      .ok { Type_ := utf8 "JOIN", Contents := some {} } :=
  ⟨by decide, C1_type_before_first_space _ (by decide), by decide⟩

/-- Claim C2 fails on the code: on a frame without a space `strings.IndexByte`
returns `-1` and the slice `received[:-1]` panics, for the frame `PING` as for
the empty frame; no message is returned. -/
theorem C2_no_space_panics :
    parseMessage (utf8 "PING") = .error "slice bounds out of range" ∧
    parseMessage [] = .error "slice bounds out of range" := by
  decide

/-- Claim C3: for every nick and data made only of characters that need no
JSON escaping and every timestamp `t` in the signed 64-bit range, `parseMessage`
on the frame `PRIVMSG {"nick": "<nick>", "data": "<data>", "timestamp": <t>}`
returns `Type = "PRIVMSG"` and `Contents = {Nick: nick, Data: data, Timestamp: t}`. -/
theorem C3_wellformed_privmsg (nick data : List Char) (t : Int)
    (hnick : ∀ c ∈ nick, plainChar c = true) (hdata : ∀ c ∈ data, plainChar c = true)
    (hlo : -(2 : Int) ^ 63 ≤ t) (hhi : t < (2 : Int) ^ 63) :
    parseMessage (utf8 "PRIVMSG \x7b\"nick\": \"" ++ utf8Chars nick ++ utf8 "\", \"data\": \"" ++
        utf8Chars data ++ utf8 "\", \"timestamp\": " ++ itoa t ++ utf8 "\x7d") =
      .ok { Type_ := utf8 "PRIVMSG",
            Contents := some { Nick := utf8Chars nick, Data := utf8Chars data,
                               Timestamp := t } } := by
  have hu := Unmarshal_nick_data_timestamp (utf8Chars nick) (utf8Chars nick) (utf8Chars data)
    (utf8Chars data) t {} (StrBody_utf8Chars nick hnick) (unquoteBytes_utf8Chars nick hnick)
    (StrBody_utf8Chars data hdata) (unquoteBytes_utf8Chars data hdata) hlo hhi
  have hm := parseMessage_of_Unmarshal (utf8 "PRIVMSG") _ (by decide) _ hu
  have e1 : utf8 "PRIVMSG \x7b\"nick\": \"" =
      utf8 "PRIVMSG" ++ 0x20 :: 0x7B :: 0x22 :: (utf8 "nick" ++ [0x22, 0x3A, 0x20, 0x22]) := by
    decide
  have e2 : utf8 "\", \"data\": \"" =
      0x22 :: 0x2C :: 0x20 :: 0x22 :: (utf8 "data" ++ [0x22, 0x3A, 0x20, 0x22]) := by decide
  have e3 : utf8 "\", \"timestamp\": " =
      0x22 :: 0x2C :: 0x20 :: 0x22 :: (utf8 "timestamp" ++ [0x22, 0x3A, 0x20]) := by decide
  have e4 : utf8 "\x7d" = [0x7D] := by decide
  rw [e1, e2, e3, e4]
  simp only [List.append_assoc, List.cons_append, List.nil_append]
  exact hm

/-- Claim C3 at nick `bob`, data `hi`, timestamp `100`: the frame is
`PRIVMSG {"nick": "bob", "data": "hi", "timestamp": 100}`. -/
theorem C3_wellformed_privmsg_witness :
    (∀ c ∈ ['b', 'o', 'b'], plainChar c = true) ∧ (∀ c ∈ ['h', 'i'], plainChar c = true) ∧
    -(2 : Int) ^ 63 ≤ 100 ∧ (100 : Int) < (2 : Int) ^ 63 ∧
    utf8 "PRIVMSG \x7b\"nick\": \"" ++ utf8Chars ['b', 'o', 'b'] ++ utf8 "\", \"data\": \"" ++
        utf8Chars ['h', 'i'] ++ utf8 "\", \"timestamp\": " ++ itoa 100 ++ utf8 "\x7d" =
      utf8 "PRIVMSG \x7b\"nick\": \"bob\", \"data\": \"hi\", \"timestamp\": 100\x7d" ∧
    parseMessage (utf8 "PRIVMSG \x7b\"nick\": \"" ++ utf8Chars ['b', 'o', 'b'] ++
        utf8 "\", \"data\": \"" ++ utf8Chars ['h', 'i'] ++ utf8 "\", \"timestamp\": " ++
        itoa 100 ++ utf8 "\x7d") =
      .ok { Type_ := utf8 "PRIVMSG",
            Contents := some { Nick := utf8Chars ['b', 'o', 'b'], Data := utf8Chars ['h', 'i'],
                               Timestamp := 100 } } :=
  ⟨by decide, by decide, by decide, by decide, by decide,
   C3_wellformed_privmsg ['b', 'o', 'b'] ['h', 'i'] 100 (by decide) (by decide) (by decide)
     (by decide)⟩

/-- Claim C4 (round trip): for every sender made only of characters that need
no JSON escaping, `parseMessage` on the frame that `send` writes for that sender
returns `Type = "PRIVMSG"` and a `Contents` whose `Nick` is the sender; its
`Data` is `MiyanoBird` and its `Timestamp` is zero. -/
theorem C4_send_parse_round_trip (sender : List Char)
    (hsender : ∀ c ∈ sender, plainChar c = true) :
    parseMessage (sendFrame (utf8Chars sender)) =
      .ok { Type_ := utf8 "PRIVMSG",
            Contents := some { Nick := utf8Chars sender, Data := utf8 "MiyanoBird",
                               Timestamp := 0 } } := by
  have hu := Unmarshal_nick_data (utf8Chars sender) (utf8Chars sender) (utf8 "MiyanoBird")
    (utf8 "MiyanoBird") {} (StrBody_utf8Chars sender hsender)
    (unquoteBytes_utf8Chars sender hsender) (StrBody_utf8 _ (by decide))
    (unquoteBytes_utf8 _ (by decide))
  have hm := parseMessage_of_Unmarshal (utf8 "PRIVMSG") _ (by decide) _ hu
  have e1 : utf8 "PRIVMSG \x7b\"nick\": \"" =
      utf8 "PRIVMSG" ++ 0x20 :: 0x7B :: 0x22 :: (utf8 "nick" ++ [0x22, 0x3A, 0x20, 0x22]) := by
    decide
  have e2 : utf8 "\", \"data\": \"MiyanoBird\"\x7d" =
      0x22 :: 0x2C :: 0x20 :: 0x22 :: (utf8 "data" ++ 0x22 :: 0x3A :: 0x20 :: 0x22 ::
        (utf8 "MiyanoBird" ++ [0x22, 0x7D])) := by decide
  unfold sendFrame
  rw [e1, e2]
  simp only [List.append_assoc, List.cons_append, List.nil_append]
  exact hm

/-- Claim C4 at the sender `alice`: the frame written is
`PRIVMSG {"nick": "alice", "data": "MiyanoBird"}` and it parses back to the
nick `alice`. -/
theorem C4_send_parse_round_trip_witness :
    (∀ c ∈ ['a', 'l', 'i', 'c', 'e'], plainChar c = true) ∧
    utf8Chars ['a', 'l', 'i', 'c', 'e'] = utf8 "alice" ∧
    sendFrame (utf8Chars ['a', 'l', 'i', 'c', 'e']) =
      utf8 "PRIVMSG \x7b\"nick\": \"alice\", \"data\": \"MiyanoBird\"\x7d" ∧
    parseMessage (sendFrame (utf8Chars ['a', 'l', 'i', 'c', 'e'])) =
      .ok { Type_ := utf8 "PRIVMSG",
            Contents := some { Nick := utf8Chars ['a', 'l', 'i', 'c', 'e'],
                               Data := utf8 "MiyanoBird", Timestamp := 0 } } :=
  ⟨by decide, by decide, by decide, C4_send_parse_round_trip _ (by decide)⟩

/-- Claim C5: for every frame with a space whose remainder after the tag (the
bytes from the first space on, which is what `parseContents` hands to
`json.Unmarshal`) is rejected by the syntax check of `json.Unmarshal`,
`parseMessage` returns the tag and a non-nil `Contents` with every field at
its zero value. -/
theorem C5_malformed_body_gives_defaults (tag rest : List Nat) (htag : 0x20 ∉ tag)
    (hbad : checkValid (0x20 :: rest) ≠ none) :
    parseMessage (tag ++ 0x20 :: rest) =
      .ok { Type_ := tag, Contents := some { Nick := [], Data := [], Timestamp := 0 } } := by
  obtain ⟨c, err, hu, hm⟩ := parseMessage_split tag rest htag
  cases hcv : checkValid (0x20 :: rest) with
  | none => exact absurd hcv hbad
  | some msg =>
    rw [Unmarshal_invalid _ _ msg hcv] at hu
    cases hu
    exact hm

/-- Claim C5 at the truncated frame `PRIVMSG {"nick": "bob"`. -/
theorem C5_malformed_body_gives_defaults_witness :
    utf8 "PRIVMSG \x7b\"nick\": \"bob\"" = utf8 "PRIVMSG" ++ 0x20 :: utf8 "\x7b\"nick\": \"bob\"" ∧
    parseMessage (utf8 "PRIVMSG" ++ 0x20 :: utf8 "\x7b\"nick\": \"bob\"") =
      .ok { Type_ := utf8 "PRIVMSG",
            Contents := some { Nick := [], Data := [], Timestamp := 0 } } :=
  ⟨by decide,
   C5_malformed_body_gives_defaults (utf8 "PRIVMSG") (utf8 "\x7b\"nick\": \"bob\"")
     (by decide) (by decide)⟩

/-- Claim C6, amended: for every frame with a space whose remainder after the
tag passes the syntax check of `json.Unmarshal`, `parseMessage` returns the tag
and the `Contents` obtained by storing the members of the body one after the
other, each into the field its key matches as `encoding/json` matches keys
(exactly, or else without regard to case). So for each field `f`: when no
member for `f` carries a value that fits it, `f` is left at its default; when
some does, `f` holds the value of the last such member; and `f` comes out the
same as from the members for `f` alone, whatever the other members are. -/
theorem C6_field_tolerance (tag rest : List Nat) (htag : 0x20 ∉ tag)
    (hvalid : checkValid (0x20 :: rest) = none) :
    ∃ ms, bodyMembers (0x20 :: rest) = .ok ms ∧
      parseMessage (tag ++ 0x20 :: rest) =
        .ok { Type_ := tag, Contents := some (storeAll ms {}) } ∧
      ∀ f : Field,
        ((∀ m ∈ ms, m.isFor f = true → m.value.fits f = false) →
          (storeAll ms {}).get f = ({} : contents).get f) ∧
        (∀ ms1 m ms2, ms = ms1 ++ m :: ms2 → m.isFor f = true → m.value.fits f = true →
          (∀ m2 ∈ ms2, m2.isFor f = true → m2.value.fits f = false) →
          (storeAll ms {}).get f = (m.store {}).get f) ∧
        (storeAll ms {}).get f = (storeAll (ms.filter (fun m => m.isFor f)) {}).get f := by
  obtain ⟨ms, err, hms, hu⟩ := Unmarshal_members (0x20 :: rest) {} hvalid
  refine ⟨ms, hms, parseMessage_of_Unmarshal tag rest htag _ ⟨err, hu⟩, fun f => ⟨?_, ?_, ?_⟩⟩
  · exact storeAll_get_of_not f ms {}
  · intro ms1 m ms2 hsplit h1 h2 h3
    rw [hsplit]
    exact storeAll_get_last f ms1 ms2 m {} h1 h2 h3
  · exact storeAll_get_filter f ms {} {} rfl

/-- Claim C6 at the frame `PRIVMSG {"nick": "bob", "data": 5, "timestamp": 100}`:
the member for `data` carries a number, so `Data` stays empty, and `Nick` and
`Timestamp` are populated. -/
theorem C6_field_tolerance_witness :
    (0x20 ∉ utf8 "PRIVMSG") ∧
    checkValid (0x20 :: utf8 "\x7b\"nick\": \"bob\", \"data\": 5, \"timestamp\": 100\x7d") = none ∧
    (∃ ms, bodyMembers (0x20 :: utf8 "\x7b\"nick\": \"bob\", \"data\": 5, \"timestamp\": 100\x7d") =
        .ok ms ∧
      parseMessage (utf8 "PRIVMSG" ++
          0x20 :: utf8 "\x7b\"nick\": \"bob\", \"data\": 5, \"timestamp\": 100\x7d") =
        .ok { Type_ := utf8 "PRIVMSG", Contents := some (storeAll ms {}) } ∧
      ∀ f : Field,
        ((∀ m ∈ ms, m.isFor f = true → m.value.fits f = false) →
          (storeAll ms {}).get f = ({} : contents).get f) ∧
        (∀ ms1 m ms2, ms = ms1 ++ m :: ms2 → m.isFor f = true → m.value.fits f = true →
          (∀ m2 ∈ ms2, m2.isFor f = true → m2.value.fits f = false) →
          (storeAll ms {}).get f = (m.store {}).get f) ∧
        (storeAll ms {}).get f = (storeAll (ms.filter (fun m => m.isFor f)) {}).get f) ∧
    bodyMembers (0x20 :: utf8 "\x7b\"nick\": \"bob\", \"data\": 5, \"timestamp\": 100\x7d") =
      .ok [⟨utf8 "nick", .literal (utf8 "\"bob\"")⟩, ⟨utf8 "data", .literal (utf8 "5")⟩,
           ⟨utf8 "timestamp", .literal (utf8 "100")⟩] ∧
    parseMessage (utf8 "PRIVMSG \x7b\"nick\": \"bob\", \"data\": 5, \"timestamp\": 100\x7d") =
      .ok { Type_ := utf8 "PRIVMSG",
            Contents := some { Nick := utf8 "bob", Data := [], Timestamp := 100 } } :=
  ⟨by decide, by decide,
   C6_field_tolerance (utf8 "PRIVMSG")
     (utf8 "\x7b\"nick\": \"bob\", \"data\": 5, \"timestamp\": 100\x7d") (by decide) (by decide),
   by decide, by decide⟩

/-- Claim C6 as stated fails on the frame
`PRIVMSG {"NICK": "bob", "data": "hi", "timestamp": 100}`: the body is valid,
its keys are `NICK`, `data` and `timestamp`, so the key `nick` is missing, and
yet `Nick` is not left at its default: the decoder matches `NICK` to the field
without regard to case and stores `bob`. -/
theorem C6_field_tolerance_counterexample :
    checkValid (utf8 " \x7b\"NICK\": \"bob\", \"data\": \"hi\", \"timestamp\": 100\x7d") = none ∧
    bodyMembers (utf8 " \x7b\"NICK\": \"bob\", \"data\": \"hi\", \"timestamp\": 100\x7d") =
      .ok [⟨utf8 "NICK", .literal (utf8 "\"bob\"")⟩, ⟨utf8 "data", .literal (utf8 "\"hi\"")⟩,
           ⟨utf8 "timestamp", .literal (utf8 "100")⟩] ∧
    utf8 "nick" ∉ [utf8 "NICK", utf8 "data", utf8 "timestamp"] ∧
    parseMessage (utf8 "PRIVMSG \x7b\"NICK\": \"bob\", \"data\": \"hi\", \"timestamp\": 100\x7d") =
      .ok { Type_ := utf8 "PRIVMSG",
            Contents := some { Nick := utf8 "bob", Data := utf8 "hi", Timestamp := 100 } } ∧
    utf8 "bob" ≠ ({} : contents).Nick := by
  decide

/-! ## The receive loop only adds to the trace -/

theorem send_trace (T : Transport) (b : bot) (u : List Nat) (w : World) :
    ∃ evs, (b.send T u w).2.trace = w.trace ++ evs := by
  unfold bot.send
  cases b.conn with
  | none => exact ⟨[], by simp⟩
  | some conn => exact ⟨_, rfl⟩

theorem handle_trace (T : Transport) (b : bot) (msg : List Nat) (w w1 : World)
    (h : b.handle T msg w = .ok w1) : ∃ evs, w1.trace = w.trace ++ evs := by
  unfold bot.handle at h
  cases hp : parseMessage msg with
  | error e => simp [hp] at h
  | ok m =>
    simp only [hp] at h
    cases hc : m.Contents with
    | none =>
      simp only [hc] at h
      cases h
      exact ⟨_, rfl⟩
    | some c =>
      simp only [hc] at h
      split at h
      · obtain ⟨evs, he⟩ := send_trace T b c.Nick
          { w with trace := w.trace ++ [.Println msg] ++ [.PrintContents c] }
        split at h
        · rename_i err w3 hs
          cases h
          rw [hs] at he
          simp only at he
          exact ⟨_, by simp only [he, List.append_assoc]; rfl⟩
        · rename_i w3 hs
          cases h
          rw [hs] at he
          simp only at he
          exact ⟨_, by simp only [he, List.append_assoc]; rfl⟩
      · cases h
        exact ⟨_, rfl⟩

theorem listenIteration_trace (T : Transport) (b : bot) (w : World) :
    ∃ evs, (b.listenIteration T w).2.trace = w.trace ++ evs := by
  unfold bot.listenIteration
  cases b.conn with
  | none => exact ⟨[], by simp⟩
  | some conn =>
    simp only
    cases hi : w.inbox with
    | nil => exact ⟨_, rfl⟩
    | cons r rest =>
      cases r with
      | Err err => exact ⟨_, rfl⟩
      | Frame msg =>
        simp only
        cases hh : b.handle T msg { inbox := rest, trace := w.trace ++ [.ReadMessage conn] } with
        | error e => exact ⟨_, by simp only [List.append_assoc]; rfl⟩
        | ok w1 =>
          obtain ⟨evs, he⟩ := handle_trace T b msg _ w1 hh
          exact ⟨_, by simp only [he, List.append_assoc]; rfl⟩

theorem listenLoop_trace (T : Transport) (b : bot) (inbox : List ReadResult) :
    ∀ tr : List Event, ∃ evs, (listenLoop T b inbox tr).2.trace = tr ++ evs := by
  induction inbox with
  | nil =>
    intro tr
    unfold listenLoop
    obtain ⟨evs, he⟩ := listenIteration_trace T b { inbox := [], trace := tr }
    split <;> rename_i hq <;> rw [hq] at he <;> exact ⟨evs, he⟩
  | cons r rest ih =>
    intro tr
    unfold listenLoop
    obtain ⟨evs, he⟩ := listenIteration_trace T b { inbox := r :: rest, trace := tr }
    split <;> rename_i hq <;> rw [hq] at he
    · exact ⟨evs, he⟩
    · rename_i w
      obtain ⟨evs2, he2⟩ := ih w.trace
      simp only at he
      exact ⟨evs ++ evs2, by rw [he2, he, List.append_assoc]⟩

/-! ## The connection state machine -/

/-- Claim C7, as the code has it: for every token `t` and every bot that
carries the token field of `newBot t` (the bot `newBot t` itself, and that bot
after `setAddress`, which keeps the field), the first effect of `connect` is a
dial of the bot's address whose only header is `Cookie` with the value
`authtoken=` followed by `;jwt=` followed by `t`: the token appears once,
after `;jwt=`, and nothing stands between `authtoken=` and `;`. -/
theorem C7_cookie_value (T : Transport) (w : World) (t : List Nat) (b : bot)
    (hb : b.authToken = (newBot t).authToken) :
    (∀ url, (b.setAddress url).2.authToken = (newBot t).authToken) ∧
    ∃ evs, (b.connect T w).2.2.trace =
      w.trace ++
        Event.Dial b.address [("Cookie", utf8 "authtoken=" ++ utf8 ";jwt=" ++ t)] :: evs := by
  have hb2 : b.authToken = utf8 ";jwt=" ++ t := hb
  constructor
  · intro url
    unfold bot.setAddress
    split <;> exact hb
  · unfold bot.connect
    simp only [hb2]
    split
    · exact ⟨[], by simp⟩
    · rename_i conn _
      obtain ⟨evs, he⟩ := listenLoop_trace T
        { authToken := utf8 ";jwt=" ++ t, address := b.address, conn := some conn } w.inbox
        (w.trace ++ [Event.Dial b.address [("Cookie", utf8 "authtoken=" ++ (utf8 ";jwt=" ++ t))]])
      refine ⟨evs, ?_⟩
      simp only [bot.listen]
      rw [he]
      simp

/-- Claim C7 for the token `abc` on a bot that was given the address `ws://x`:
the dial goes to `ws://x` with the cookie value `authtoken=;jwt=abc`. -/
theorem C7_cookie_value_witness :
    (((newBot (utf8 "abc")).setAddress (utf8 "ws://x")).2.authToken =
      (newBot (utf8 "abc")).authToken) ∧
    ((∀ url, ((((newBot (utf8 "abc")).setAddress (utf8 "ws://x")).2).setAddress url).2.authToken =
        (newBot (utf8 "abc")).authToken) ∧
      ∃ evs, ((((newBot (utf8 "abc")).setAddress (utf8 "ws://x")).2).connect accepting {}).2.2.trace =
        ([] : List Event) ++
          Event.Dial (((newBot (utf8 "abc")).setAddress (utf8 "ws://x")).2).address
            [("Cookie", utf8 "authtoken=" ++ utf8 ";jwt=" ++ utf8 "abc")] :: evs) ∧
    ((((newBot (utf8 "abc")).setAddress (utf8 "ws://x")).2).connect accepting {}).2.2.trace =
      [Event.Dial (utf8 "ws://x") [("Cookie", utf8 "authtoken=;jwt=abc")], Event.ReadMessage 7] :=
  ⟨by decide,
   C7_cookie_value accepting {} (utf8 "abc") ((newBot (utf8 "abc")).setAddress (utf8 "ws://x")).2
     (by decide),
   by decide⟩

/-- Claim C7 fails as stated: for the token `abc` the cookie value the dial
receives is `authtoken=;jwt=abc`, not `authtoken=abc;jwt=abc`. -/
theorem C7_cookie_value_counterexample :
    ((newBot (utf8 "abc")).connect refusing {}).2.2.trace =
        [Event.Dial [] [("Cookie", utf8 "authtoken=;jwt=abc")]] ∧
      utf8 "authtoken=;jwt=abc" ≠ utf8 "authtoken=" ++ utf8 "abc" ++ utf8 ";jwt=" ++ utf8 "abc" := by
  decide

/-- Claim C8: `setAddress` returns an error exactly when the url is empty; with
an error the bot is unchanged; without one the address is the url and the
token and connection are unchanged. -/
theorem C8_setAddress (b : bot) (url : List Nat) :
    ((b.setAddress url).1 ≠ none ↔ url = []) ∧
    ((b.setAddress url).1 ≠ none →
      (b.setAddress url).1 = some (.New "url address not supplied") ∧ (b.setAddress url).2 = b) ∧
    ((b.setAddress url).1 = none →
      (b.setAddress url).2.address = url ∧ (b.setAddress url).2.authToken = b.authToken ∧
        (b.setAddress url).2.conn = b.conn) := by
  unfold bot.setAddress
  by_cases h : url = [] <;> simp [h]

/-- Claim C8 at concrete inputs: the empty url is refused and changes nothing,
the url `ws://x` is stored. -/
theorem C8_setAddress_witness :
    ((newBot (utf8 "abc")).setAddress []).1 = some (.New "url address not supplied") ∧
    ((newBot (utf8 "abc")).setAddress []).2 = newBot (utf8 "abc") ∧
    ((newBot (utf8 "abc")).setAddress (utf8 "ws://x")).2.address = utf8 "ws://x" :=
  ⟨((C8_setAddress (newBot (utf8 "abc")) []).2.1 (by decide)).1,
   ((C8_setAddress (newBot (utf8 "abc")) []).2.1 (by decide)).2,
   ((C8_setAddress (newBot (utf8 "abc")) (utf8 "ws://x")).2.2 (by decide)).1⟩

/-- Claim C9, as the code has it: `connect` never checks the address. For every
bot whose stored address is empty and every websocket library, the first
effect of `connect` is a dial of the empty url, and `connect` never returns
the error `url address not supplied` of `setAddress`. When the library refuses
that dial, `connect` returns the handshake-failed error with the response of
the dial, the dial is its only effect, and the bot is left as it was (no
connection handle when it had none). -/
theorem C9_connect_empty_address (T : Transport) (b : bot) (w : World)
    (haddr : b.address = []) :
    (∃ evs, (b.connect T w).2.2.trace =
      w.trace ++ Event.Dial [] [("Cookie", utf8 "authtoken=" ++ b.authToken)] :: evs) ∧
    (b.connect T w).1 ≠ .Returned (some (.New "url address not supplied")) ∧
    (∀ resp, T.Dial [] [("Cookie", utf8 "authtoken=" ++ b.authToken)] = .error resp →
      b.connect T w =
        (.Returned (some (.HandshakeFailed resp)), b,
          { inbox := w.inbox,
            trace := w.trace ++ [Event.Dial [] [("Cookie", utf8 "authtoken=" ++ b.authToken)]] }) ∧
      (b.conn = none → (b.connect T w).2.1.conn = none)) := by
  unfold bot.connect
  simp only [haddr]
  cases hd : T.Dial [] [("Cookie", utf8 "authtoken=" ++ b.authToken)] with
  | error resp0 =>
    refine ⟨⟨[], by simp⟩, by simp, ?_⟩
    intro resp hr
    cases hr
    exact ⟨rfl, fun h => h⟩
  | ok conn =>
    refine ⟨?_, by simp, ?_⟩
    · obtain ⟨evs, he⟩ := listenLoop_trace T
        { authToken := b.authToken, address := [], conn := some conn } w.inbox
        (w.trace ++ [Event.Dial [] [("Cookie", utf8 "authtoken=" ++ b.authToken)]])
      refine ⟨evs, ?_⟩
      simp only [bot.listen]
      rw [he]
      simp
    · intro resp hr
      cases hr

/-- Claim C9 at a concrete input: a fresh bot, never given an address, and a
library that refuses every dial. -/
theorem C9_connect_empty_address_witness :
    (newBot (utf8 "abc")).address = [] ∧
    ((∃ evs, ((newBot (utf8 "abc")).connect refusing {}).2.2.trace =
        ([] : List Event) ++
          Event.Dial [] [("Cookie", utf8 "authtoken=" ++ (newBot (utf8 "abc")).authToken)] :: evs) ∧
      ((newBot (utf8 "abc")).connect refusing {}).1 ≠
        .Returned (some (.New "url address not supplied")) ∧
      (∀ resp, refusing.Dial [] [("Cookie", utf8 "authtoken=" ++ (newBot (utf8 "abc")).authToken)] =
          .error resp →
        (newBot (utf8 "abc")).connect refusing {} =
          (.Returned (some (.HandshakeFailed resp)), newBot (utf8 "abc"),
            { inbox := [],
              trace := [] ++ [Event.Dial []
                [("Cookie", utf8 "authtoken=" ++ (newBot (utf8 "abc")).authToken)]] }) ∧
        ((newBot (utf8 "abc")).conn = none →
          ((newBot (utf8 "abc")).connect refusing {}).2.1.conn = none))) ∧
    (newBot (utf8 "abc")).connect refusing {} =
      (.Returned (some (.HandshakeFailed none)), newBot (utf8 "abc"),
        { inbox := [], trace := [Event.Dial [] [("Cookie", utf8 "authtoken=;jwt=abc")]] }) :=
  ⟨by decide, C9_connect_empty_address refusing (newBot (utf8 "abc")) {} (by decide), by decide⟩

/-- Claim C9 fails as stated: for a fresh bot with the empty address, `connect`
returns the handshake-failed error, which is not the error of `setAddress`. -/
theorem C9_connect_empty_address_counterexample :
    (newBot (utf8 "abc")).address = [] ∧
    ((newBot (utf8 "abc")).connect refusing {}).1 = .Returned (some (.HandshakeFailed none)) ∧
    ((newBot (utf8 "abc")).connect refusing {}).1 ≠
        .Returned (some (.New "url address not supplied")) := by
  decide

/-- Claim C10: for every bot with no connection handle, `close` returns the
error `connection already closed`, performs no effect on the transport (the
world, with its trace, is unchanged) and leaves the bot unchanged. -/
theorem C10_close_without_conn (T : Transport) (b : bot) (w : World) (h : b.conn = none) :
    b.close T w = (some (.New "connection already closed"), b, w) := by
  unfold bot.close
  simp [h]

/-- Claim C10 at a concrete input: a fresh bot. -/
theorem C10_close_without_conn_witness :
    (newBot (utf8 "abc")).close accepting {} =
      (some (.New "connection already closed"), newBot (utf8 "abc"), {}) :=
  C10_close_without_conn accepting (newBot (utf8 "abc")) {} (by decide)

/-! ## The reply, the receive loop and `close` -/

theorem writes_append (tr1 tr2 : List Event) : writes (tr1 ++ tr2) = writes tr1 ++ writes tr2 := by
  simp [writes]

/-- One iteration of the receive loop, for a bot with a connection, on a frame
that `parseMessage` decodes: the iteration ends normally, the frame is taken
from the inbox, and a frame is written exactly when the tag is `PRIVMSG`. -/
theorem listenIteration_frame (T : Transport) (b : bot) (conn : Conn) (w : World)
    (frame : List Nat) (inboxRest : List ReadResult) (tag : List Nat) (c : contents)
    (hconn : b.conn = some conn) (hin : w.inbox = .Frame frame :: inboxRest)
    (hp : parseMessage frame = .ok { Type_ := tag, Contents := some c }) :
    (b.listenIteration T w).1 = .ok (b.listenIteration T w).2 ∧
    (b.listenIteration T w).2.inbox = inboxRest ∧
    writes (b.listenIteration T w).2.trace = writes w.trace ++
      (if tag = utf8 "PRIVMSG" then [.WriteMessage conn TextMessage (sendFrame c.Nick)]
       else []) := by
  unfold bot.listenIteration
  simp only [hconn, hin, bot.handle, hp]
  by_cases ht : tag = utf8 "PRIVMSG"
  · simp only [ht, if_true, bot.send, hconn]
    cases T.WriteMessage conn TextMessage (sendFrame c.Nick) <;>
      simp [writes_append, writes, Event.isWrite]
  · simp [ht, writes_append, writes, Event.isWrite]

/-- Claim C11: for every bot with no connection handle and every username,
`send` returns the error `no connection available` and has no effect on the
transport (the world, with its trace, is unchanged); `send` never assigns to
the bot, which is why the model returns no new bot. -/
theorem C11_send_without_conn (T : Transport) (b : bot) (username : List Nat) (w : World)
    (h : b.conn = none) :
    b.send T username w = (some (.New "no connection available"), w) := by
  unfold bot.send
  simp [h]

/-- Claim C11 at a concrete input: a fresh bot and the username `alice`. -/
theorem C11_send_without_conn_witness :
    (newBot (utf8 "abc")).send accepting (utf8 "alice") {} =
      (some (.New "no connection available"), {}) :=
  C11_send_without_conn accepting (newBot (utf8 "abc")) (utf8 "alice") {} (by decide)

/-- Claim C12: for every inbound frame with the tag `PRIVMSG`, whose body
decodes to the contents `c`, one iteration of the receive loop of a bot with a
connection ends normally and writes exactly one frame to that connection, the
text frame `PRIVMSG {"nick": "<c.Nick>", "data": "MiyanoBird"}`. -/
theorem C12_privmsg_gets_one_reply (T : Transport) (b : bot) (conn : Conn) (w : World)
    (rest : List Nat) (inboxRest : List ReadResult) (hconn : b.conn = some conn)
    (hin : w.inbox = .Frame (utf8 "PRIVMSG" ++ 0x20 :: rest) :: inboxRest) :
    ∃ c, parseMessage (utf8 "PRIVMSG" ++ 0x20 :: rest) =
        .ok { Type_ := utf8 "PRIVMSG", Contents := some c } ∧
      (b.listenIteration T w).1 = .ok (b.listenIteration T w).2 ∧
      writes (b.listenIteration T w).2.trace = writes w.trace ++
        [.WriteMessage conn TextMessage
          (utf8 "PRIVMSG \x7b\"nick\": \"" ++ c.Nick ++ utf8 "\", \"data\": \"MiyanoBird\"\x7d")] := by
  obtain ⟨c, _, _, hp⟩ := parseMessage_split (utf8 "PRIVMSG") rest (by decide)
  obtain ⟨h1, _, h3⟩ := listenIteration_frame T b conn w _ inboxRest _ c hconn hin hp
  refine ⟨c, hp, h1, ?_⟩
  rw [h3, if_pos rfl]
  rfl

/-- Claim C12 at the frame `PRIVMSG {"nick": "carol", "data": "hello", "timestamp": 5}`:
the iteration reads the frame, prints it and its contents, and writes
`PRIVMSG {"nick": "carol", "data": "MiyanoBird"}`. -/
theorem C12_privmsg_gets_one_reply_witness :
    (∃ c, parseMessage (utf8 "PRIVMSG" ++
          0x20 :: utf8 "\x7b\"nick\": \"carol\", \"data\": \"hello\", \"timestamp\": 5\x7d") =
        .ok { Type_ := utf8 "PRIVMSG", Contents := some c } ∧
      (bot.listenIteration accepting { conn := some 7 }
          { inbox := [.Frame (utf8 "PRIVMSG" ++
              0x20 :: utf8 "\x7b\"nick\": \"carol\", \"data\": \"hello\", \"timestamp\": 5\x7d")] }).1 =
        .ok (bot.listenIteration accepting { conn := some 7 }
          { inbox := [.Frame (utf8 "PRIVMSG" ++
              0x20 :: utf8 "\x7b\"nick\": \"carol\", \"data\": \"hello\", \"timestamp\": 5\x7d")] }).2 ∧
      writes (bot.listenIteration accepting { conn := some 7 }
          { inbox := [.Frame (utf8 "PRIVMSG" ++
              0x20 :: utf8 "\x7b\"nick\": \"carol\", \"data\": \"hello\", \"timestamp\": 5\x7d")] }).2.trace =
        writes [] ++ [.WriteMessage 7 TextMessage
          (utf8 "PRIVMSG \x7b\"nick\": \"" ++ c.Nick ++ utf8 "\", \"data\": \"MiyanoBird\"\x7d")]) ∧
    (bot.listenIteration accepting { conn := some 7 }
        { inbox := [.Frame
            (utf8 "PRIVMSG \x7b\"nick\": \"carol\", \"data\": \"hello\", \"timestamp\": 5\x7d")] }).2 =
      { inbox := [],
        trace := [.ReadMessage 7,
          .Println (utf8 "PRIVMSG \x7b\"nick\": \"carol\", \"data\": \"hello\", \"timestamp\": 5\x7d"),
          .PrintContents { Nick := utf8 "carol", Data := utf8 "hello", Timestamp := 5 },
          .WriteMessage 7 TextMessage
            (utf8 "PRIVMSG \x7b\"nick\": \"carol\", \"data\": \"MiyanoBird\"\x7d")] } :=
  ⟨C12_privmsg_gets_one_reply accepting { conn := some 7 } 7
     { inbox := [.Frame (utf8 "PRIVMSG" ++
         0x20 :: utf8 "\x7b\"nick\": \"carol\", \"data\": \"hello\", \"timestamp\": 5\x7d")] }
     (utf8 "\x7b\"nick\": \"carol\", \"data\": \"hello\", \"timestamp\": 5\x7d") [] rfl rfl,
   by decide⟩

/-- Claim C13: for every bot holding a connection handle whose close succeeds,
`close` closes that handle, returns no error and leaves the bot without a
handle, address and token unchanged; a second `close` on the resulting bot
returns the error `connection already closed`. -/
theorem C13_close_then_close (T : Transport) (b : bot) (conn : Conn) (w : World)
    (hconn : b.conn = some conn) (hclose : T.Close conn = none) :
    b.close T w = (none, { b with conn := none }, { w with trace := w.trace ++ [.Close conn] }) ∧
    (b.close T w).2.1.address = b.address ∧ (b.close T w).2.1.authToken = b.authToken ∧
    (b.close T w).2.1.conn = none ∧
    (b.close T w).2.1.close T (b.close T w).2.2 =
      (some (.New "connection already closed"), (b.close T w).2.1, (b.close T w).2.2) := by
  have h : b.close T w =
      (none, { b with conn := none }, { w with trace := w.trace ++ [.Close conn] }) := by
    unfold bot.close
    simp [hconn, hclose]
  rw [h]
  exact ⟨rfl, rfl, rfl, rfl, rfl⟩

/-- Claim C13 at a concrete input: a bot with handle 7. -/
theorem C13_close_then_close_witness :
    bot.close accepting { address := utf8 "ws://x", conn := some 7 } {} =
      (none, { address := utf8 "ws://x", conn := none }, { trace := [.Close 7] }) ∧
    (bot.close accepting (bot.close accepting
        { address := utf8 "ws://x", conn := some 7 } {}).2.1 { trace := [.Close 7] }).1 =
      some (.New "connection already closed") :=
  ⟨(C13_close_then_close accepting { address := utf8 "ws://x", conn := some 7 } 7 {}
      rfl rfl).1,
   by decide⟩

/-- Claim C14: for every bot, when the dial fails, `connect` returns the
handshake-failed error carrying the response of the dial; its only effect is
the dial, so the receive loop is not started and no frame is read (the inbox
is untouched); the bot is unchanged. -/
theorem C14_connect_dial_fails (T : Transport) (b : bot) (w : World) (resp : Option Nat)
    (hdial : T.Dial b.address [("Cookie", utf8 "authtoken=" ++ b.authToken)] = .error resp) :
    b.connect T w =
      (.Returned (some (.HandshakeFailed resp)), b,
        { inbox := w.inbox,
          trace := w.trace ++
            [.Dial b.address [("Cookie", utf8 "authtoken=" ++ b.authToken)]] }) := by
  unfold bot.connect
  simp only [hdial]

/-- Claim C14 at a concrete input: a bot with an address, a library that
refuses every dial and a frame waiting that is never read. -/
theorem C14_connect_dial_fails_witness :
    bot.connect refusing { authToken := utf8 ";jwt=abc", address := utf8 "ws://x" }
        { inbox := [.Frame (utf8 "PRIVMSG x")] } =
      (.Returned (some (.HandshakeFailed none)),
        { authToken := utf8 ";jwt=abc", address := utf8 "ws://x" },
        { inbox := [.Frame (utf8 "PRIVMSG x")],
          trace := [.Dial (utf8 "ws://x") [("Cookie", utf8 "authtoken=" ++ utf8 ";jwt=abc")]] }) :=
  C14_connect_dial_fails refusing { authToken := utf8 ";jwt=abc", address := utf8 "ws://x" }
    { inbox := [.Frame (utf8 "PRIVMSG x")] } none rfl

/-- Claim C15: for every inbound frame with a space, `parseMessage` returns a
message with contents, and one iteration of the receive loop of a bot with a
connection calls `send`, whose one effect is to write a reply frame, exactly
when the tag is the byte string `PRIVMSG`: then the reply goes to the decoded
nick, and for every other tag nothing is written. -/
theorem C15_reply_iff_privmsg (T : Transport) (b : bot) (conn : Conn) (w : World)
    (frame : List Nat) (inboxRest : List ReadResult) (hconn : b.conn = some conn)
    (hspace : 0x20 ∈ frame) (hin : w.inbox = .Frame frame :: inboxRest) :
    ∃ tag c, parseMessage frame = .ok { Type_ := tag, Contents := some c } ∧
      (b.listenIteration T w).1 = .ok (b.listenIteration T w).2 ∧
      (tag = utf8 "PRIVMSG" →
        writes (b.listenIteration T w).2.trace =
          writes w.trace ++ [.WriteMessage conn TextMessage (sendFrame c.Nick)]) ∧
      (tag ≠ utf8 "PRIVMSG" →
        writes (b.listenIteration T w).2.trace = writes w.trace) ∧
      ((∃ ev ∈ (b.listenIteration T w).2.trace.drop w.trace.length, ev.isWrite = true) ↔
        tag = utf8 "PRIVMSG") := by
  obtain ⟨pre, rest, hs, hpre, _⟩ := IndexByte_split 0x20 frame hspace
  obtain ⟨c, _, _, hp⟩ := parseMessage_split pre rest hpre
  rw [← hs] at hp
  obtain ⟨h1, _, h3⟩ := listenIteration_frame T b conn w frame inboxRest pre c hconn hin hp
  obtain ⟨evs, hevs⟩ := listenIteration_trace T b w
  have hw : writes evs =
      (if pre = utf8 "PRIVMSG" then [.WriteMessage conn TextMessage (sendFrame c.Nick)]
       else []) := by
    rw [hevs, writes_append] at h3
    exact List.append_cancel_left h3
  refine ⟨pre, c, hp, h1, ?_, ?_, ?_⟩
  · intro ht
    rw [h3, if_pos ht]
  · intro ht
    rw [h3, if_neg ht, List.append_nil]
  · rw [hevs, List.drop_left]
    constructor
    · rintro ⟨ev, hev, hisw⟩
      by_contra ht
      rw [if_neg ht] at hw
      have : ev ∈ writes evs := List.mem_filter.mpr ⟨hev, hisw⟩
      rw [hw] at this
      cases this
    · intro ht
      rw [if_pos ht] at hw
      have : Event.WriteMessage conn TextMessage (sendFrame c.Nick) ∈ writes evs := by
        rw [hw]
        exact List.mem_singleton.mpr rfl
      exact ⟨_, (List.mem_filter.mp this).1, (List.mem_filter.mp this).2⟩

/-- Claim C15 at the frame `privmsg {"nick": "carol"}`, whose tag differs from
`PRIVMSG` by case only: the frame is read and printed and nothing is written. -/
theorem C15_reply_iff_privmsg_witness :
    (∃ tag c, parseMessage (utf8 "privmsg \x7b\"nick\": \"carol\"\x7d") =
        .ok { Type_ := tag, Contents := some c } ∧
      (bot.listenIteration accepting { conn := some 7 }
          { inbox := [.Frame (utf8 "privmsg \x7b\"nick\": \"carol\"\x7d")] }).1 =
        .ok (bot.listenIteration accepting { conn := some 7 }
          { inbox := [.Frame (utf8 "privmsg \x7b\"nick\": \"carol\"\x7d")] }).2 ∧
      (tag = utf8 "PRIVMSG" →
        writes (bot.listenIteration accepting { conn := some 7 }
            { inbox := [.Frame (utf8 "privmsg \x7b\"nick\": \"carol\"\x7d")] }).2.trace =
          writes [] ++ [.WriteMessage 7 TextMessage (sendFrame c.Nick)]) ∧
      (tag ≠ utf8 "PRIVMSG" →
        writes (bot.listenIteration accepting { conn := some 7 }
            { inbox := [.Frame (utf8 "privmsg \x7b\"nick\": \"carol\"\x7d")] }).2.trace =
          writes []) ∧
      ((∃ ev ∈ (bot.listenIteration accepting { conn := some 7 }
            { inbox := [.Frame (utf8 "privmsg \x7b\"nick\": \"carol\"\x7d")] }).2.trace.drop
              ([] : List Event).length, ev.isWrite = true) ↔
        tag = utf8 "PRIVMSG")) ∧
    (bot.listenIteration accepting { conn := some 7 }
        { inbox := [.Frame (utf8 "privmsg \x7b\"nick\": \"carol\"\x7d")] }).2 =
      { inbox := [],
        trace := [.ReadMessage 7, .Println (utf8 "privmsg \x7b\"nick\": \"carol\"\x7d")] } :=
  ⟨C15_reply_iff_privmsg accepting { conn := some 7 } 7
     { inbox := [.Frame (utf8 "privmsg \x7b\"nick\": \"carol\"\x7d")] }
     (utf8 "privmsg \x7b\"nick\": \"carol\"\x7d") [] rfl (by decide) rfl,
   by decide⟩

/-- Whenever `parseMessage` returns, the message has contents. -/
theorem parseMessage_contents (frame : List Nat) (m : message)
    (h : parseMessage frame = .ok m) : m.Contents ≠ none := by
  unfold parseMessage at h
  simp only at h
  split at h
  · cases h
  · split at h
    · cases h
    · cases h
      simp

/-- The nick decoded from a body that fails the syntax check, or that is valid
and has no member for `Nick` with a string value, is empty. -/
theorem parseMessage_nick_empty (tag rest : List Nat) (htag : 0x20 ∉ tag)
    (h : checkValid (0x20 :: rest) ≠ none ∨
      ∃ ms, bodyMembers (0x20 :: rest) = .ok ms ∧
        ∀ m ∈ ms, m.isFor .Nick = true → m.value.fits .Nick = false) :
    ∃ c, parseMessage (tag ++ 0x20 :: rest) = .ok { Type_ := tag, Contents := some c } ∧
      c.Nick = [] := by
  cases hcv : checkValid (0x20 :: rest) with
  | some msg =>
    exact ⟨_, parseMessage_of_Unmarshal tag rest htag _
      ⟨_, Unmarshal_invalid (0x20 :: rest) {} msg hcv⟩, rfl⟩
  | none =>
    rcases h with h | ⟨ms, hms, hno⟩
    · exact absurd hcv h
    · obtain ⟨ms2, err, hms2, hu⟩ := Unmarshal_members (0x20 :: rest) {} hcv
      rw [hms] at hms2
      cases hms2
      refine ⟨_, parseMessage_of_Unmarshal tag rest htag _ ⟨err, hu⟩, ?_⟩
      have hg := storeAll_get_of_not .Nick ms {} hno
      simp only [contents.get, Sum.inl.injEq] at hg
      exact hg

/-- Claim C16, amended: the test `m.Contents != nil` of the receive loop never
fails, because every message `parseMessage` returns has contents. So for every
frame with the tag `PRIVMSG` whose body fails the syntax check of
`json.Unmarshal`, or is valid and has no member that the decoder matches to
`Nick` (by the exact key `nick`, or else by a key equal to it without regard to
case) with a string value, one iteration of the receive loop of a bot with a
connection still writes one reply, to the empty nick: the frame
`PRIVMSG {"nick": "", "data": "MiyanoBird"}`. -/
theorem C16_reply_to_empty_nick (T : Transport) (b : bot) (conn : Conn) (w : World)
    (rest : List Nat) (inboxRest : List ReadResult) (hconn : b.conn = some conn)
    (hin : w.inbox = .Frame (utf8 "PRIVMSG" ++ 0x20 :: rest) :: inboxRest)
    (hbody : checkValid (0x20 :: rest) ≠ none ∨
      ∃ ms, bodyMembers (0x20 :: rest) = .ok ms ∧
        ∀ m ∈ ms, m.isFor .Nick = true → m.value.fits .Nick = false) :
    (∀ frame m, parseMessage frame = .ok m → m.Contents ≠ none) ∧
    (b.listenIteration T w).1 = .ok (b.listenIteration T w).2 ∧
    writes (b.listenIteration T w).2.trace = writes w.trace ++
      [.WriteMessage conn TextMessage
        (utf8 "PRIVMSG \x7b\"nick\": \"\", \"data\": \"MiyanoBird\"\x7d")] := by
  obtain ⟨c, hp, hnick⟩ := parseMessage_nick_empty (utf8 "PRIVMSG") rest (by decide) hbody
  obtain ⟨h1, _, h3⟩ := listenIteration_frame T b conn w _ inboxRest _ c hconn hin hp
  refine ⟨parseMessage_contents, h1, ?_⟩
  rw [h3, if_pos rfl, hnick]
  rfl

/-- Claim C16 at the truncated frame `PRIVMSG {"nick": "bob"`, whose body is
malformed; the frame `PRIVMSG {"data": "x"}`, which has no nick, gets the same
reply. -/
theorem C16_reply_to_empty_nick_witness :
    ((∀ frame m, parseMessage frame = .ok m → m.Contents ≠ none) ∧
      (bot.listenIteration accepting { conn := some 7 }
          { inbox := [.Frame (utf8 "PRIVMSG" ++ 0x20 :: utf8 "\x7b\"nick\": \"bob\"")] }).1 =
        .ok (bot.listenIteration accepting { conn := some 7 }
          { inbox := [.Frame (utf8 "PRIVMSG" ++ 0x20 :: utf8 "\x7b\"nick\": \"bob\"")] }).2 ∧
      writes (bot.listenIteration accepting { conn := some 7 }
          { inbox := [.Frame (utf8 "PRIVMSG" ++ 0x20 :: utf8 "\x7b\"nick\": \"bob\"")] }).2.trace =
        writes [] ++ [.WriteMessage 7 TextMessage
          (utf8 "PRIVMSG \x7b\"nick\": \"\", \"data\": \"MiyanoBird\"\x7d")]) ∧
    (bot.listenIteration accepting { conn := some 7 }
        { inbox := [.Frame (utf8 "PRIVMSG \x7b\"nick\": \"bob\"")] }).2 =
      { inbox := [],
        trace := [.ReadMessage 7, .Println (utf8 "PRIVMSG \x7b\"nick\": \"bob\""),
          .PrintContents { Nick := [], Data := [], Timestamp := 0 },
          .WriteMessage 7 TextMessage
            (utf8 "PRIVMSG \x7b\"nick\": \"\", \"data\": \"MiyanoBird\"\x7d")] } ∧
    (bot.listenIteration accepting { conn := some 7 }
        { inbox := [.Frame (utf8 "PRIVMSG \x7b\"data\": \"x\"\x7d")] }).2 =
      { inbox := [],
        trace := [.ReadMessage 7, .Println (utf8 "PRIVMSG \x7b\"data\": \"x\"\x7d"),
          .PrintContents { Nick := [], Data := utf8 "x", Timestamp := 0 },
          .WriteMessage 7 TextMessage
            (utf8 "PRIVMSG \x7b\"nick\": \"\", \"data\": \"MiyanoBird\"\x7d")] } :=
  ⟨C16_reply_to_empty_nick accepting { conn := some 7 } 7
     { inbox := [.Frame (utf8 "PRIVMSG" ++ 0x20 :: utf8 "\x7b\"nick\": \"bob\"")] }
     (utf8 "\x7b\"nick\": \"bob\"") [] rfl rfl (Or.inl (by decide)),
   by decide, by decide⟩

/-- Claim C16 as stated fails on the frame `PRIVMSG {"NICK": "bob"}`: the body
is valid and its only key is `NICK`, so it has no key `nick`, and yet the reply
does not go to the empty nick: the decoder matches `NICK` to the field `Nick`
without regard to case, and the loop writes
`PRIVMSG {"nick": "bob", "data": "MiyanoBird"}`. -/
theorem C16_reply_to_empty_nick_counterexample :
    checkValid (utf8 " \x7b\"NICK\": \"bob\"\x7d") = none ∧
    bodyMembers (utf8 " \x7b\"NICK\": \"bob\"\x7d") =
      .ok [⟨utf8 "NICK", .literal (utf8 "\"bob\"")⟩] ∧
    utf8 "nick" ≠ utf8 "NICK" ∧
    (bot.listenIteration accepting { conn := some 7 }
        { inbox := [.Frame (utf8 "PRIVMSG \x7b\"NICK\": \"bob\"\x7d")] }).2 =
      { inbox := [],
        trace := [.ReadMessage 7, .Println (utf8 "PRIVMSG \x7b\"NICK\": \"bob\"\x7d"),
          .PrintContents { Nick := utf8 "bob", Data := [], Timestamp := 0 },
          .WriteMessage 7 TextMessage
            (utf8 "PRIVMSG \x7b\"nick\": \"bob\", \"data\": \"MiyanoBird\"\x7d")] } ∧
    utf8 "PRIVMSG \x7b\"nick\": \"bob\", \"data\": \"MiyanoBird\"\x7d" ≠
      utf8 "PRIVMSG \x7b\"nick\": \"\", \"data\": \"MiyanoBird\"\x7d" := by
  decide

/-- Claim C17: `send` puts the username between the two fixed parts of the
frame byte for byte, with no JSON escaping, and so `parseMessage` does not
always give the sender back from the frame `send` builds. For the sender `a"b`
the body is not valid JSON and the nick decoded is empty; for the sender `a\nb`
(a backslash and the letter `n`) the nick decoded has a line feed in their place. -/
theorem C17_round_trip_not_total :
    (∀ username, sendFrame username =
      utf8 "PRIVMSG \x7b\"nick\": \"" ++ username ++ utf8 "\", \"data\": \"MiyanoBird\"\x7d") ∧
    (∃ sender c, parseMessage (sendFrame sender) =
        .ok { Type_ := utf8 "PRIVMSG", Contents := some c } ∧ c.Nick ≠ sender) ∧
    parseMessage (sendFrame (utf8 "a\"b")) =
      .ok { Type_ := utf8 "PRIVMSG", Contents := some { Nick := [], Data := [], Timestamp := 0 } } ∧
    parseMessage (sendFrame (utf8 "a\\nb")) =
      .ok { Type_ := utf8 "PRIVMSG",
            Contents := some { Nick := [0x61, 0x0A, 0x62], Data := utf8 "MiyanoBird",
                               Timestamp := 0 } } ∧
    utf8 "a\\nb" = [0x61, 0x5C, 0x6E, 0x62] :=
  ⟨fun _ => rfl, ⟨utf8 "a\"b", { Nick := [], Data := [], Timestamp := 0 }, by decide, by decide⟩,
   by decide, by decide, by decide⟩

/-- Claim C18: for every bot holding a connection handle whose close fails,
`close` returns the error of the transport and leaves the bot as it was, with
the same handle, address and token; its one effect is the close it tried. -/
theorem C18_close_fails (T : Transport) (b : bot) (conn : Conn) (w : World) (err : GoError)
    (hconn : b.conn = some conn) (hclose : T.Close conn = some err) :
    b.close T w = (some err, b, { inbox := w.inbox, trace := w.trace ++ [.Close conn] }) ∧
    (b.close T w).2.1.conn = some conn := by
  have h : b.close T w =
      (some err, b, { inbox := w.inbox, trace := w.trace ++ [.Close conn] }) := by
    unfold bot.close
    simp [hconn, hclose]
  rw [h]
  exact ⟨rfl, hconn⟩

/-- Claim C18 at a concrete input: a bot with handle 7 on a library whose
close fails. -/
theorem C18_close_fails_witness :
    bot.close closeFailing { address := utf8 "ws://x", conn := some 7 } {} =
      (some (.Transport 3), { address := utf8 "ws://x", conn := some 7 },
        { inbox := [], trace := [] ++ [.Close 7] }) ∧
    (bot.close closeFailing { address := utf8 "ws://x", conn := some 7 } {}).2.1.conn =
      some 7 :=
  C18_close_fails closeFailing { address := utf8 "ws://x", conn := some 7 } 7 {}
    (.Transport 3) rfl rfl

end BotGo
